import Mathlib

/-!
Verification development for the blockchain indexer's hard core:
codecs (hex, Blake2b-256, Base58, address derivation, VLQ register
decoding), the block processor (document parsing, monotonic counters,
relational batch execution), and the sync service's node selection and
batch fan-out.  Machine integers from the source (u8/u32/i32/i64/u64/usize)
are embedded as Nat/Int, with explicit reduction modulo 2^64 where the
source relies on wrapping word arithmetic (Blake2b).
-/

namespace Indexer

/-! ## Hex codec (model of the hex crate's decode/encode used by the source) -/

/-- Value of one hex digit character, case insensitive; none for non-hex. -/
def hexVal (c : Char) : Option Nat :=
  let n := c.toNat
  if 48 ≤ n ∧ n ≤ 57 then some (n - 48)
  else if 97 ≤ n ∧ n ≤ 102 then some (n - 87)
  else if 65 ≤ n ∧ n ≤ 70 then some (n - 55)
  else none

/-- Decode a list of hex characters into bytes; fails on odd length or a
non-hex character, as the hex crate's decode does. -/
def hexDecodeL : List Char → Option (List Nat)
  | [] => some []
  | [_] => none
  | c1 :: c2 :: rest => do
    let h ← hexVal c1
    let l ← hexVal c2
    let t ← hexDecodeL rest
    pure ((h * 16 + l) :: t)

/-- Decode a hex string into bytes. -/
def hexDecode (s : String) : Option (List Nat) :=
  hexDecodeL s.data

/-- Lowercase hex digit for a value below 16. -/
def hexDigit (n : Nat) : Char :=
  if n < 10 then Char.ofNat (48 + n) else Char.ofNat (87 + n)

/-- Encode bytes as a lowercase hex string (model of hex::encode). -/
def hexEncode (bs : List Nat) : String :=
  String.mk (bs.foldr (fun b acc => hexDigit (b / 16) :: hexDigit (b % 16) :: acc) [])

/-! ## Blake2b-256 (RFC 7693, unkeyed, 32-byte digest), as used through the
blake2 crate by `src/utils/ergo_tree.rs`.  64-bit words are Nats reduced
modulo 2^64. -/

/-- Blake2b initialization vector. -/
def blakeIV : List Nat :=
  [0x6a09e667f3bcc908, 0xbb67ae8584caa73b, 0x3c6ef372fe94f82b, 0xa54ff53a5f1d36f1,
   0x510e527fade682d1, 0x9b05688c2b3e6c1f, 0x1f83d9abfb41bd6b, 0x5be0cd19137e2179]

/-- Blake2 message schedule permutations. -/
def blakeSigma : List (List Nat) :=
  [[0, 1, 2, 3, 4, 5, 6, 7, 8, 9, 10, 11, 12, 13, 14, 15],
   [14, 10, 4, 8, 9, 15, 13, 6, 1, 12, 0, 2, 11, 7, 5, 3],
   [11, 8, 12, 0, 5, 2, 15, 13, 10, 14, 3, 6, 7, 1, 9, 4],
   [7, 9, 3, 1, 13, 12, 11, 14, 2, 6, 5, 10, 4, 0, 15, 8],
   [9, 0, 5, 7, 2, 4, 10, 15, 14, 1, 11, 12, 6, 8, 3, 13],
   [2, 12, 6, 10, 0, 11, 8, 3, 4, 13, 7, 5, 15, 14, 1, 9],
   [12, 5, 1, 15, 14, 13, 4, 10, 0, 7, 6, 3, 9, 2, 8, 11],
   [13, 11, 7, 14, 12, 1, 3, 9, 5, 0, 15, 4, 8, 6, 2, 10],
   [6, 15, 14, 9, 11, 3, 0, 8, 12, 2, 13, 7, 1, 4, 10, 5],
   [10, 2, 8, 4, 7, 6, 1, 5, 15, 11, 9, 14, 3, 12, 13, 0]]

/-- Rotate a 64-bit word right by n bits. -/
def rotr64 (x n : Nat) : Nat :=
  ((x >>> n) ||| (x <<< (64 - n))) % 2 ^ 64

/-- Blake2 G mixing function on the 16-word working vector. -/
def blakeG (v : List Nat) (a b c d x y : Nat) : List Nat :=
  let va := (v.getD a 0 + v.getD b 0 + x) % 2 ^ 64
  let vd := rotr64 ((v.getD d 0) ^^^ va) 32
  let vc := (v.getD c 0 + vd) % 2 ^ 64
  let vb := rotr64 ((v.getD b 0) ^^^ vc) 24
  let va2 := (va + vb + y) % 2 ^ 64
  let vd2 := rotr64 (vd ^^^ va2) 16
  let vc2 := (vc + vd2) % 2 ^ 64
  let vb2 := rotr64 (vb ^^^ vc2) 63
  ((((v.set a va2).set b vb2).set c vc2).set d vd2)

/-- One Blake2b round over the working vector given the 16 message words. -/
def blakeRound (m v : List Nat) (i : Nat) : List Nat :=
  let s := blakeSigma.getD (i % 10) []
  let mi := fun j => m.getD (s.getD j 0) 0
  let v := blakeG v 0 4 8 12 (mi 0) (mi 1)
  let v := blakeG v 1 5 9 13 (mi 2) (mi 3)
  let v := blakeG v 2 6 10 14 (mi 4) (mi 5)
  let v := blakeG v 3 7 11 15 (mi 6) (mi 7)
  let v := blakeG v 0 5 10 15 (mi 8) (mi 9)
  let v := blakeG v 1 6 11 12 (mi 10) (mi 11)
  let v := blakeG v 2 7 8 13 (mi 12) (mi 13)
  blakeG v 3 4 9 14 (mi 14) (mi 15)

/-- Little-endian word value of a byte list (first byte least significant). -/
def leWord (bs : List Nat) : Nat :=
  bs.foldr (fun b acc => acc * 256 + b) 0

/-- The 16 message words of one 128-byte block. -/
def blockWords (block : List Nat) : List Nat :=
  (List.range 16).map (fun i => leWord ((block.drop (8 * i)).take 8))

/-- Blake2b compression function: state h, one message block (as 16 words),
byte counter t, finalization flag. -/
def blakeCompress (h m : List Nat) (t : Nat) (last : Bool) : List Nat :=
  let v := h ++ blakeIV
  let v := v.set 12 ((v.getD 12 0) ^^^ (t % 2 ^ 64))
  let v := v.set 13 ((v.getD 13 0) ^^^ (t / 2 ^ 64 % 2 ^ 64))
  let v := if last then v.set 14 ((v.getD 14 0) ^^^ (2 ^ 64 - 1)) else v
  let v := (List.range 12).foldl (fun v i => blakeRound m v i) v
  (List.range 8).map (fun i => (h.getD i 0) ^^^ ((v.getD i 0) ^^^ (v.getD (i + 8) 0)))

/-- Process the message in 128-byte blocks; the final (padded) block is
compressed with the total byte count and the finalization flag.  The fuel
argument only bounds the number of iterations (each step drops 128 bytes,
so `msg.length` is always sufficient and the fuel-0 case coincides with
the final-block case, which is the only reachable one there). -/
def blakeRunGo : Nat → List Nat → List Nat → Nat → List Nat
  | 0, h, msg, processed =>
    blakeCompress h (blockWords (msg ++ List.replicate (128 - msg.length) 0))
      (processed + msg.length) true
  | fuel + 1, h, msg, processed =>
    if msg.length ≤ 128 then
      blakeCompress h (blockWords (msg ++ List.replicate (128 - msg.length) 0))
        (processed + msg.length) true
    else
      blakeRunGo fuel (blakeCompress h (blockWords (msg.take 128)) (processed + 128) false)
        (msg.drop 128) (processed + 128)

/-- Hash loop entry point. -/
def blakeRun (h : List Nat) (msg : List Nat) (processed : Nat) : List Nat :=
  blakeRunGo msg.length h msg processed

/-- Blake2b-256: unkeyed, 32-byte digest, of a byte list. -/
def blake2b256 (msg : List Nat) : List Nat :=
  let h0 := blakeIV.set 0 ((blakeIV.getD 0 0) ^^^ 0x01010020)
  let h := blakeRun h0 msg 0
  (List.range 32).map (fun i => ((h.getD (i / 8) 0) >>> (8 * (i % 8))) % 256)

/-! ## Base58 (model of `base58_encode` in `src/utils/ergo_tree.rs`) -/

/-- The Base58 alphabet used by the source, as a character list. -/
def BASE58_ALPHABET : List Char :=
  ['1', '2', '3', '4', '5', '6', '7', '8', '9',
   'A', 'B', 'C', 'D', 'E', 'F', 'G', 'H', 'J', 'K', 'L', 'M', 'N',
   'P', 'Q', 'R', 'S', 'T', 'U', 'V', 'W', 'X', 'Y', 'Z',
   'a', 'b', 'c', 'd', 'e', 'f', 'g', 'h', 'i', 'j', 'k', 'm', 'n',
   'o', 'p', 'q', 'r', 's', 't', 'u', 'v', 'w', 'x', 'y', 'z']

/-- Body of the source's long-division inner loop: one byte of the running
base-256 number is divided by 58, carrying the remainder; a quotient digit
is pushed unless it would be a leading zero. -/
def b58Div1 (st : List Nat × Nat) (byte : Nat) : List Nat × Nat :=
  let acc := st.2 * 256 + byte
  let quotient := acc / 58
  let remainder := acc % 58
  (if st.1 ≠ [] ∨ quotient > 0 then st.1 ++ [quotient] else st.1, remainder)

/-- One pass of the source's long-division inner loop: divide the base-256
digit list by 58, returning the quotient digits (leading zeros suppressed
by the push condition) and the remainder. -/
def b58DivStep (num : List Nat) : List Nat × Nat :=
  num.foldl b58Div1 ([], 0)

/-- Base-256 big-endian value of a digit list. -/
def byteVal : List Nat → Nat
  | [] => 0
  | b :: t => b * 256 ^ t.length + byteVal t

/-- Long division of a base-256 digit list by 58 with an incoming remainder,
keeping every quotient digit (reference form of the inner loop, used to
reason about `b58DivStep`). -/
def qr58 (r : Nat) : List Nat → List Nat × Nat
  | [] => ([], r)
  | d :: t =>
    let acc := r * 256 + d
    let rest := qr58 (acc % 58) t
    ((acc / 58) :: rest.1, rest.2)

theorem qr58_length (r : Nat) (num : List Nat) : (qr58 r num).1.length = num.length := by
  induction num generalizing r with
  | nil => rfl
  | cons d t ih => simp [qr58, ih]

theorem byteVal_dropWhile_zero (l : List Nat) :
    byteVal (l.dropWhile (· = 0)) = byteVal l := by
  induction l with
  | nil => rfl
  | cons b t ih =>
    by_cases hb : b = 0
    · subst hb; simpa [List.dropWhile, byteVal] using ih
    · simp [List.dropWhile, hb]

theorem head_dropWhile_zero (l : List Nat) :
    ∀ b ∈ (l.dropWhile (· = 0)).head?, b ≠ 0 := by
  induction l with
  | nil => simp
  | cons x t ih =>
    by_cases hx : x = 0
    · subst hx; simpa [List.dropWhile] using ih
    · intro b hb
      simp [List.dropWhile, hx] at hb
      omega

theorem length_dropWhileZero_le (l : List Nat) :
    (l.dropWhile (· = 0)).length ≤ l.length := by
  induction l with
  | nil => simp
  | cons x t ih =>
    by_cases hx : x = 0
    · subst hx
      simp only [List.dropWhile]
      simpa using Nat.le_succ_of_le ih
    · simp [List.dropWhile, hx]

theorem eq_nil_of_byteVal_zero (l : List Nat)
    (hhead : ∀ b ∈ l.head?, b ≠ 0) (hval : byteVal l = 0) : l = [] := by
  cases l with
  | nil => rfl
  | cons b t =>
    exfalso
    have hb : b ≠ 0 := hhead b rfl
    have : b * 256 ^ t.length = 0 := by
      have := Nat.eq_zero_of_add_eq_zero_right hval
      omega
    rcases Nat.mul_eq_zero.mp this with h | h
    · exact hb h
    · exact absurd h (Nat.pos_iff_ne_zero.mp (Nat.pos_pow_of_pos _ (by norm_num)))

theorem qr58_val (num : List Nat) : ∀ r : Nat, r < 58 →
    byteVal (qr58 r num).1 = (r * 256 ^ num.length + byteVal num) / 58 ∧
    (qr58 r num).2 = (r * 256 ^ num.length + byteVal num) % 58 := by
  induction num with
  | nil =>
    intro r hr
    constructor
    · simp [qr58, byteVal, Nat.div_eq_of_lt hr]
    · simp [qr58, byteVal, Nat.mod_eq_of_lt hr]
  | cons d t ih =>
    intro r hr
    have hmod : (r * 256 + d) % 58 < 58 := Nat.mod_lt _ (by norm_num)
    obtain ⟨ih1, ih2⟩ := ih ((r * 256 + d) % 58) hmod
    have hsplit : r * 256 ^ (d :: t).length + byteVal (d :: t)
        = 58 * ((r * 256 + d) / 58 * 256 ^ t.length)
          + ((r * 256 + d) % 58 * 256 ^ t.length + byteVal t) := by
      have : r * 256 + d = 58 * ((r * 256 + d) / 58) + (r * 256 + d) % 58 :=
        (Nat.div_add_mod _ _).symm
      calc r * 256 ^ (d :: t).length + byteVal (d :: t)
          = (r * 256 + d) * 256 ^ t.length + byteVal t := by
            simp [byteVal, List.length_cons, pow_succ]; ring
        _ = (58 * ((r * 256 + d) / 58) + (r * 256 + d) % 58) * 256 ^ t.length
              + byteVal t := by rw [← this]
        _ = 58 * ((r * 256 + d) / 58 * 256 ^ t.length)
              + ((r * 256 + d) % 58 * 256 ^ t.length + byteVal t) := by ring
    constructor
    · show byteVal ((r * 256 + d) / 58 :: (qr58 ((r * 256 + d) % 58) t).1)
        = (r * 256 ^ (d :: t).length + byteVal (d :: t)) / 58
      rw [hsplit, Nat.mul_add_div (by norm_num : (0:ℕ) < 58)]
      simp [byteVal, qr58_length, ih1]
    · show (qr58 ((r * 256 + d) % 58) t).2
        = (r * 256 ^ (d :: t).length + byteVal (d :: t)) % 58
      rw [hsplit, Nat.mul_add_mod]
      exact ih2

theorem b58_foldl_cons (num : List Nat) : ∀ (ds : List Nat) (r : Nat), ds ≠ [] →
    num.foldl b58Div1 (ds, r) = (ds ++ (qr58 r num).1, (qr58 r num).2) := by
  induction num with
  | nil => intro ds r _; simp [qr58]
  | cons d t ih =>
    intro ds r hds
    have hstep : b58Div1 (ds, r) d = (ds ++ [(r * 256 + d) / 58], (r * 256 + d) % 58) := by
      simp [b58Div1, hds]
    rw [List.foldl_cons, hstep, ih (ds ++ [(r * 256 + d) / 58]) _ (by simp)]
    simp [qr58]

theorem b58_foldl_nil (num : List Nat) : ∀ r : Nat,
    num.foldl b58Div1 ([], r)
      = ((qr58 r num).1.dropWhile (· = 0), (qr58 r num).2) := by
  induction num with
  | nil => intro r; simp [qr58]
  | cons d t ih =>
    intro r
    by_cases hq : (r * 256 + d) / 58 > 0
    · have hstep : b58Div1 ([], r) d = ([(r * 256 + d) / 58], (r * 256 + d) % 58) := by
        simp [b58Div1, hq]
      rw [List.foldl_cons, hstep,
        b58_foldl_cons t [(r * 256 + d) / 58] _ (by simp)]
      simp [qr58, List.dropWhile, Nat.pos_iff_ne_zero.mp hq]
    · have hq0 : (r * 256 + d) / 58 = 0 := by omega
      have hstep : b58Div1 ([], r) d = ([], (r * 256 + d) % 58) := by
        simp [b58Div1, hq0]
      rw [List.foldl_cons, hstep, ih]
      simp [qr58, List.dropWhile, hq0]

theorem b58DivStep_eq (num : List Nat) :
    b58DivStep num = ((qr58 0 num).1.dropWhile (· = 0), (qr58 0 num).2) :=
  b58_foldl_nil num 0

theorem b58DivStep_val (num : List Nat) :
    byteVal (b58DivStep num).1 = byteVal num / 58 := by
  rw [b58DivStep_eq]
  have := (qr58_val num 0 (by norm_num)).1
  simpa [byteVal_dropWhile_zero] using this

theorem b58DivStep_rem (num : List Nat) :
    (b58DivStep num).2 = byteVal num % 58 := by
  rw [b58DivStep_eq]
  simpa using (qr58_val num 0 (by norm_num)).2

theorem b58DivStep_head (num : List Nat) :
    ∀ b ∈ (b58DivStep num).1.head?, b ≠ 0 := by
  rw [b58DivStep_eq]
  exact head_dropWhile_zero _

theorem b58DivStep_length (num : List Nat) :
    (b58DivStep num).1.length ≤ num.length := by
  rw [b58DivStep_eq]
  calc ((qr58 0 num).1.dropWhile (· = 0)).length
      ≤ (qr58 0 num).1.length := length_dropWhileZero_le _
    _ = num.length := qr58_length 0 num

theorem b58DivStep_nil (num : List Nat) (h : byteVal num = 0) :
    (b58DivStep num).1 = [] := by
  apply eq_nil_of_byteVal_zero _ (b58DivStep_head num)
  rw [b58DivStep_val, h]

theorem b58_measure_lt (num : List Nat) (h1 : num ≠ []) (h2 : num ≠ [0]) :
    byteVal (b58DivStep num).1 + (b58DivStep num).1.length
      < byteVal num + num.length := by
  rcases Nat.eq_zero_or_pos (byteVal num) with hz | hp
  · rw [b58DivStep_nil num hz]
    have hlen : 2 ≤ num.length := by
      rcases num with _ | ⟨b, t⟩
      · exact absurd rfl h1
      · rcases t with _ | t
        · exfalso
          have : b = 0 := by simpa [byteVal] using hz
          exact h2 (by simp [this])
        · simp
    simp only [byteVal, List.length_nil]
    omega
  · have hv : byteVal (b58DivStep num).1 < byteVal num := by
      rw [b58DivStep_val]
      exact Nat.div_lt_self hp (by norm_num)
    have := b58DivStep_length num
    omega

/-- The source's outer while loop, with a fuel bound on the number of
iterations: repeatedly divide by 58 and collect the remainders
(least-significant Base58 digit first). -/
def b58LoopGo : Nat → List Nat → List Nat
  | 0, _ => []
  | fuel + 1, num =>
    if num = [] ∨ num = [0] then []
    else (b58DivStep num).2 :: b58LoopGo fuel (b58DivStep num).1

/-- The division loop; `byteVal num + num.length` strictly decreases at each
iteration, so it is sufficient fuel. -/
def b58Loop (num : List Nat) : List Nat :=
  b58LoopGo (byteVal num + num.length) num

theorem b58LoopGo_congr : ∀ (f1 f2 : Nat) (num : List Nat),
    byteVal num + num.length ≤ f1 → byteVal num + num.length ≤ f2 →
    b58LoopGo f1 num = b58LoopGo f2 num := by
  intro f1
  induction f1 with
  | zero =>
    intro f2 num hm1 _
    have hnil : num = [] := by
      cases num with
      | nil => rfl
      | cons b t => simp at hm1
    subst hnil
    cases f2 <;> simp [b58LoopGo]
  | succ f1 ih =>
    intro f2 num hm1 hm2
    cases f2 with
    | zero =>
      have hnil : num = [] := by
        cases num with
        | nil => rfl
        | cons b t => simp at hm2
      subst hnil
      simp [b58LoopGo]
    | succ f2 =>
      simp only [b58LoopGo]
      by_cases hc : num = [] ∨ num = [0]
      · simp [hc]
      · simp only [hc, if_false]
        push_neg at hc
        have hlt := b58_measure_lt num hc.1 hc.2
        rw [ih f2 (b58DivStep num).1 (by omega) (by omega)]

theorem b58Loop_unfold (num : List Nat) :
    b58Loop num = if num = [] ∨ num = [0] then []
      else (b58DivStep num).2 :: b58Loop (b58DivStep num).1 := by
  by_cases hc : num = [] ∨ num = [0]
  · rcases hc with rfl | rfl <;> simp [b58Loop, b58LoopGo, byteVal]
  · push_neg at hc
    have hpos : 1 ≤ byteVal num + num.length := by
      cases num with
      | nil => exact absurd rfl hc.1
      | cons b t => simp [byteVal]; omega
    obtain ⟨m, hm⟩ : ∃ m, byteVal num + num.length = m + 1 :=
      ⟨byteVal num + num.length - 1, by omega⟩
    have hlt := b58_measure_lt num hc.1 hc.2
    simp only [b58Loop, hm, b58LoopGo, not_or.mpr hc, if_neg (not_or.mpr hc)]
    rw [b58LoopGo_congr m (byteVal (b58DivStep num).1 + (b58DivStep num).1.length)
      (b58DivStep num).1 (by omega) (le_refl _)]

/-- Base58-encode a byte list: division loop digits, then one '1' per
leading zero byte, then reversed into a string. -/
def base58_encode (data : List Nat) : String :=
  let leading_zeros := (data.takeWhile (· = 0)).length
  let digits := b58Loop data
  let chars := digits.map (fun d => BASE58_ALPHABET.getD d ' ') ++
    List.replicate leading_zeros '1'
  String.mk chars.reverse

/-- Base-58 digit expansion of a number, least significant first. -/
def digits58 (v : Nat) : List Nat :=
  if h : v = 0 then [] else v % 58 :: digits58 (v / 58)
termination_by v
decreasing_by exact Nat.div_lt_self (Nat.pos_of_ne_zero h) (by norm_num)

theorem digits58_zero : digits58 0 = [] := by
  rw [digits58]
  simp

theorem digits58_of_pos {v : Nat} (h : v ≠ 0) :
    digits58 v = v % 58 :: digits58 (v / 58) := by
  conv_lhs => rw [digits58]
  simp [h]

theorem b58Loop_eq_digits : ∀ (v : Nat) (num : List Nat), byteVal num = v → 0 < v →
    b58Loop num = digits58 v := by
  intro v
  induction v using Nat.strong_induction_on with
  | _ v ih =>
    intro num hval hpos
    have hne1 : num ≠ [] := by
      rintro rfl; simp [byteVal] at hval; omega
    have hne2 : num ≠ [0] := by
      rintro rfl; simp [byteVal] at hval; omega
    rw [b58Loop_unfold, if_neg (by simp [hne1, hne2]), b58DivStep_rem, hval,
      digits58_of_pos (by omega)]
    have hstep : byteVal (b58DivStep num).1 = v / 58 := by
      rw [b58DivStep_val, hval]
    rcases Nat.eq_zero_or_pos (v / 58) with hz | hp
    · have : (b58DivStep num).1 = [] :=
        eq_nil_of_byteVal_zero _ (b58DivStep_head num) (by rw [hstep]; omega)
      rw [this, hz, digits58_zero]
      simp [b58Loop, b58LoopGo, byteVal]
    · rw [ih (v / 58) (Nat.div_lt_self hpos (by norm_num)) _ hstep hp]

theorem digits58_length (k : Nat) : ∀ v : Nat, 58 ^ k ≤ v → v < 58 ^ (k + 1) →
    (digits58 v).length = k + 1 := by
  induction k with
  | zero =>
    intro v h1 h2
    simp only [pow_zero] at h1
    rw [digits58_of_pos (by omega), Nat.div_eq_of_lt (by simpa using h2), digits58_zero]
    rfl
  | succ k ih =>
    intro v h1 h2
    have hpos : v ≠ 0 := by
      have : 0 < 58 ^ (k + 1) := Nat.pos_pow_of_pos _ (by norm_num)
      omega
    rw [digits58_of_pos hpos]
    have hlo : 58 ^ k ≤ v / 58 := by
      rw [Nat.le_div_iff_mul_le (by norm_num : (0:ℕ) < 58)]
      calc 58 ^ k * 58 = 58 ^ (k + 1) := by ring
        _ ≤ v := h1
    have hhi : v / 58 < 58 ^ (k + 1) := by
      rw [Nat.div_lt_iff_lt_mul (by norm_num : (0:ℕ) < 58)]
      calc v < 58 ^ (k + 2) := h2
        _ = 58 ^ (k + 1) * 58 := by ring
    simp [ih (v / 58) hlo hhi]

theorem digits58_getLast (k : Nat) : ∀ v : Nat, 58 ^ k ≤ v → v < 58 ^ (k + 1) →
    (digits58 v).getLast? = some (v / 58 ^ k) := by
  induction k with
  | zero =>
    intro v h1 h2
    simp only [pow_zero] at h1
    rw [digits58_of_pos (by omega), Nat.div_eq_of_lt (by simpa using h2), digits58_zero]
    simp [Nat.mod_eq_of_lt (by simpa using h2)]
  | succ k ih =>
    intro v h1 h2
    have hpos : v ≠ 0 := by
      have : 0 < 58 ^ (k + 1) := Nat.pos_pow_of_pos _ (by norm_num)
      omega
    have hlo : 58 ^ k ≤ v / 58 := by
      rw [Nat.le_div_iff_mul_le (by norm_num : (0:ℕ) < 58)]
      calc 58 ^ k * 58 = 58 ^ (k + 1) := by ring
        _ ≤ v := h1
    have hhi : v / 58 < 58 ^ (k + 1) := by
      rw [Nat.div_lt_iff_lt_mul (by norm_num : (0:ℕ) < 58)]
      calc v < 58 ^ (k + 2) := h2
        _ = 58 ^ (k + 1) * 58 := by ring
    have htail := ih (v / 58) hlo hhi
    have hdiv : v / 58 / 58 ^ k = v / 58 ^ (k + 1) := by
      rw [Nat.div_div_eq_div_mul]
      congr 1
      ring
    rw [digits58_of_pos hpos]
    rcases hl : digits58 (v / 58) with _ | ⟨b, t⟩
    · rw [hl] at htail; simp at htail
    · rw [List.getLast?_cons_cons, ← hl, htail, hdiv]

theorem exists_pow58 (v : Nat) (h : 0 < v) : ∃ k, 58 ^ k ≤ v ∧ v < 58 ^ (k + 1) :=
  ⟨Nat.log 58 v, Nat.pow_log_le_self 58 (by omega),
    Nat.lt_pow_succ_log_self (by norm_num) v⟩

theorem c58_ne_one : ∀ d : Nat, d < 58 → 1 ≤ d → BASE58_ALPHABET.getD d ' ' ≠ '1' := by
  decide

theorem takeWhile_ones_replicate (k : Nat) (l : List Char) :
    ((List.replicate k '1' ++ l).takeWhile (· = '1')).length
      = k + (l.takeWhile (· = '1')).length := by
  induction k with
  | zero => simp
  | succ k ih =>
    simp [List.replicate_succ, List.takeWhile_cons, ih]
    omega

theorem takeWhile_ones_nil (l : List Char) (h : ∀ c ∈ l.head?, c ≠ '1') :
    l.takeWhile (· = '1') = [] := by
  cases l with
  | nil => rfl
  | cons a t =>
    have := h a rfl
    simp [List.takeWhile_cons, this]

theorem byteVal_append (a b : List Nat) :
    byteVal (a ++ b) = byteVal a * 256 ^ b.length + byteVal b := by
  induction a with
  | nil => simp [byteVal]
  | cons x t ih =>
    show x * 256 ^ (t ++ b).length + byteVal (t ++ b) = _
    rw [ih, List.length_append]
    simp only [byteVal]
    ring

theorem byteVal_lt (l : List Nat) (h : ∀ b ∈ l, b < 256) :
    byteVal l < 256 ^ l.length := by
  induction l with
  | nil => simp [byteVal]
  | cons b t ih =>
    have hb : b < 256 := h b (by simp)
    have ht : byteVal t < 256 ^ t.length := ih (fun x hx => h x (by simp [hx]))
    have : b * 256 ^ t.length ≤ 255 * 256 ^ t.length :=
      Nat.mul_le_mul_right _ (by omega)
    calc byteVal (b :: t) = b * 256 ^ t.length + byteVal t := rfl
      _ < 255 * 256 ^ t.length + 256 ^ t.length := by omega
      _ = 256 ^ (b :: t).length := by simp [List.length_cons, pow_succ]; ring

theorem byteVal_pos_of_head (b : Nat) (t : List Nat) (hb : b ≠ 0) :
    0 < byteVal (b :: t) := by
  have : 0 < 256 ^ t.length := Nat.pos_pow_of_pos _ (by norm_num)
  have : 1 * 256 ^ t.length ≤ b * 256 ^ t.length :=
    Nat.mul_le_mul_right _ (by omega)
  simp only [byteVal]
  omega

/-- The character data of an encoded Base58 string: the '1's for the leading
zero bytes, then the division-loop digits most significant first. -/
theorem base58_encode_data (data : List Nat) :
    (base58_encode data).data
      = List.replicate (data.takeWhile (· = 0)).length '1'
        ++ ((b58Loop data).map (fun d => BASE58_ALPHABET.getD d ' ')).reverse := by
  simp [base58_encode, List.reverse_append, List.reverse_replicate]

theorem base58_encode_length (data : List Nat) :
    (base58_encode data).length
      = (b58Loop data).length + (data.takeWhile (· = 0)).length := by
  have : (base58_encode data).length = (base58_encode data).data.length := rfl
  rw [this, base58_encode_data]
  simp
  omega

/-- For data with a nonzero value, the number of leading '1' characters of
the Base58 encoding is exactly the number of leading zero bytes. -/
theorem base58_leading_ones (data : List Nat) (h : 0 < byteVal data) :
    ((base58_encode data).data.takeWhile (· = '1')).length
      = (data.takeWhile (· = 0)).length := by
  obtain ⟨k, hk1, hk2⟩ := exists_pow58 _ h
  rw [base58_encode_data, takeWhile_ones_replicate,
    b58Loop_eq_digits (byteVal data) data rfl h]
  have hlast : (digits58 (byteVal data)).getLast? = some (byteVal data / 58 ^ k) :=
    digits58_getLast k _ hk1 hk2
  have hd1 : 1 ≤ byteVal data / 58 ^ k := by
    rw [Nat.le_div_iff_mul_le (Nat.pos_pow_of_pos _ (by norm_num))]
    simpa using hk1
  have hd2 : byteVal data / 58 ^ k < 58 := by
    rw [Nat.div_lt_iff_lt_mul (Nat.pos_pow_of_pos _ (by norm_num))]
    calc byteVal data < 58 ^ (k + 1) := hk2
      _ = 58 * 58 ^ k := by ring
  have hhead : ∀ c ∈ (((digits58 (byteVal data)).map
      (fun d => BASE58_ALPHABET.getD d ' ')).reverse).head?, c ≠ '1' := by
    intro c hc
    rw [List.head?_reverse, List.getLast?_map, hlast] at hc
    have hc2 : BASE58_ALPHABET.getD (byteVal data / 58 ^ k) ' ' = c := by
      simpa using hc
    rw [← hc2]
    exact c58_ne_one _ hd2 hd1
  rw [takeWhile_ones_nil _ hhead]
  simp

theorem hexVal_lt (c : Char) (v : Nat) (h : hexVal c = some v) : v < 16 := by
  simp only [hexVal] at h
  split at h
  · simp at h; omega
  · split at h
    · simp at h; omega
    · split at h
      · simp at h; omega
      · simp at h

theorem hexDecodeL_bytes : ∀ (cs : List Char) (bs : List Nat),
    hexDecodeL cs = some bs → ∀ b ∈ bs, b < 256 := by
  intro cs
  induction cs using hexDecodeL.induct with
  | case1 =>
    intro bs h b hb
    simp [hexDecodeL] at h
    subst h
    simp at hb
  | case2 c =>
    intro bs h
    simp [hexDecodeL] at h
  | case3 c1 c2 rest ih =>
    intro bs h b hb
    simp only [hexDecodeL, Option.bind_eq_bind, Option.bind_eq_some] at h
    obtain ⟨h1, hv1, l1, hv2, t, ht, hcons⟩ := h
    have hb1 := hexVal_lt _ _ hv1
    have hb2 := hexVal_lt _ _ hv2
    have hbs : bs = (h1 * 16 + l1) :: t := by
      simpa [eq_comm] using hcons
    subst hbs
    rcases List.mem_cons.mp hb with rfl | hmem
    · omega
    · exact ih t ht b hmem

theorem hexDecode_bytes (s : String) (bs : List Nat)
    (h : hexDecode s = some bs) : ∀ b ∈ bs, b < 256 :=
  hexDecodeL_bytes s.data bs h

theorem blake2b256_length (msg : List Nat) : (blake2b256 msg).length = 32 := by
  simp [blake2b256]

theorem blake2b256_bytes (msg : List Nat) : ∀ b ∈ blake2b256 msg, b < 256 := by
  intro b hb
  simp only [blake2b256, List.mem_map] at hb
  obtain ⟨i, _, hi⟩ := hb
  rw [← hi]
  exact Nat.mod_lt _ (by norm_num)

theorem hexEncode_length (bs : List Nat) : (hexEncode bs).length = 2 * bs.length := by
  have : (hexEncode bs).length = (hexEncode bs).data.length := rfl
  rw [this]
  show (bs.foldr (fun b acc => hexDigit (b / 16) :: hexDigit (b % 16) :: acc) []).length
    = 2 * bs.length
  induction bs with
  | nil => rfl
  | cons b t ih => simp [List.foldr_cons, ih]; ring

/-! ## Address derivation (`src/utils/ergo_tree.rs`) -/

def MAINNET_P2PK_BYTE : Nat := 0x01
def MAINNET_P2S_BYTE : Nat := 0x03
def TESTNET_P2PK_BYTE : Nat := 0x11
def TESTNET_P2S_BYTE : Nat := 0x13

/-- First 4 bytes of the Blake2b-256 hash. -/
def blake2b256_checksum (data : List Nat) : List Nat :=
  (blake2b256 data).take 4

/-- Encode a P2PK address from public key bytes. -/
def encode_p2pk_address (pk : List Nat) (mainnet : Bool) : String :=
  let pre := if mainnet then MAINNET_P2PK_BYTE else TESTNET_P2PK_BYTE
  let content := pre :: pk
  base58_encode (content ++ blake2b256_checksum content)

/-- Encode a P2S address from full script bytes. -/
def encode_p2s_address (tree : List Nat) (mainnet : Bool) : String :=
  let pre := if mainnet then MAINNET_P2S_BYTE else TESTNET_P2S_BYTE
  let content := pre :: tree
  base58_encode (content ++ blake2b256_checksum content)

/-- Convert an ErgoTree hex string to a human-readable address
(`ergo_tree_to_address` in the source). -/
def ergo_tree_to_address (tree_hex : String) : Option String :=
  match hexDecode tree_hex with
  | none => none
  | some bytes =>
    if bytes = [] then none
    else if 36 ≤ bytes.length ∧ bytes.getD 0 0 = 0x00 ∧ bytes.getD 1 0 = 0x08 ∧
        bytes.getD 2 0 = 0xcd then
      some (encode_p2pk_address ((bytes.drop 3).take 33) true)
    else
      some (encode_p2s_address bytes true)

/-- Template hash (`ergo_tree_template_hash`): Blake2b-256 of the first
(at most) 8 script bytes, hex-encoded; empty string on invalid hex or an
empty script. -/
def ergo_tree_template_hash (tree_hex : String) : String :=
  match hexDecode tree_hex with
  | none => ""
  | some bytes =>
    if bytes = [] then ""
    else
      let template_bytes := if bytes.length > 8 then bytes.take 8 else bytes
      hexEncode ((blake2b256 template_bytes).take 32)

/-- Convert a miner public key (hex) to a P2PK address; requires exactly
33 bytes. -/
def miner_pk_to_address (miner_pk : String) : Option String :=
  match hexDecode miner_pk with
  | none => none
  | some pk_bytes =>
    if pk_bytes.length ≠ 33 then none
    else some (encode_p2pk_address pk_bytes true)

/-! ## VLQ and register decoding (`src/sync/processor.rs`) -/

/-- Body of `decode_vlq`: value and shift accumulate across bytes; a byte
without the continuation bit returns (value, bytes consumed); the shift is
checked after being advanced. -/
def decodeVlqGo : List Nat → Nat → Nat → Nat → Option (Nat × Nat)
  | [], _, _, _ => none
  | byte :: rest, value, shift, i =>
    let value := value ||| ((byte &&& 0x7f) <<< shift)
    if byte &&& 0x80 = 0 then some (value, i + 1)
    else if shift + 7 > 35 then none
    else decodeVlqGo rest value (shift + 7) (i + 1)

/-- Decode a VLQ-encoded integer, returning the value and the number of
bytes consumed. -/
def decode_vlq (bytes : List Nat) : Option (Nat × Nat) :=
  decodeVlqGo bytes 0 0 0

/-! ## UTF-8 and decimal parsing (models of String::from_utf8 and
str::parse with range checks) -/

/-- Strict UTF-8 decoding of a byte list into characters (continuation,
overlong, surrogate and range checks as in String::from_utf8). -/
def utf8DecodeGo : List Nat → Option (List Char)
  | [] => some []
  | b :: rest =>
    if b < 0x80 then
      (utf8DecodeGo rest).map (fun cs => Char.ofNat b :: cs)
    else if b < 0xc2 then none
    else if b < 0xe0 then
      match rest with
      | b1 :: rest2 =>
        if 0x80 ≤ b1 ∧ b1 < 0xc0 then
          (utf8DecodeGo rest2).map (fun cs => Char.ofNat ((b - 0xc0) * 64 + (b1 - 0x80)) :: cs)
        else none
      | _ => none
    else if b < 0xf0 then
      match rest with
      | b1 :: b2 :: rest2 =>
        let lo1 := if b = 0xe0 then 0xa0 else 0x80
        let hi1 := if b = 0xed then 0xa0 else 0xc0
        if (lo1 ≤ b1 ∧ b1 < hi1) ∧ (0x80 ≤ b2 ∧ b2 < 0xc0) then
          (utf8DecodeGo rest2).map (fun cs =>
            Char.ofNat ((b - 0xe0) * 4096 + (b1 - 0x80) * 64 + (b2 - 0x80)) :: cs)
        else none
      | _ => none
    else if b < 0xf5 then
      match rest with
      | b1 :: b2 :: b3 :: rest2 =>
        let lo1 := if b = 0xf0 then 0x90 else 0x80
        let hi1 := if b = 0xf4 then 0x90 else 0xc0
        if (lo1 ≤ b1 ∧ b1 < hi1) ∧ (0x80 ≤ b2 ∧ b2 < 0xc0) ∧ (0x80 ≤ b3 ∧ b3 < 0xc0) then
          (utf8DecodeGo rest2).map (fun cs =>
            Char.ofNat ((b - 0xf0) * 262144 + (b1 - 0x80) * 4096
              + (b2 - 0x80) * 64 + (b3 - 0x80)) :: cs)
        else none
      | _ => none
    else none

/-- UTF-8 decode a byte list into a string, none on invalid UTF-8. -/
def utf8ToString (bs : List Nat) : Option String :=
  (utf8DecodeGo bs).map String.mk

/-- Accumulate decimal digits; none on a non-digit. -/
def decDigitsGo : List Char → Nat → Option Nat
  | [], acc => some acc
  | c :: t, acc =>
    if 48 ≤ c.toNat ∧ c.toNat ≤ 57 then decDigitsGo t (acc * 10 + (c.toNat - 48))
    else none

/-- Parse a decimal integer with optional sign, rejecting values outside
[lo, hi] (models str::parse for a bounded integer type). -/
def parseIntRange (lo hi : Int) (s : String) : Option Int :=
  match s.data with
  | [] => none
  | '+' :: rest =>
    if rest = [] then none
    else (decDigitsGo rest 0).bind (fun n => if (n : Int) ≤ hi then some (n : Int) else none)
  | '-' :: rest =>
    if rest = [] then none
    else (decDigitsGo rest 0).bind (fun n => if lo ≤ -(n : Int) then some (-(n : Int)) else none)
  | cs => (decDigitsGo cs 0).bind (fun n => if (n : Int) ≤ hi then some (n : Int) else none)

/-- Model of Rust's i64 parse. -/
def parseI64 (s : String) : Option Int :=
  parseIntRange (-(2 ^ 63)) (2 ^ 63 - 1) s

/-- Model of Rust's i32 parse. -/
def parseI32 (s : String) : Option Int :=
  parseIntRange (-(2 ^ 31)) (2 ^ 31 - 1) s

/-- Two's-complement reinterpretation of a bit pattern as an i32. -/
def toI32 (n : Nat) : Int :=
  if n % 2 ^ 32 < 2 ^ 31 then ((n % 2 ^ 32 : Nat) : Int)
  else ((n % 2 ^ 32 : Nat) : Int) - 2 ^ 32

/-- Wrapping cast of an i64/usize value to i32 (Rust's `as i32`). -/
def i32cast (n : Int) : Int :=
  let m := n % 2 ^ 32
  if m < 2 ^ 31 then m else m - 2 ^ 32

/-- Decode a Sigma-encoded Coll[Byte] (type 0e) to a UTF-8 string
(`decode_sigma_string` in the source). -/
def decode_sigma_string (hex : String) : Option String :=
  match hexDecode hex with
  | none => none
  | some bytes =>
    if bytes = [] then none
    else if bytes.getD 0 0 = 0x0e then
      match decode_vlq (bytes.drop 1) with
      | none => none
      | some (len, offset) =>
        if offset + 1 + len > bytes.length then none
        else utf8ToString ((bytes.drop (1 + offset)).take len)
    else utf8ToString bytes

/-- Decode a Sigma-encoded integer or digit collection
(`decode_sigma_int` in the source); the 0x04/0x05 branch zig-zag decodes
a VLQ value with i32 wrapping casts.  Rust's str::trim removes Unicode
whitespace; the embedding uses Lean's ASCII-whitespace trim, which agrees
on every digit string. -/
def decode_sigma_int (hex : String) : Option Int :=
  match hexDecode hex with
  | none => none
  | some bytes =>
    if bytes = [] then none
    else if bytes.getD 0 0 = 0x0e then
      match decode_vlq (bytes.drop 1) with
      | none => none
      | some (len, offset) =>
        if offset + 1 + len > bytes.length then none
        else match utf8ToString ((bytes.drop (1 + offset)).take len) with
          | none => none
          | some s => parseI32 s.trim
    else if bytes.getD 0 0 = 0x04 ∨ bytes.getD 0 0 = 0x05 then
      match decode_vlq (bytes.drop 1) with
      | none => none
      | some (value, _) =>
        some (toI32 (((value >>> 1) % 2 ^ 32) ^^^ (if value &&& 1 = 1 then 2 ^ 32 - 1 else 0)))
    else
      match utf8ToString bytes with
      | none => none
      | some s => parseI32 s.trim

/-! ## Block documents (the opaque JSON shape read by the processor;
each field is Option-valued because the source conflates a missing field
with a field of the wrong JSON type via `.get(..).and_then(as_..)`) -/

/-- An asset entry of an output. -/
structure AssetDoc where
  tokenId : Option String
  amount : Option Int
deriving DecidableEq, Repr

/-- An input entry (spendingProof.proofBytes flattened to the one field
the processor reads). -/
structure InputDoc where
  boxId : Option String
  proofBytes : Option String
deriving DecidableEq, Repr

/-- A data-input entry. -/
structure DataInputDoc where
  boxId : Option String
deriving DecidableEq, Repr

/-- The additionalRegisters JSON value: the three register slots the
processor reads, plus the raw serialization that is stored verbatim into
the box row (serde's to_string of the opaque value). -/
structure RegDoc where
  r4 : Option String
  r5 : Option String
  r6 : Option String
  raw : String
deriving DecidableEq, Repr

/-- An output (box) entry. -/
structure OutputDoc where
  boxId : Option String
  value : Option Int
  ergoTree : Option String
  creationHeight : Option Int
  additionalRegisters : Option RegDoc
  assets : Option (List AssetDoc)
deriving DecidableEq, Repr

/-- A transaction document. -/
structure TxDoc where
  id : Option String
  size : Option Int
  inputs : Option (List InputDoc)
  dataInputs : Option (List DataInputDoc)
  outputs : Option (List OutputDoc)
deriving DecidableEq, Repr

/-- A block header document. -/
structure HeaderDoc where
  id : Option String
  parentId : Option String
  height : Option Int
  timestamp : Option Int
  difficulty : Option String
  minerPk : Option String
deriving DecidableEq, Repr

/-- The blockTransactions object. -/
structure BlockTxsDoc where
  transactions : Option (List TxDoc)
deriving DecidableEq, Repr

/-- A block document. -/
structure BlockDoc where
  header : Option HeaderDoc
  blockTransactions : Option BlockTxsDoc
deriving DecidableEq, Repr

/-! ## Collected rows (the processor's in-memory batch, mirroring the
row structs of `src/sync/processor.rs`) -/

structure BlockData where
  block_id : String
  parent_id : String
  height : Int
  timestamp : Int
  difficulty : Int
  block_size : Int
  block_coins : Int
  tx_count : Int
  miner_address : Option String
  miner_reward : Int
  global_index : Int
deriving DecidableEq, Repr

structure TransactionData where
  tx_id : String
  block_id : String
  inclusion_height : Int
  timestamp : Int
  index_in_block : Int
  global_index : Int
  coinbase : Bool
  size : Int
  input_count : Int
  output_count : Int
deriving DecidableEq, Repr

structure BoxData where
  box_id : String
  tx_id : String
  output_index : Int
  ergo_tree : String
  template_hash : Option String
  address : String
  value : Int
  creation_height : Int
  settlement_height : Int
  global_index : Int
  registers_json : Option String
deriving DecidableEq, Repr

structure InputData where
  id : Int
  tx_id : String
  box_id : String
  height : Int
  input_index : Int
  proof_bytes : String
deriving DecidableEq, Repr

structure DataInputData where
  id : Int
  tx_id : String
  box_id : String
  input_index : Int
deriving DecidableEq, Repr

structure BoxAssetData where
  id : Int
  box_id : String
  token_id : String
  amount : Int
  asset_index : Int
deriving DecidableEq, Repr

structure TokenData where
  token_id : String
  box_id : String
  emission_amount : Int
  name : Option String
  description : Option String
  decimals : Option Int
  creation_height : Int
deriving DecidableEq, Repr

structure AddressData where
  address : String
  height : Int
deriving DecidableEq, Repr

/-- The batch of operations collected for one block. -/
structure CollectedOps where
  block : Option BlockData := none
  transactions : List TransactionData := []
  boxes : List BoxData := []
  inputs : List InputData := []
  data_inputs : List DataInputData := []
  box_assets : List BoxAssetData := []
  tokens : List TokenData := []
  addresses : List AddressData := []
deriving DecidableEq, Repr

/-- The six monotonic counters of the BlockProcessor. -/
structure ProcCounters where
  global_tx_index : Int := 0
  global_box_index : Int := 0
  global_block_index : Int := 0
  box_asset_id : Int := 0
  input_id : Int := 0
  data_input_id : Int := 0
deriving DecidableEq, Repr

/-! ## The collect phase (`collect_*` in the source).  Each collector
returns the updated counters and batch, plus an optional error; on error
the state reflects the mutations already performed, as the Rust methods
mutate `self` and `collected` in place before failing. -/

/-- Extract token name/description/decimals from the R4/R5/R6 registers. -/
def extract_token_metadata (registers : Option RegDoc) :
    Option String × Option String × Option Int :=
  match registers with
  | none => (none, none, none)
  | some r =>
    (r.r4.bind decode_sigma_string, r.r5.bind decode_sigma_string,
     r.r6.bind decode_sigma_int)

def collect_asset (asset : AssetDoc) (box_id : String) (height : Int) (asset_idx : Int)
    (first_input_box_id : Option String) (registers : Option RegDoc)
    (c : ProcCounters) (col : CollectedOps) :
    ProcCounters × CollectedOps × Option String :=
  match asset.tokenId with
  | none => (c, col, some "Missing tokenId")
  | some token_id =>
    let amount := asset.amount.getD 0
    let c := { c with box_asset_id := c.box_asset_id + 1 }
    let col := { col with box_assets := col.box_assets ++
      [⟨c.box_asset_id, box_id, token_id, amount, asset_idx⟩] }
    let col :=
      if asset_idx = 0 ∧ first_input_box_id = some token_id then
        { col with tokens := col.tokens ++
          [{ token_id := token_id, box_id := box_id, emission_amount := amount,
             name := (extract_token_metadata registers).1,
             description := (extract_token_metadata registers).2.1,
             decimals := (extract_token_metadata registers).2.2,
             creation_height := height }] }
      else col
    (c, col, none)

def collectAssetsLoop (box_id : String) (height : Int) (fib : Option String)
    (registers : Option RegDoc) :
    List AssetDoc → Nat → ProcCounters → CollectedOps →
    ProcCounters × CollectedOps × Option String
  | [], _, c, col => (c, col, none)
  | a :: rest, idx, c, col =>
    match collect_asset a box_id height (i32cast idx) fib registers c col with
    | (c', col', some e) => (c', col', some e)
    | (c', col', none) => collectAssetsLoop box_id height fib registers rest (idx + 1) c' col'

def collect_input (input : InputDoc) (tx_id : String) (height : Int) (input_idx : Int)
    (c : ProcCounters) (col : CollectedOps) :
    ProcCounters × CollectedOps × Option String :=
  match input.boxId with
  | none => (c, col, some "Missing boxId")
  | some box_id =>
    let proof_bytes := input.proofBytes.getD ""
    let c := { c with input_id := c.input_id + 1 }
    (c, { col with inputs := col.inputs ++
      [⟨c.input_id, tx_id, box_id, height, input_idx, proof_bytes⟩] }, none)

def collectInputsLoop (tx_id : String) (height : Int) :
    List InputDoc → Nat → ProcCounters → CollectedOps →
    ProcCounters × CollectedOps × Option String
  | [], _, c, col => (c, col, none)
  | i :: rest, idx, c, col =>
    match collect_input i tx_id height (i32cast idx) c col with
    | (c', col', some e) => (c', col', some e)
    | (c', col', none) => collectInputsLoop tx_id height rest (idx + 1) c' col'

def collect_data_input (data_input : DataInputDoc) (tx_id : String) (input_idx : Int)
    (c : ProcCounters) (col : CollectedOps) :
    ProcCounters × CollectedOps × Option String :=
  match data_input.boxId with
  | none => (c, col, some "Missing boxId")
  | some box_id =>
    let c := { c with data_input_id := c.data_input_id + 1 }
    (c, { col with data_inputs := col.data_inputs ++
      [⟨c.data_input_id, tx_id, box_id, input_idx⟩] }, none)

def collectDataInputsLoop (tx_id : String) :
    List DataInputDoc → Nat → ProcCounters → CollectedOps →
    ProcCounters × CollectedOps × Option String
  | [], _, c, col => (c, col, none)
  | di :: rest, idx, c, col =>
    match collect_data_input di tx_id (i32cast idx) c col with
    | (c', col', some e) => (c', col', some e)
    | (c', col', none) => collectDataInputsLoop tx_id rest (idx + 1) c' col'

def collect_output (output : OutputDoc) (tx_id : String) (height : Int) (output_idx : Int)
    (first_input_box_id : Option String) (c : ProcCounters) (col : CollectedOps) :
    ProcCounters × CollectedOps × Option String :=
  match output.boxId with
  | none => (c, col, some "Missing boxId")
  | some box_id =>
    let value := output.value.getD 0
    let ergo_tree_hex := output.ergoTree.getD ""
    let creation_height := output.creationHeight.getD height
    let address := (ergo_tree_to_address ergo_tree_hex).getD ergo_tree_hex
    let template_hash := some (ergo_tree_template_hash ergo_tree_hex)
    let c := { c with global_box_index := c.global_box_index + 1 }
    let registers_json := output.additionalRegisters.map (·.raw)
    let row : BoxData :=
      ⟨box_id, tx_id, output_idx, ergo_tree_hex, template_hash, address, value,
        creation_height, height, c.global_box_index, registers_json⟩
    let col := { col with boxes := col.boxes ++ [row] }
    let col := { col with addresses := col.addresses ++ [(⟨address, height⟩ : AddressData)] }
    match output.assets with
    | none => (c, col, none)
    | some assets =>
      collectAssetsLoop box_id height first_input_box_id output.additionalRegisters
        assets 0 c col

def collectOutputsLoop (tx_id : String) (height : Int) (fib : Option String) :
    List OutputDoc → Nat → ProcCounters → CollectedOps →
    ProcCounters × CollectedOps × Option String
  | [], _, c, col => (c, col, none)
  | o :: rest, idx, c, col =>
    match collect_output o tx_id height (i32cast idx) fib c col with
    | (c', col', some e) => (c', col', some e)
    | (c', col', none) => collectOutputsLoop tx_id height fib rest (idx + 1) c' col'

def collect_transaction_ops (tx : TxDoc) (block_id : String) (height timestamp : Int)
    (tx_idx : Int) (c : ProcCounters) (col : CollectedOps) :
    ProcCounters × CollectedOps × Option String :=
  match tx.id with
  | none => (c, col, some "Missing tx id")
  | some tx_id =>
    match tx.outputs with
    | none => (c, col, some "Missing outputs")
    | some outputs =>
      let size := i32cast (tx.size.getD 0)
      let input_count := i32cast ((tx.inputs.getD []).length : Int)
      let output_count := i32cast (outputs.length : Int)
      let coinbase := input_count == 0 || tx_idx == 0
      let first_input_box_id := (tx.inputs.bind List.head?).bind (·.boxId)
      let c := { c with global_tx_index := c.global_tx_index + 1 }
      let col := { col with transactions := col.transactions ++
        [⟨tx_id, block_id, height, timestamp, tx_idx, c.global_tx_index, coinbase,
          size, input_count, output_count⟩] }
      let r1 := match tx.inputs with
        | some ins => collectInputsLoop tx_id height ins 0 c col
        | none => (c, col, none)
      match r1 with
      | (c, col, some e) => (c, col, some e)
      | (c, col, none) =>
        let r2 := match tx.dataInputs with
          | some dis => collectDataInputsLoop tx_id dis 0 c col
          | none => (c, col, none)
        match r2 with
        | (c, col, some e) => (c, col, some e)
        | (c, col, none) => collectOutputsLoop tx_id height first_input_box_id outputs 0 c col

def collectTxLoop (block_id : String) (height timestamp : Int) :
    List TxDoc → Nat → ProcCounters → CollectedOps →
    ProcCounters × CollectedOps × Option String
  | [], _, c, col => (c, col, none)
  | tx :: rest, idx, c, col =>
    match collect_transaction_ops tx block_id height timestamp (i32cast idx) c col with
    | (c', col', some e) => (c', col', some e)
    | (c', col', none) => collectTxLoop block_id height timestamp rest (idx + 1) c' col'

/-! ## Document-level spec functions: the first parse error and the rows a
well-formed document collects, as pure functions of the document and the
starting counter values.  These exist to characterize the collect loops;
they are not part of the source translation. -/

/-- First missing-tokenId error in an asset list. -/
def assetsErr : List AssetDoc → Option String
  | [] => none
  | a :: rest =>
    match a.tokenId with
    | none => some "Missing tokenId"
    | some _ => assetsErr rest

/-- First missing-boxId error in an input list. -/
def inputsErr : List InputDoc → Option String
  | [] => none
  | i :: rest =>
    match i.boxId with
    | none => some "Missing boxId"
    | some _ => inputsErr rest

/-- First missing-boxId error in a data-input list. -/
def dataInputsErr : List DataInputDoc → Option String
  | [] => none
  | di :: rest =>
    match di.boxId with
    | none => some "Missing boxId"
    | some _ => dataInputsErr rest

/-- First parse error of one output. -/
def outputErr (o : OutputDoc) : Option String :=
  match o.boxId with
  | none => some "Missing boxId"
  | some _ =>
    match o.assets with
    | none => none
    | some l => assetsErr l

/-- First parse error in an output list. -/
def outputsErr : List OutputDoc → Option String
  | [] => none
  | o :: rest =>
    match outputErr o with
    | some e => some e
    | none => outputsErr rest

/-- First parse error of one transaction document, in the order the
collector hits them. -/
def txErr (tx : TxDoc) : Option String :=
  match tx.id with
  | none => some "Missing tx id"
  | some _ =>
    match tx.outputs with
    | none => some "Missing outputs"
    | some outs =>
      match (match tx.inputs with | some l => inputsErr l | none => none) with
      | some e => some e
      | none =>
        match (match tx.dataInputs with | some l => dataInputsErr l | none => none) with
        | some e => some e
        | none => outputsErr outs

/-- First parse error in a transaction list. -/
def txsErr : List TxDoc → Option String
  | [] => none
  | tx :: rest =>
    match txErr tx with
    | some e => some e
    | none => txsErr rest

/-- First-input box id of a transaction (the minting-rule key). -/
def txFib (tx : TxDoc) : Option String :=
  (tx.inputs.bind List.head?).bind (·.boxId)

def txInputsN (tx : TxDoc) : Nat := (tx.inputs.getD []).length
def txDataInputsN (tx : TxDoc) : Nat := (tx.dataInputs.getD []).length
def txOutputsN (tx : TxDoc) : Nat := (tx.outputs.getD []).length
def outAssetsN (o : OutputDoc) : Nat := (o.assets.getD []).length
def txAssetsN (tx : TxDoc) : Nat := ((tx.outputs.getD []).map outAssetsN).sum
def txsInputsN (txs : List TxDoc) : Nat := (txs.map txInputsN).sum
def txsDataInputsN (txs : List TxDoc) : Nat := (txs.map txDataInputsN).sum
def txsOutputsN (txs : List TxDoc) : Nat := (txs.map txOutputsN).sum
def txsAssetsN (txs : List TxDoc) : Nat := (txs.map txAssetsN).sum

/-- The synthetic-id range (start+1, ..., start+n). -/
def idRangeI (start : Int) (n : Nat) : List Int :=
  (List.range n).map (fun (k : Nat) => start + 1 + (k : Int))

/-- Box-asset rows of one asset list. -/
def assetRowsModel (box_id : String) (start : Int) :
    List AssetDoc → Nat → List BoxAssetData
  | [], _ => []
  | a :: rest, idx =>
    ⟨start + 1, box_id, a.tokenId.getD "", a.amount.getD 0, i32cast (idx : Int)⟩ ::
      assetRowsModel box_id (start + 1) rest (idx + 1)

/-- Token rows of one asset list (pushed at asset index 0 when the token
id matches the first-input box id). -/
def tokenRowsModel (box_id : String) (height : Int) (fib : Option String)
    (registers : Option RegDoc) : List AssetDoc → Nat → List TokenData
  | [], _ => []
  | a :: rest, idx =>
    (if i32cast (idx : Int) = 0 ∧ fib = some (a.tokenId.getD "") then
      [⟨a.tokenId.getD "", box_id, a.amount.getD 0,
        (extract_token_metadata registers).1, (extract_token_metadata registers).2.1,
        (extract_token_metadata registers).2.2, height⟩]
    else []) ++ tokenRowsModel box_id height fib registers rest (idx + 1)

/-- Input rows of one input list. -/
def inputRowsModel (tx_id : String) (height : Int) (start : Int) :
    List InputDoc → Nat → List InputData
  | [], _ => []
  | i :: rest, idx =>
    ⟨start + 1, tx_id, i.boxId.getD "", height, i32cast (idx : Int),
      i.proofBytes.getD ""⟩ ::
      inputRowsModel tx_id height (start + 1) rest (idx + 1)

/-- Data-input rows of one data-input list. -/
def dataInputRowsModel (tx_id : String) (start : Int) :
    List DataInputDoc → Nat → List DataInputData
  | [], _ => []
  | di :: rest, idx =>
    ⟨start + 1, tx_id, di.boxId.getD "", i32cast (idx : Int)⟩ ::
      dataInputRowsModel tx_id (start + 1) rest (idx + 1)

/-- The derived address of an output. -/
def outAddress (o : OutputDoc) : String :=
  (ergo_tree_to_address (o.ergoTree.getD "")).getD (o.ergoTree.getD "")

/-- Box rows of one output list. -/
def boxRowsModel (tx_id : String) (height : Int) (start : Int) :
    List OutputDoc → Nat → List BoxData
  | [], _ => []
  | o :: rest, idx =>
    ⟨o.boxId.getD "", tx_id, i32cast (idx : Int), o.ergoTree.getD "",
      some (ergo_tree_template_hash (o.ergoTree.getD "")), outAddress o,
      o.value.getD 0, o.creationHeight.getD height, height, start + 1,
      o.additionalRegisters.map (·.raw)⟩ ::
      boxRowsModel tx_id height (start + 1) rest (idx + 1)

/-- Address-touch rows of one output list. -/
def addrRowsModel (height : Int) (l : List OutputDoc) : List AddressData :=
  l.map (fun o => ⟨outAddress o, height⟩)

/-- Box-asset rows across an output list (the synthetic-id counter runs
through the outputs in order). -/
def outBoxAssetRowsModel (start : Int) : List OutputDoc → List BoxAssetData
  | [] => []
  | o :: rest =>
    (match o.assets with
     | none => []
     | some al => assetRowsModel (o.boxId.getD "") start al 0)
    ++ outBoxAssetRowsModel (start + outAssetsN o) rest

/-- Token rows across an output list. -/
def outTokenRowsModel (height : Int) (fib : Option String) :
    List OutputDoc → List TokenData
  | [] => []
  | o :: rest =>
    (match o.assets with
     | none => []
     | some al => tokenRowsModel (o.boxId.getD "") height fib o.additionalRegisters al 0)
    ++ outTokenRowsModel height fib rest

/-- The transaction row of one document. -/
def txRowModel (tx : TxDoc) (block_id : String) (height timestamp : Int)
    (tx_idx : Int) (gti : Int) : TransactionData :=
  ⟨tx.id.getD "", block_id, height, timestamp, tx_idx, gti,
   (i32cast ((tx.inputs.getD []).length : Int) == 0) || (tx_idx == 0),
   i32cast (tx.size.getD 0), i32cast ((tx.inputs.getD []).length : Int),
   i32cast ((tx.outputs.getD []).length : Int)⟩

/-- Transaction rows of a transaction list. -/
def blkTxRowsModel (block_id : String) (height timestamp : Int) (gti : Int) :
    List TxDoc → Nat → List TransactionData
  | [], _ => []
  | tx :: rest, idx =>
    txRowModel tx block_id height timestamp (i32cast (idx : Int)) (gti + 1) ::
      blkTxRowsModel block_id height timestamp (gti + 1) rest (idx + 1)

/-- Input rows of a transaction list. -/
def blkInputRowsModel (height : Int) (start : Int) : List TxDoc → List InputData
  | [] => []
  | tx :: rest =>
    inputRowsModel (tx.id.getD "") height start (tx.inputs.getD []) 0
      ++ blkInputRowsModel height (start + txInputsN tx) rest

/-- Data-input rows of a transaction list. -/
def blkDataInputRowsModel (start : Int) : List TxDoc → List DataInputData
  | [] => []
  | tx :: rest =>
    dataInputRowsModel (tx.id.getD "") start (tx.dataInputs.getD []) 0
      ++ blkDataInputRowsModel (start + txDataInputsN tx) rest

/-- Box rows of a transaction list. -/
def blkBoxRowsModel (height : Int) (start : Int) : List TxDoc → List BoxData
  | [] => []
  | tx :: rest =>
    boxRowsModel (tx.id.getD "") height start (tx.outputs.getD []) 0
      ++ blkBoxRowsModel height (start + txOutputsN tx) rest

/-- Box-asset rows of a transaction list. -/
def blkBoxAssetRowsModel (start : Int) : List TxDoc → List BoxAssetData
  | [] => []
  | tx :: rest =>
    outBoxAssetRowsModel start (tx.outputs.getD [])
      ++ blkBoxAssetRowsModel (start + txAssetsN tx) rest

/-- Token rows of a transaction list. -/
def blkTokenRowsModel (height : Int) : List TxDoc → List TokenData
  | [] => []
  | tx :: rest =>
    outTokenRowsModel height (txFib tx) (tx.outputs.getD [])
      ++ blkTokenRowsModel height rest

/-- Address rows of a transaction list. -/
def blkAddrRowsModel (height : Int) : List TxDoc → List AddressData
  | [] => []
  | tx :: rest =>
    addrRowsModel height (tx.outputs.getD []) ++ blkAddrRowsModel height rest

/-! ## The relational store (tables as row lists; inserts follow the
ON CONFLICT clauses of the source's SQL) -/

structure BlockRow where
  block_id : String
  parent_id : String
  height : Int
  timestamp : Int
  difficulty : Int
  block_size : Int
  block_coins : Int
  tx_count : Int
  miner_address : Option String
  miner_reward : Int
  main_chain : Bool
  global_index : Int
deriving DecidableEq, Repr

structure BoxRow where
  box_id : String
  tx_id : String
  output_index : Int
  ergo_tree : String
  template_hash : Option String
  address : String
  value : Int
  creation_height : Int
  settlement_height : Int
  global_index : Int
  registers_json : Option String
  spent_tx_id : Option String
  spent_index : Option Int
  spent_height : Option Int
deriving DecidableEq, Repr

structure AddressStatsRow where
  address : String
  tx_count : Int
  balance : Int
  first_seen_height : Option Int
  last_seen_height : Option Int
  updated_at : Int
deriving DecidableEq, Repr

/-- A network_stats row; the hashrate column (a float, difficulty/120.0)
is outside the embedding and never read by the core. -/
structure NetworkStatsRow where
  timestamp : Int
  height : Int
  difficulty : Int
  block_size : Int
  block_coins : Int
  total_coins : Int
deriving DecidableEq, Repr

structure DBState where
  blocks : List BlockRow := []
  transactions : List TransactionData := []
  boxes : List BoxRow := []
  inputs : List InputData := []
  data_inputs : List DataInputData := []
  box_assets : List BoxAssetData := []
  tokens : List TokenData := []
  address_stats : List AddressStatsRow := []
  network_stats : List NetworkStatsRow := []
deriving DecidableEq, Repr

/-- INSERT ... ON CONFLICT DO NOTHING, keyed by `key`. -/
def insertByKey {α K : Type} [BEq K] (key : α → K) (rows : List α) (r : α) : List α :=
  if rows.any (fun x => key x == key r) then rows else rows ++ [r]

/-- Block upsert: ON CONFLICT (block_id) DO UPDATE SET main_chain = TRUE. -/
def upsertBlockRow (rows : List BlockRow) (b : BlockData) : List BlockRow :=
  if rows.any (fun x => x.block_id == b.block_id) then
    rows.map (fun x => if x.block_id == b.block_id then { x with main_chain := true } else x)
  else
    rows ++ [⟨b.block_id, b.parent_id, b.height, b.timestamp, b.difficulty, b.block_size,
      b.block_coins, b.tx_count, b.miner_address, b.miner_reward, true, b.global_index⟩]

/-- A freshly inserted (unspent) box row. -/
def boxRowOf (b : BoxData) : BoxRow :=
  ⟨b.box_id, b.tx_id, b.output_index, b.ergo_tree, b.template_hash, b.address, b.value,
   b.creation_height, b.settlement_height, b.global_index, b.registers_json,
   none, none, none⟩

/-- Per input: UPDATE the referenced box's spend triple (no-op if the box
is unknown), then insert the input row. -/
def applyInputOp (db : DBState) (i : InputData) : DBState :=
  { db with
    boxes := db.boxes.map (fun bx =>
      if bx.box_id == i.box_id then
        { bx with spent_tx_id := some i.tx_id, spent_index := some i.input_index, spent_height := some i.height }
      else bx),
    inputs := insertByKey (·.id) db.inputs i }

/-- Address-stats upsert: insert with tx_count 1, or increment tx_count,
refresh last_seen_height and updated_at, preserving first_seen_height. -/
def upsertAddressRow (rows : List AddressStatsRow) (a : AddressData) (now : Int) :
    List AddressStatsRow :=
  if rows.any (fun x => x.address == a.address) then
    rows.map (fun x =>
      if x.address == a.address then
        { x with tx_count := x.tx_count + 1, last_seen_height := some a.height, updated_at := now }
      else x)
  else rows ++ [(⟨a.address, 1, 0, some a.height, some a.height, now⟩ : AddressStatsRow)]

/-- The every-100th-block network-stats snapshot
(`update_network_stats_sync` in the source). -/
def updateNetworkStats (db : DBState) (b : BlockData) : DBState :=
  let info := db.blocks.find? (fun r => r.height == b.height)
  let block_size := (info.map (·.block_size)).getD 0
  let block_coins := (info.map (·.block_coins)).getD 0
  let estimated_supply := b.height * 75000000000
  { db with network_stats :=
      if db.network_stats.any (fun x => x.timestamp == b.timestamp) then
        db.network_stats.map (fun x =>
          if x.timestamp == b.timestamp then
            { x with height := b.height, difficulty := b.difficulty }
          else x)
      else db.network_stats ++
        [(⟨b.timestamp, b.height, b.difficulty, block_size, block_coins, estimated_supply⟩ : NetworkStatsRow)] }

/-- Execute the collected batch as the source's single SQL transaction
does: block upsert, transaction/box inserts, spend updates plus input
inserts, data-input/box-asset/token inserts, address upserts, and the
periodic network snapshot. -/
def executeBatch (db : DBState) (col : CollectedOps) (now : Int) (update_stats : Bool) :
    DBState :=
  let db := match col.block with
    | some b => { db with blocks := upsertBlockRow db.blocks b }
    | none => db
  let db := { db with
    transactions := col.transactions.foldl (insertByKey (·.tx_id)) db.transactions }
  let db := { db with
    boxes := col.boxes.foldl (fun rows b => insertByKey (·.box_id) rows (boxRowOf b)) db.boxes }
  let db := col.inputs.foldl applyInputOp db
  let db := { db with
    data_inputs := col.data_inputs.foldl (insertByKey (·.id)) db.data_inputs }
  let db := { db with
    box_assets := col.box_assets.foldl (insertByKey (·.id)) db.box_assets }
  let db := { db with
    tokens := col.tokens.foldl (insertByKey (·.token_id)) db.tokens }
  let db := col.addresses.foldl
    (fun d a => { d with address_stats := upsertAddressRow d.address_stats a now }) db
  if update_stats then
    match col.block with
    | some b => updateNetworkStats db b
    | none => db
  else db

/-- The block processor's `process_block`: parse the header, compute the
per-block aggregates, advance the block counter, collect all rows, and
execute the batch in one transaction.  The returned counters reflect the
in-place mutation of the processor even when an error is returned (the
Rust method mutates `self` before failing); the store is only changed on
success, the single transaction rolling back otherwise. -/
def process_block (c : ProcCounters) (db : DBState) (blk : BlockDoc) (now : Int) :
    ProcCounters × Except String DBState :=
  match blk.header with
  | none => (c, Except.error "Missing header")
  | some header =>
    match blk.blockTransactions with
    | none => (c, Except.error "Missing blockTransactions")
    | some block_txs =>
      match block_txs.transactions with
      | none => (c, Except.error "Missing transactions array")
      | some transactions =>
        match header.id with
        | none => (c, Except.error "Missing block id")
        | some block_id =>
          match header.height with
          | none => (c, Except.error "Missing height")
          | some height =>
            let parent_id := header.parentId.getD ""
            let timestamp := header.timestamp.getD 0
            let difficulty := (header.difficulty.bind parseI64).getD 0
            let miner_pk := header.minerPk.getD ""
            let tx_count := i32cast (transactions.length : Int)
            let block_size := i32cast (transactions.map (fun tx => tx.size.getD 0)).sum
            let block_coins := (transactions.map (fun tx =>
              ((tx.outputs.getD []).map (fun o => o.value.getD 0)).sum)).sum
            let miner_address := if miner_pk ≠ "" then miner_pk_to_address miner_pk else none
            let miner_reward :=
              (((transactions.head?.bind (·.outputs)).bind List.head?).bind (·.value)).getD 0
            let c := { c with global_block_index := c.global_block_index + 1 }
            let bdata : BlockData :=
              ⟨block_id, parent_id, height, timestamp, difficulty, block_size, block_coins,
               tx_count, miner_address, miner_reward, c.global_block_index⟩
            let collected : CollectedOps := { block := some bdata }
            let update_stats := height % 100 = 0
            match collectTxLoop block_id height timestamp transactions 0 c collected with
            | (c, _, some e) => (c, Except.error e)
            | (c, collected, none) =>
              (c, Except.ok (executeBatch db collected now update_stats))

/-! ## Characterization of the collect loops: the produced error is a pure
function of the document, and on success each loop appends exactly the
modelled rows and advances the counters by the entity counts. -/

set_option maxRecDepth 20000 in
theorem collectAssetsLoop_char (box_id : String) (height : Int) (fib : Option String)
    (registers : Option RegDoc) :
    ∀ (l : List AssetDoc) (idx : Nat) (c c2 : ProcCounters) (col col2 : CollectedOps)
      (err2 : Option String),
    collectAssetsLoop box_id height fib registers l idx c col = (c2, col2, err2) →
    err2 = assetsErr l ∧
    (err2 = none →
      c2 = { c with box_asset_id := c.box_asset_id + (l.length : Int) } ∧
      col2 = { col with
        box_assets := col.box_assets ++ assetRowsModel box_id c.box_asset_id l idx,
        tokens := col.tokens ++ tokenRowsModel box_id height fib registers l idx }) := by
  intro l
  induction l with
  | nil =>
    intro idx c c2 col col2 err2 hres
    simp only [collectAssetsLoop, Prod.mk.injEq] at hres
    obtain ⟨h1, h2, h3⟩ := hres
    subst h1; subst h2; subst h3
    refine ⟨rfl, fun _ => ⟨?_, ?_⟩⟩
    · simp [assetRowsModel]
    · simp [assetRowsModel, tokenRowsModel]
  | cons a rest ih =>
    intro idx c c2 col col2 err2 hres
    rcases htid : a.tokenId with _ | tid
    · have : collectAssetsLoop box_id height fib registers (a :: rest) idx c col
          = (c, col, some "Missing tokenId") := by
        simp [collectAssetsLoop, collect_asset, htid]
      rw [this] at hres
      simp only [Prod.mk.injEq] at hres
      obtain ⟨_, _, h3⟩ := hres
      refine ⟨by rw [← h3]; simp [assetsErr, htid], fun h => ?_⟩
      rw [← h3] at h
      simp at h
    · have hloop : collectAssetsLoop box_id height fib registers (a :: rest) idx c col
          = collectAssetsLoop box_id height fib registers rest (idx + 1)
              { c with box_asset_id := c.box_asset_id + 1 }
              { col with
                box_assets := col.box_assets ++
                  [⟨c.box_asset_id + 1, box_id, tid, a.amount.getD 0, i32cast (idx : Int)⟩],
                tokens := col.tokens ++
                  (if i32cast (idx : Int) = 0 ∧ fib = some tid then
                    [⟨tid, box_id, a.amount.getD 0,
                      (extract_token_metadata registers).1,
                      (extract_token_metadata registers).2.1,
                      (extract_token_metadata registers).2.2, height⟩]
                  else []) } := by
        have hstep : collect_asset a box_id height (i32cast (idx : Int)) fib registers c col
            = ({ c with box_asset_id := c.box_asset_id + 1 },
               { col with
                  box_assets := col.box_assets ++
                    [⟨c.box_asset_id + 1, box_id, tid, a.amount.getD 0, i32cast (idx : Int)⟩],
                  tokens := col.tokens ++
                    (if i32cast (idx : Int) = 0 ∧ fib = some tid then
                      [⟨tid, box_id, a.amount.getD 0,
                        (extract_token_metadata registers).1,
                        (extract_token_metadata registers).2.1,
                        (extract_token_metadata registers).2.2, height⟩]
                    else []) },
               none) := by
          unfold collect_asset
          rw [htid]
          by_cases hc : i32cast (idx : Int) = 0 ∧ fib = some tid
          · simp only [if_pos hc]
          · simp only [if_neg hc, List.append_nil]
        simp only [collectAssetsLoop, hstep]
      rw [hloop] at hres
      obtain ⟨ihErr, ihRec⟩ := ih (idx + 1) _ c2 _ col2 err2 hres
      constructor
      · rw [ihErr]
        simp [assetsErr, htid]
      · intro h
        have hr : err2 = none := h
        obtain ⟨hc2, hcol2⟩ := ihRec hr
        constructor
        · rw [hc2]
          dsimp only
          congr 1
          simp only [List.length_cons]
          push_cast
          ring
        · rw [hcol2]
          dsimp only
          congr 1
          · simp [List.append_assoc, assetRowsModel, htid]
          · simp [List.append_assoc, tokenRowsModel, htid]

set_option maxRecDepth 20000 in
theorem collectInputsLoop_char (tx_id : String) (height : Int) :
    ∀ (l : List InputDoc) (idx : Nat) (c c2 : ProcCounters) (col col2 : CollectedOps)
      (err2 : Option String),
    collectInputsLoop tx_id height l idx c col = (c2, col2, err2) →
    err2 = inputsErr l ∧
    (err2 = none →
      c2 = { c with input_id := c.input_id + (l.length : Int) } ∧
      col2 = { col with inputs := col.inputs ++ inputRowsModel tx_id height c.input_id l idx }) := by
  intro l
  induction l with
  | nil =>
    intro idx c c2 col col2 err2 hres
    simp only [collectInputsLoop, Prod.mk.injEq] at hres
    obtain ⟨h1, h2, h3⟩ := hres
    subst h1; subst h2; subst h3
    refine ⟨rfl, fun _ => ⟨by simp, by simp [inputRowsModel]⟩⟩
  | cons i rest ih =>
    intro idx c c2 col col2 err2 hres
    rcases hbid : i.boxId with _ | bid
    · have : collectInputsLoop tx_id height (i :: rest) idx c col
          = (c, col, some "Missing boxId") := by
        simp [collectInputsLoop, collect_input, hbid]
      rw [this] at hres
      simp only [Prod.mk.injEq] at hres
      obtain ⟨_, _, h3⟩ := hres
      refine ⟨by rw [← h3]; simp [inputsErr, hbid], fun h => ?_⟩
      rw [← h3] at h
      simp at h
    · have hloop : collectInputsLoop tx_id height (i :: rest) idx c col
          = collectInputsLoop tx_id height rest (idx + 1)
              { c with input_id := c.input_id + 1 }
              { col with inputs := col.inputs ++
                [⟨c.input_id + 1, tx_id, bid, height, i32cast (idx : Int),
                  i.proofBytes.getD ""⟩] } := by
        have hstep : collect_input i tx_id height (i32cast (idx : Int)) c col
            = ({ c with input_id := c.input_id + 1 },
               { col with inputs := col.inputs ++
                  [⟨c.input_id + 1, tx_id, bid, height, i32cast (idx : Int),
                    i.proofBytes.getD ""⟩] },
               none) := by
          unfold collect_input
          rw [hbid]
        simp only [collectInputsLoop, hstep]
      rw [hloop] at hres
      obtain ⟨ihErr, ihRec⟩ := ih (idx + 1) _ c2 _ col2 err2 hres
      constructor
      · rw [ihErr]
        simp [inputsErr, hbid]
      · intro h
        obtain ⟨hc2, hcol2⟩ := ihRec h
        constructor
        · rw [hc2]
          dsimp only
          congr 1
          simp only [List.length_cons]
          push_cast
          ring
        · rw [hcol2]
          dsimp only
          congr 1
          simp [List.append_assoc, inputRowsModel, hbid]

set_option maxRecDepth 20000 in
theorem collectDataInputsLoop_char (tx_id : String) :
    ∀ (l : List DataInputDoc) (idx : Nat) (c c2 : ProcCounters) (col col2 : CollectedOps)
      (err2 : Option String),
    collectDataInputsLoop tx_id l idx c col = (c2, col2, err2) →
    err2 = dataInputsErr l ∧
    (err2 = none →
      c2 = { c with data_input_id := c.data_input_id + (l.length : Int) } ∧
      col2 = { col with data_inputs := col.data_inputs ++ dataInputRowsModel tx_id c.data_input_id l idx }) := by
  intro l
  induction l with
  | nil =>
    intro idx c c2 col col2 err2 hres
    simp only [collectDataInputsLoop, Prod.mk.injEq] at hres
    obtain ⟨h1, h2, h3⟩ := hres
    subst h1; subst h2; subst h3
    refine ⟨rfl, fun _ => ⟨by simp, by simp [dataInputRowsModel]⟩⟩
  | cons di rest ih =>
    intro idx c c2 col col2 err2 hres
    rcases hbid : di.boxId with _ | bid
    · have : collectDataInputsLoop tx_id (di :: rest) idx c col
          = (c, col, some "Missing boxId") := by
        simp [collectDataInputsLoop, collect_data_input, hbid]
      rw [this] at hres
      simp only [Prod.mk.injEq] at hres
      obtain ⟨_, _, h3⟩ := hres
      refine ⟨by rw [← h3]; simp [dataInputsErr, hbid], fun h => ?_⟩
      rw [← h3] at h
      simp at h
    · have hloop : collectDataInputsLoop tx_id (di :: rest) idx c col
          = collectDataInputsLoop tx_id rest (idx + 1)
              { c with data_input_id := c.data_input_id + 1 }
              { col with data_inputs := col.data_inputs ++
                [⟨c.data_input_id + 1, tx_id, bid, i32cast (idx : Int)⟩] } := by
        have hstep : collect_data_input di tx_id (i32cast (idx : Int)) c col
            = ({ c with data_input_id := c.data_input_id + 1 },
               { col with data_inputs := col.data_inputs ++
                  [⟨c.data_input_id + 1, tx_id, bid, i32cast (idx : Int)⟩] },
               none) := by
          unfold collect_data_input
          rw [hbid]
        simp only [collectDataInputsLoop, hstep]
      rw [hloop] at hres
      obtain ⟨ihErr, ihRec⟩ := ih (idx + 1) _ c2 _ col2 err2 hres
      constructor
      · rw [ihErr]
        simp [dataInputsErr, hbid]
      · intro h
        obtain ⟨hc2, hcol2⟩ := ihRec h
        constructor
        · rw [hc2]
          dsimp only
          congr 1
          simp only [List.length_cons]
          push_cast
          ring
        · rw [hcol2]
          dsimp only
          congr 1
          simp [List.append_assoc, dataInputRowsModel, hbid]

set_option maxRecDepth 20000 in
theorem collectOutputsLoop_char (tx_id : String) (height : Int) (fib : Option String) :
    ∀ (l : List OutputDoc) (idx : Nat) (c c2 : ProcCounters) (col col2 : CollectedOps)
      (err2 : Option String),
    collectOutputsLoop tx_id height fib l idx c col = (c2, col2, err2) →
    err2 = outputsErr l ∧
    (err2 = none →
      c2 = { c with
        global_box_index := c.global_box_index + (l.length : Int),
        box_asset_id := c.box_asset_id + ((l.map outAssetsN).sum : Int) } ∧
      col2 = { col with
        boxes := col.boxes ++ boxRowsModel tx_id height c.global_box_index l idx,
        addresses := col.addresses ++ addrRowsModel height l,
        box_assets := col.box_assets ++ outBoxAssetRowsModel c.box_asset_id l,
        tokens := col.tokens ++ outTokenRowsModel height fib l }) := by
  intro l
  induction l with
  | nil =>
    intro idx c c2 col col2 err2 hres
    simp only [collectOutputsLoop, Prod.mk.injEq] at hres
    obtain ⟨h1, h2, h3⟩ := hres
    subst h1; subst h2; subst h3
    refine ⟨rfl, fun _ => ⟨by simp, ?_⟩⟩
    simp [boxRowsModel, addrRowsModel, outBoxAssetRowsModel, outTokenRowsModel]
  | cons o rest ih =>
    intro idx c c2 col col2 err2 hres
    rcases hbid : o.boxId with _ | bid
    · have : collectOutputsLoop tx_id height fib (o :: rest) idx c col
          = (c, col, some "Missing boxId") := by
        simp [collectOutputsLoop, collect_output, hbid]
      rw [this] at hres
      simp only [Prod.mk.injEq] at hres
      obtain ⟨_, _, h3⟩ := hres
      refine ⟨by rw [← h3]; simp [outputsErr, outputErr, hbid], fun h => ?_⟩
      rw [← h3] at h
      simp at h
    · rcases hassets : o.assets with _ | al
      · -- no asset list: collect_output returns directly
        have hloop : collectOutputsLoop tx_id height fib (o :: rest) idx c col
            = collectOutputsLoop tx_id height fib rest (idx + 1)
                { c with global_box_index := c.global_box_index + 1 }
                { col with
                  boxes := col.boxes ++
                    [⟨bid, tx_id, i32cast (idx : Int), o.ergoTree.getD "",
                      some (ergo_tree_template_hash (o.ergoTree.getD "")), outAddress o,
                      o.value.getD 0, o.creationHeight.getD height, height,
                      c.global_box_index + 1, o.additionalRegisters.map (·.raw)⟩],
                  addresses := col.addresses ++ [⟨outAddress o, height⟩] } := by
          have hstep : collect_output o tx_id height (i32cast (idx : Int)) fib c col
              = ({ c with global_box_index := c.global_box_index + 1 },
                 { col with
                    boxes := col.boxes ++
                      [⟨bid, tx_id, i32cast (idx : Int), o.ergoTree.getD "",
                        some (ergo_tree_template_hash (o.ergoTree.getD "")), outAddress o,
                        o.value.getD 0, o.creationHeight.getD height, height,
                        c.global_box_index + 1, o.additionalRegisters.map (·.raw)⟩],
                    addresses := col.addresses ++ [⟨outAddress o, height⟩] },
                 none) := by
            unfold collect_output
            rw [hbid, hassets]
            rfl
          simp only [collectOutputsLoop, hstep]
        rw [hloop] at hres
        obtain ⟨ihErr, ihRec⟩ := ih (idx + 1) _ c2 _ col2 err2 hres
        constructor
        · rw [ihErr]
          simp [outputsErr, outputErr, hbid, hassets]
        · intro h
          obtain ⟨hc2, hcol2⟩ := ihRec h
          constructor
          · rw [hc2]
            dsimp only
            congr 1
            · simp only [List.length_cons]
              push_cast
              ring
            · simp only [List.map_cons, List.sum_cons, outAssetsN, hassets]
              push_cast
              simp
          · rw [hcol2]
            dsimp only
            congr 1
            · simp only [List.append_assoc]
              congr 1
              simp [boxRowsModel, hbid]
            · congr 1
              simp [outBoxAssetRowsModel, hassets, outAssetsN]
            · congr 1
              simp [outTokenRowsModel, hassets]
            · simp only [List.append_assoc]
              congr 1 <;> simp [addrRowsModel]
      · -- assets present: collect_output tail-calls the asset loop
        have hstep : collect_output o tx_id height (i32cast (idx : Int)) fib c col
            = collectAssetsLoop bid height fib o.additionalRegisters al 0
                { c with global_box_index := c.global_box_index + 1 }
                { col with
                  boxes := col.boxes ++
                    [⟨bid, tx_id, i32cast (idx : Int), o.ergoTree.getD "",
                      some (ergo_tree_template_hash (o.ergoTree.getD "")), outAddress o,
                      o.value.getD 0, o.creationHeight.getD height, height,
                      c.global_box_index + 1, o.additionalRegisters.map (·.raw)⟩],
                  addresses := col.addresses ++ [⟨outAddress o, height⟩] } := by
          unfold collect_output
          rw [hbid, hassets]
          rfl
        rcases hares : collectAssetsLoop bid height fib o.additionalRegisters al 0
            { c with global_box_index := c.global_box_index + 1 }
            { col with
              boxes := col.boxes ++
                [⟨bid, tx_id, i32cast (idx : Int), o.ergoTree.getD "",
                  some (ergo_tree_template_hash (o.ergoTree.getD "")), outAddress o,
                  o.value.getD 0, o.creationHeight.getD height, height,
                  c.global_box_index + 1, o.additionalRegisters.map (·.raw)⟩],
              addresses := col.addresses ++ [⟨outAddress o, height⟩] }
          with ⟨ca, cola, erra⟩
        obtain ⟨aErr, aRec⟩ := collectAssetsLoop_char bid height fib
          o.additionalRegisters al 0 _ ca _ cola erra hares
        rcases haerr : assetsErr al with _ | e
        · -- the asset loop succeeds; continue with the remaining outputs
          rw [haerr] at aErr
          subst aErr
          obtain ⟨hca, hcola⟩ := aRec rfl
          have hloop : collectOutputsLoop tx_id height fib (o :: rest) idx c col
              = collectOutputsLoop tx_id height fib rest (idx + 1) ca cola := by
            simp only [collectOutputsLoop, hstep, hares]
          rw [hloop] at hres
          obtain ⟨ihErr, ihRec⟩ := ih (idx + 1) _ c2 _ col2 err2 hres
          constructor
          · rw [ihErr]
            simp [outputsErr, outputErr, hbid, hassets, haerr]
          · intro h
            obtain ⟨hc2, hcol2⟩ := ihRec h
            have ho : outAssetsN o = al.length := by
              simp [outAssetsN, hassets]
            constructor
            · rw [hc2, hca]
              dsimp only
              congr 1
              · simp only [List.length_cons]
                push_cast
                ring
              · simp only [List.map_cons, List.sum_cons, ho]
                push_cast
                ring
            · rw [hcol2, hcola, hca]
              dsimp only
              congr 1
              · simp only [List.append_assoc]
                congr 1
                simp [boxRowsModel, hbid]
              · simp only [List.append_assoc]
                congr 1
                simp [outBoxAssetRowsModel, hassets, ho, hbid]
              · simp only [List.append_assoc]
                congr 1
                simp [outTokenRowsModel, hassets, hbid]
              · simp only [List.append_assoc]
                congr 1 <;> simp [addrRowsModel]
        · -- the asset loop fails
          rw [haerr] at aErr
          subst aErr
          have hloop : collectOutputsLoop tx_id height fib (o :: rest) idx c col
              = (ca, cola, some e) := by
            simp only [collectOutputsLoop, hstep, hares]
          rw [hloop] at hres
          simp only [Prod.mk.injEq] at hres
          obtain ⟨_, _, h3⟩ := hres
          refine ⟨by rw [← h3]; simp [outputsErr, outputErr, hbid, hassets, haerr],
            fun h => ?_⟩
          rw [← h3] at h
          simp at h

/-- The body of `collect_transaction_ops` on a document with an id and an
output list, with the two optional loops normalized over `Option.getD`. -/
theorem collect_transaction_ops_eq (block_id : String) (height timestamp : Int)
    (tx : TxDoc) (tx_idx : Int) (c : ProcCounters) (col : CollectedOps)
    (tid : String) (outs : List OutputDoc)
    (htid : tx.id = some tid) (houts : tx.outputs = some outs) :
    collect_transaction_ops tx block_id height timestamp tx_idx c col
    = (match collectInputsLoop tid height (tx.inputs.getD []) 0 { c with global_tx_index := c.global_tx_index + 1 } { col with transactions := col.transactions ++ [txRowModel tx block_id height timestamp tx_idx (c.global_tx_index + 1)] } with
       | (ca, cola, some e) => (ca, cola, some e)
       | (ca, cola, none) =>
         match collectDataInputsLoop tid (tx.dataInputs.getD []) 0 ca cola with
         | (cb, colb, some e) => (cb, colb, some e)
         | (cb, colb, none) => collectOutputsLoop tid height (txFib tx) outs 0 cb colb) := by
  unfold collect_transaction_ops
  rw [htid, houts]
  cases hins : tx.inputs with
  | none =>
    cases hdis : tx.dataInputs with
    | none => simp [txRowModel, txFib, htid, houts, hins, hdis, collectInputsLoop, collectDataInputsLoop]
    | some dis => simp [txRowModel, txFib, htid, houts, hins, hdis, collectInputsLoop]
  | some ins =>
    cases hdis : tx.dataInputs with
    | none => simp [txRowModel, txFib, htid, houts, hins, hdis, collectDataInputsLoop]
    | some dis => simp [txRowModel, txFib, htid, houts, hins, hdis]

set_option maxRecDepth 20000 in
theorem collect_transaction_ops_char (block_id : String) (height timestamp : Int)
    (tx : TxDoc) (tx_idx : Int) (c c2 : ProcCounters) (col col2 : CollectedOps)
    (err2 : Option String)
    (hres : collect_transaction_ops tx block_id height timestamp tx_idx c col
      = (c2, col2, err2)) :
    err2 = txErr tx ∧
    (err2 = none →
      c2 = { c with
        global_tx_index := c.global_tx_index + 1,
        global_box_index := c.global_box_index + (txOutputsN tx : Int),
        box_asset_id := c.box_asset_id + (txAssetsN tx : Int),
        input_id := c.input_id + (txInputsN tx : Int),
        data_input_id := c.data_input_id + (txDataInputsN tx : Int) } ∧
      col2 = { col with
        transactions := col.transactions ++ [txRowModel tx block_id height timestamp tx_idx (c.global_tx_index + 1)],
        inputs := col.inputs ++ inputRowsModel (tx.id.getD "") height c.input_id (tx.inputs.getD []) 0,
        data_inputs := col.data_inputs ++ dataInputRowsModel (tx.id.getD "") c.data_input_id (tx.dataInputs.getD []) 0,
        boxes := col.boxes ++ boxRowsModel (tx.id.getD "") height c.global_box_index (tx.outputs.getD []) 0,
        box_assets := col.box_assets ++ outBoxAssetRowsModel c.box_asset_id (tx.outputs.getD []),
        tokens := col.tokens ++ outTokenRowsModel height (txFib tx) (tx.outputs.getD []),
        addresses := col.addresses ++ addrRowsModel height (tx.outputs.getD []) }) := by
  rcases htid : tx.id with _ | tid
  · have hb : collect_transaction_ops tx block_id height timestamp tx_idx c col
        = (c, col, some "Missing tx id") := by
      unfold collect_transaction_ops
      rw [htid]
    rw [hb] at hres
    simp only [Prod.mk.injEq] at hres
    obtain ⟨h1, h2, h3⟩ := hres
    refine ⟨by rw [← h3]; simp [txErr, htid], fun h => ?_⟩
    rw [← h3] at h
    simp at h
  rcases houts : tx.outputs with _ | outs
  · have hb : collect_transaction_ops tx block_id height timestamp tx_idx c col
        = (c, col, some "Missing outputs") := by
      unfold collect_transaction_ops
      rw [htid, houts]
    rw [hb] at hres
    simp only [Prod.mk.injEq] at hres
    obtain ⟨h1, h2, h3⟩ := hres
    refine ⟨by rw [← h3]; simp [txErr, htid, houts], fun h => ?_⟩
    rw [← h3] at h
    simp at h
  rw [collect_transaction_ops_eq block_id height timestamp tx tx_idx c col tid outs htid houts]
    at hres
  rcases hA : collectInputsLoop tid height (tx.inputs.getD []) 0
      { c with global_tx_index := c.global_tx_index + 1 }
      { col with transactions := col.transactions ++ [txRowModel tx block_id height timestamp tx_idx (c.global_tx_index + 1)] }
    with ⟨ca, cola, erra⟩
  rw [hA] at hres
  obtain ⟨iErr, iRec⟩ := collectInputsLoop_char tid height (tx.inputs.getD []) 0
    _ ca _ cola erra hA
  rcases hierr : inputsErr (tx.inputs.getD []) with _ | e
  case some =>
    -- the input loop fails
    rw [hierr] at iErr
    subst iErr
    dsimp only at hres
    simp only [Prod.mk.injEq] at hres
    obtain ⟨h1, h2, h3⟩ := hres
    have htxe : txErr tx = some e := by
      simp only [txErr, htid, houts]
      have hh : (match tx.inputs with | some l => inputsErr l | none => none) = some e := by
        rcases hi : tx.inputs with _ | l
        · rw [hi] at hierr
          simp [inputsErr] at hierr
        · rw [hi] at hierr
          simpa using hierr
      rw [hh]
    refine ⟨by rw [← h3, htxe], fun h => ?_⟩
    rw [← h3] at h
    simp at h
  -- the input loop succeeds
  rw [hierr] at iErr
  subst iErr
  obtain ⟨hca, hcola⟩ := iRec rfl
  dsimp only at hres
  rcases hB : collectDataInputsLoop tid (tx.dataInputs.getD []) 0 ca cola
    with ⟨cb, colb, errb⟩
  rw [hB] at hres
  obtain ⟨dErr, dRec⟩ := collectDataInputsLoop_char tid (tx.dataInputs.getD []) 0
    _ cb _ colb errb hB
  rcases hderr : dataInputsErr (tx.dataInputs.getD []) with _ | e
  case some =>
    -- the data-input loop fails
    rw [hderr] at dErr
    subst dErr
    dsimp only at hres
    simp only [Prod.mk.injEq] at hres
    obtain ⟨h1, h2, h3⟩ := hres
    have htxe : txErr tx = some e := by
      simp only [txErr, htid, houts]
      have h1 : (match tx.inputs with | some l => inputsErr l | none => none) = none := by
        rcases hi : tx.inputs with _ | l
        · rfl
        · rw [hi] at hierr
          simpa using hierr
      rw [h1]
      have h2 : (match tx.dataInputs with | some l => dataInputsErr l | none => none) = some e := by
        rcases hd : tx.dataInputs with _ | l
        · rw [hd] at hderr
          simp [dataInputsErr] at hderr
        · rw [hd] at hderr
          simpa using hderr
      rw [h2]
    refine ⟨by rw [← h3, htxe], fun h => ?_⟩
    rw [← h3] at h
    simp at h
  -- the data-input loop succeeds
  rw [hderr] at dErr
  subst dErr
  obtain ⟨hcb, hcolb⟩ := dRec rfl
  dsimp only at hres
  obtain ⟨oErr, oRec⟩ := collectOutputsLoop_char tid height (txFib tx) outs 0
    _ c2 _ col2 err2 hres
  have hImatch : (match tx.inputs with | some l => inputsErr l | none => none) = none := by
    rcases hi : tx.inputs with _ | l
    · rfl
    · rw [hi] at hierr
      simpa using hierr
  have hDmatch : (match tx.dataInputs with | some l => dataInputsErr l | none => none) = none := by
    rcases hd : tx.dataInputs with _ | l
    · rfl
    · rw [hd] at hderr
      simpa using hderr
  constructor
  · rw [oErr]
    simp only [txErr, htid, houts, hImatch, hDmatch]
  · intro h
    obtain ⟨hc2, hcol2⟩ := oRec h
    constructor
    · rw [hc2, hcb, hca]
      dsimp only
      congr 1 <;>
        simp [txOutputsN, txAssetsN, txInputsN, txDataInputsN, htid, houts]
    · rw [hcol2, hcolb, hcola, hcb, hca]
      dsimp only
      congr 1 <;> simp [htid, houts]

set_option maxRecDepth 20000 in
theorem collectTxLoop_char (block_id : String) (height timestamp : Int) :
    ∀ (txs : List TxDoc) (idx : Nat) (c c2 : ProcCounters) (col col2 : CollectedOps)
      (err2 : Option String),
    collectTxLoop block_id height timestamp txs idx c col = (c2, col2, err2) →
    err2 = txsErr txs ∧
    (err2 = none →
      c2 = { c with
        global_tx_index := c.global_tx_index + (txs.length : Int),
        global_box_index := c.global_box_index + (txsOutputsN txs : Int),
        box_asset_id := c.box_asset_id + (txsAssetsN txs : Int),
        input_id := c.input_id + (txsInputsN txs : Int),
        data_input_id := c.data_input_id + (txsDataInputsN txs : Int) } ∧
      col2 = { col with
        transactions := col.transactions ++ blkTxRowsModel block_id height timestamp c.global_tx_index txs idx,
        inputs := col.inputs ++ blkInputRowsModel height c.input_id txs,
        data_inputs := col.data_inputs ++ blkDataInputRowsModel c.data_input_id txs,
        boxes := col.boxes ++ blkBoxRowsModel height c.global_box_index txs,
        box_assets := col.box_assets ++ blkBoxAssetRowsModel c.box_asset_id txs,
        tokens := col.tokens ++ blkTokenRowsModel height txs,
        addresses := col.addresses ++ blkAddrRowsModel height txs }) := by
  intro txs
  induction txs with
  | nil =>
    intro idx c c2 col col2 err2 hres
    simp only [collectTxLoop, Prod.mk.injEq] at hres
    obtain ⟨h1, h2, h3⟩ := hres
    subst h1; subst h2; subst h3
    refine ⟨rfl, fun _ =>
      ⟨by simp [txsOutputsN, txsAssetsN, txsInputsN, txsDataInputsN], ?_⟩⟩
    simp [blkTxRowsModel, blkInputRowsModel, blkDataInputRowsModel, blkBoxRowsModel,
      blkBoxAssetRowsModel, blkTokenRowsModel, blkAddrRowsModel]
  | cons tx rest ih =>
    intro idx c c2 col col2 err2 hres
    rcases hA : collect_transaction_ops tx block_id height timestamp (i32cast (idx : Int)) c col
      with ⟨ca, cola, erra⟩
    obtain ⟨tErr, tRec⟩ := collect_transaction_ops_char block_id height timestamp tx
      (i32cast (idx : Int)) c ca col cola erra hA
    rcases hterr : txErr tx with _ | e
    · -- this transaction parses: recurse on the rest
      rw [hterr] at tErr
      subst tErr
      obtain ⟨hca, hcola⟩ := tRec rfl
      have hloop : collectTxLoop block_id height timestamp (tx :: rest) idx c col
          = collectTxLoop block_id height timestamp rest (idx + 1) ca cola := by
        simp only [collectTxLoop, hA]
      rw [hloop] at hres
      obtain ⟨ihErr, ihRec⟩ := ih (idx + 1) _ c2 _ col2 err2 hres
      constructor
      · rw [ihErr]
        simp [txsErr, hterr]
      · intro h
        obtain ⟨hc2, hcol2⟩ := ihRec h
        constructor
        · rw [hc2, hca]
          dsimp only
          congr 1 <;>
            simp [txsOutputsN, txsAssetsN, txsInputsN, txsDataInputsN,
              txOutputsN, txAssetsN, txInputsN, txDataInputsN] <;>
            push_cast <;> ring
        · rw [hcol2, hcola, hca]
          dsimp only
          congr 1 <;>
            simp [blkTxRowsModel, blkInputRowsModel, blkDataInputRowsModel,
              blkBoxRowsModel, blkBoxAssetRowsModel, blkTokenRowsModel,
              blkAddrRowsModel, List.append_assoc]
    · -- this transaction fails to parse
      rw [hterr] at tErr
      subst tErr
      have hloop : collectTxLoop block_id height timestamp (tx :: rest) idx c col
          = (ca, cola, some e) := by
        simp only [collectTxLoop, hA]
      rw [hloop] at hres
      simp only [Prod.mk.injEq] at hres
      obtain ⟨h1, h2, h3⟩ := hres
      refine ⟨by rw [← h3]; simp [txsErr, hterr], fun h => ?_⟩
      rw [← h3] at h
      simp at h

/-! ## Insert-fold lemmas: ON CONFLICT DO NOTHING folds either skip every
row (all keys present) or append every row (all keys fresh and pairwise
distinct). -/

theorem any_insertByKey {α K : Type} [BEq K] (key : α → K) (p : α → Bool)
    (rows : List α) (r : α) (h : rows.any p = true) :
    (insertByKey key rows r).any p = true := by
  unfold insertByKey
  split
  · exact h
  · simp only [List.any_append, h, Bool.true_or]

theorem mem_insertByKey {α K : Type} [BEq K] (key : α → K) (rows : List α) (r x : α)
    (h : x ∈ insertByKey key rows r) : x ∈ rows ∨ x = r := by
  unfold insertByKey at h
  split at h
  · exact Or.inl h
  · rcases List.mem_append.mp h with h1 | h1
    · exact Or.inl h1
    · simp at h1
      exact Or.inr h1

theorem insertByKey_self_key {α K : Type} [BEq K] [LawfulBEq K] (key : α → K)
    (rows : List α) (r : α) :
    (insertByKey key rows r).any (fun x => key x == key r) = true := by
  unfold insertByKey
  split
  next h => exact h
  next h => simp

theorem foldl_insertByKey_any {α K : Type} [BEq K] (key : α → K) (p : α → Bool) :
    ∀ (new : List α) (rows : List α), rows.any p = true →
    (new.foldl (insertByKey key) rows).any p = true := by
  intro new
  induction new with
  | nil => intro rows h; exact h
  | cons r rest ih =>
    intro rows h
    simp only [List.foldl_cons]
    exact ih _ (any_insertByKey key p rows r h)

theorem foldl_insertByKey_mem_key {α K : Type} [BEq K] [LawfulBEq K] (key : α → K) :
    ∀ (new : List α) (rows : List α) (r : α), r ∈ new →
    (new.foldl (insertByKey key) rows).any (fun x => key x == key r) = true := by
  intro new
  induction new with
  | nil => intro rows r h; simp at h
  | cons r0 rest ih =>
    intro rows r h
    simp only [List.foldl_cons]
    rcases List.mem_cons.mp h with h1 | h1
    · subst h1
      exact foldl_insertByKey_any key _ rest _ (insertByKey_self_key key rows r)
    · exact ih _ r h1

theorem mem_foldl_insertByKey {α K : Type} [BEq K] (key : α → K) :
    ∀ (new : List α) (rows : List α) (x : α),
    x ∈ new.foldl (insertByKey key) rows → x ∈ rows ∨ x ∈ new := by
  intro new
  induction new with
  | nil => intro rows x h; exact Or.inl h
  | cons r rest ih =>
    intro rows x h
    simp only [List.foldl_cons] at h
    rcases ih _ x h with h1 | h1
    · rcases mem_insertByKey key rows r x h1 with h2 | h2
      · exact Or.inl h2
      · exact Or.inr (by simp [h2])
    · exact Or.inr (List.mem_cons_of_mem r h1)

theorem foldl_insertByKey_skip {α K : Type} [BEq K] (key : α → K) :
    ∀ (new : List α) (rows : List α),
    (∀ r ∈ new, rows.any (fun x => key x == key r) = true) →
    new.foldl (insertByKey key) rows = rows := by
  intro new
  induction new with
  | nil => intro rows _; rfl
  | cons r rest ih =>
    intro rows h
    have h0 : rows.any (fun x => key x == key r) = true := h r (by simp)
    simp only [List.foldl_cons]
    rw [show insertByKey key rows r = rows from by unfold insertByKey; rw [if_pos h0]]
    exact ih rows (fun r hr => h r (List.mem_cons_of_mem _ hr))

theorem foldl_insertByKey_fresh {α K : Type} [BEq K] [LawfulBEq K] (key : α → K) :
    ∀ (new : List α) (rows : List α),
    (∀ r ∈ new, ∀ x ∈ rows, key x ≠ key r) →
    (new.map key).Nodup →
    (new.foldl (insertByKey key) rows).length = rows.length + new.length := by
  intro new
  induction new with
  | nil => intro rows _ _; simp
  | cons r rest ih =>
    intro rows hfresh hnd
    have h0 : rows.any (fun x => key x == key r) = false := by
      rw [List.any_eq_false]
      intro x hx
      simpa using hfresh r (by simp) x hx
    simp only [List.foldl_cons]
    rw [show insertByKey key rows r = rows ++ [r] from by
      unfold insertByKey; rw [if_neg (by simp [h0])]]
    have hnd' : (rest.map key).Nodup := by
      simp only [List.map_cons, List.nodup_cons] at hnd
      exact hnd.2
    have hkr : key r ∉ rest.map key := by
      simp only [List.map_cons, List.nodup_cons] at hnd
      exact hnd.1
    have hfresh' : ∀ q ∈ rest, ∀ x ∈ rows ++ [r], key x ≠ key q := by
      intro q hq x hx
      rcases List.mem_append.mp hx with h1 | h1
      · exact hfresh q (List.mem_cons_of_mem _ hq) x h1
      · simp at h1
        subst h1
        intro hcontra
        exact hkr (by rw [hcontra]; exact List.mem_map_of_mem _ hq)
    have := ih (rows ++ [r]) hfresh' hnd'
    rw [this]
    simp
    omega

/-! ## Projection lemmas for the two stateful folds inside executeBatch -/

theorem foldl_applyInputOp_fields :
    ∀ (l : List InputData) (db : DBState),
    (l.foldl applyInputOp db).blocks = db.blocks ∧
    (l.foldl applyInputOp db).transactions = db.transactions ∧
    (l.foldl applyInputOp db).data_inputs = db.data_inputs ∧
    (l.foldl applyInputOp db).box_assets = db.box_assets ∧
    (l.foldl applyInputOp db).tokens = db.tokens ∧
    (l.foldl applyInputOp db).address_stats = db.address_stats ∧
    (l.foldl applyInputOp db).network_stats = db.network_stats ∧
    (l.foldl applyInputOp db).inputs
      = l.foldl (insertByKey (fun r => r.id)) db.inputs ∧
    (l.foldl applyInputOp db).boxes.map (fun b => b.box_id)
      = db.boxes.map (fun b => b.box_id) ∧
    (l.foldl applyInputOp db).boxes.length = db.boxes.length := by
  intro l
  induction l with
  | nil => intro db; refine ⟨rfl, rfl, rfl, rfl, rfl, rfl, rfl, rfl, rfl, rfl⟩
  | cons i rest ih =>
    intro db
    simp only [List.foldl_cons]
    obtain ⟨e1, e2, e3, e4, e5, e6, e7, e8, e9, e10⟩ := ih (applyInputOp db i)
    refine ⟨e1, e2, e3, e4, e5, e6, e7, by rw [e8]; rfl, ?_, ?_⟩
    · rw [e9]
      simp only [applyInputOp, List.map_map]
      apply List.map_congr_left
      intro bx _
      simp only [Function.comp]
      split <;> rfl
    · rw [e10]
      simp [applyInputOp]

theorem foldl_addrUpsert_fields :
    ∀ (l : List AddressData) (db : DBState) (now : Int),
    ((l.foldl (fun d a => { d with
        address_stats := upsertAddressRow d.address_stats a now }) db)).blocks = db.blocks ∧
    ((l.foldl (fun d a => { d with
        address_stats := upsertAddressRow d.address_stats a now }) db)).transactions = db.transactions ∧
    ((l.foldl (fun d a => { d with
        address_stats := upsertAddressRow d.address_stats a now }) db)).boxes = db.boxes ∧
    ((l.foldl (fun d a => { d with
        address_stats := upsertAddressRow d.address_stats a now }) db)).inputs = db.inputs ∧
    ((l.foldl (fun d a => { d with
        address_stats := upsertAddressRow d.address_stats a now }) db)).data_inputs = db.data_inputs ∧
    ((l.foldl (fun d a => { d with
        address_stats := upsertAddressRow d.address_stats a now }) db)).box_assets = db.box_assets ∧
    ((l.foldl (fun d a => { d with
        address_stats := upsertAddressRow d.address_stats a now }) db)).tokens = db.tokens ∧
    ((l.foldl (fun d a => { d with
        address_stats := upsertAddressRow d.address_stats a now }) db)).network_stats = db.network_stats := by
  intro l
  induction l with
  | nil => intro db now; refine ⟨rfl, rfl, rfl, rfl, rfl, rfl, rfl, rfl⟩
  | cons a rest ih =>
    intro db now
    simp only [List.foldl_cons]
    obtain ⟨e1, e2, e3, e4, e5, e6, e7, e8⟩ := ih _ now
    exact ⟨e1, e2, e3, e4, e5, e6, e7, e8⟩

theorem foldl_applyInputOp_blocks (l : List InputData) (db : DBState) :
    (l.foldl applyInputOp db).blocks = db.blocks := (foldl_applyInputOp_fields l db).1

theorem foldl_applyInputOp_transactions (l : List InputData) (db : DBState) :
    (l.foldl applyInputOp db).transactions = db.transactions :=
  (foldl_applyInputOp_fields l db).2.1

theorem foldl_applyInputOp_data_inputs (l : List InputData) (db : DBState) :
    (l.foldl applyInputOp db).data_inputs = db.data_inputs :=
  (foldl_applyInputOp_fields l db).2.2.1

theorem foldl_applyInputOp_box_assets (l : List InputData) (db : DBState) :
    (l.foldl applyInputOp db).box_assets = db.box_assets :=
  (foldl_applyInputOp_fields l db).2.2.2.1

theorem foldl_applyInputOp_tokens (l : List InputData) (db : DBState) :
    (l.foldl applyInputOp db).tokens = db.tokens :=
  (foldl_applyInputOp_fields l db).2.2.2.2.1

theorem foldl_applyInputOp_inputs (l : List InputData) (db : DBState) :
    (l.foldl applyInputOp db).inputs = l.foldl (insertByKey (fun r => r.id)) db.inputs :=
  (foldl_applyInputOp_fields l db).2.2.2.2.2.2.2.1

theorem foldl_applyInputOp_box_ids (l : List InputData) (db : DBState) :
    (l.foldl applyInputOp db).boxes.map (fun b => b.box_id)
      = db.boxes.map (fun b => b.box_id) :=
  (foldl_applyInputOp_fields l db).2.2.2.2.2.2.2.2.1

theorem foldl_applyInputOp_boxes_length (l : List InputData) (db : DBState) :
    (l.foldl applyInputOp db).boxes.length = db.boxes.length :=
  (foldl_applyInputOp_fields l db).2.2.2.2.2.2.2.2.2

theorem foldl_addrUpsert_blocks (l : List AddressData) (db : DBState) (now : Int) :
    ((l.foldl (fun d a => { d with
        address_stats := upsertAddressRow d.address_stats a now }) db)).blocks
      = db.blocks := (foldl_addrUpsert_fields l db now).1

theorem foldl_addrUpsert_transactions (l : List AddressData) (db : DBState) (now : Int) :
    ((l.foldl (fun d a => { d with
        address_stats := upsertAddressRow d.address_stats a now }) db)).transactions
      = db.transactions := (foldl_addrUpsert_fields l db now).2.1

theorem foldl_addrUpsert_boxes (l : List AddressData) (db : DBState) (now : Int) :
    ((l.foldl (fun d a => { d with
        address_stats := upsertAddressRow d.address_stats a now }) db)).boxes
      = db.boxes := (foldl_addrUpsert_fields l db now).2.2.1

theorem foldl_addrUpsert_inputs (l : List AddressData) (db : DBState) (now : Int) :
    ((l.foldl (fun d a => { d with
        address_stats := upsertAddressRow d.address_stats a now }) db)).inputs
      = db.inputs := (foldl_addrUpsert_fields l db now).2.2.2.1

theorem foldl_addrUpsert_data_inputs (l : List AddressData) (db : DBState) (now : Int) :
    ((l.foldl (fun d a => { d with
        address_stats := upsertAddressRow d.address_stats a now }) db)).data_inputs
      = db.data_inputs := (foldl_addrUpsert_fields l db now).2.2.2.2.1

theorem foldl_addrUpsert_box_assets (l : List AddressData) (db : DBState) (now : Int) :
    ((l.foldl (fun d a => { d with
        address_stats := upsertAddressRow d.address_stats a now }) db)).box_assets
      = db.box_assets := (foldl_addrUpsert_fields l db now).2.2.2.2.2.1

theorem foldl_addrUpsert_tokens (l : List AddressData) (db : DBState) (now : Int) :
    ((l.foldl (fun d a => { d with
        address_stats := upsertAddressRow d.address_stats a now }) db)).tokens
      = db.tokens := (foldl_addrUpsert_fields l db now).2.2.2.2.2.2.1

/-! ## Table-level views of a batch commit -/

theorem executeBatch_blocks (db : DBState) (col : CollectedOps) (now : Int) (us : Bool) :
    (executeBatch db col now us).blocks
      = (match col.block with
         | some b => upsertBlockRow db.blocks b
         | none => db.blocks) := by
  unfold executeBatch
  cases us <;> cases hb : col.block <;>
    simp [hb, foldl_addrUpsert_blocks, foldl_applyInputOp_blocks, updateNetworkStats]

theorem executeBatch_transactions (db : DBState) (col : CollectedOps) (now : Int) (us : Bool) :
    (executeBatch db col now us).transactions
      = col.transactions.foldl (insertByKey (fun r => r.tx_id)) db.transactions := by
  unfold executeBatch
  cases us <;> cases hb : col.block <;>
    simp [hb, foldl_addrUpsert_transactions, foldl_applyInputOp_transactions,
      updateNetworkStats]

theorem executeBatch_box_ids (db : DBState) (col : CollectedOps) (now : Int) (us : Bool) :
    (executeBatch db col now us).boxes.map (fun b => b.box_id)
      = ((col.boxes.map boxRowOf).foldl
          (insertByKey (fun r => r.box_id)) db.boxes).map (fun b => b.box_id) := by
  unfold executeBatch
  cases us <;> cases hb : col.block <;>
    simp [hb, foldl_addrUpsert_boxes, foldl_applyInputOp_box_ids, updateNetworkStats,
      List.foldl_map]

theorem executeBatch_boxes_length (db : DBState) (col : CollectedOps) (now : Int) (us : Bool) :
    (executeBatch db col now us).boxes.length
      = ((col.boxes.map boxRowOf).foldl
          (insertByKey (fun r => r.box_id)) db.boxes).length := by
  unfold executeBatch
  cases us <;> cases hb : col.block <;>
    simp [hb, foldl_addrUpsert_boxes, foldl_applyInputOp_boxes_length, updateNetworkStats,
      List.foldl_map]

theorem executeBatch_inputs (db : DBState) (col : CollectedOps) (now : Int) (us : Bool) :
    (executeBatch db col now us).inputs
      = col.inputs.foldl (insertByKey (fun r => r.id)) db.inputs := by
  unfold executeBatch
  cases us <;> cases hb : col.block <;>
    simp [hb, foldl_addrUpsert_inputs, foldl_applyInputOp_inputs, updateNetworkStats]

theorem executeBatch_data_inputs (db : DBState) (col : CollectedOps) (now : Int) (us : Bool) :
    (executeBatch db col now us).data_inputs
      = col.data_inputs.foldl (insertByKey (fun r => r.id)) db.data_inputs := by
  unfold executeBatch
  cases us <;> cases hb : col.block <;>
    simp [hb, foldl_addrUpsert_data_inputs, foldl_applyInputOp_data_inputs,
      foldl_applyInputOp_inputs, updateNetworkStats]

theorem executeBatch_box_assets (db : DBState) (col : CollectedOps) (now : Int) (us : Bool) :
    (executeBatch db col now us).box_assets
      = col.box_assets.foldl (insertByKey (fun r => r.id)) db.box_assets := by
  unfold executeBatch
  cases us <;> cases hb : col.block <;>
    simp [hb, foldl_addrUpsert_box_assets, foldl_applyInputOp_box_assets,
      updateNetworkStats]

theorem executeBatch_tokens (db : DBState) (col : CollectedOps) (now : Int) (us : Bool) :
    (executeBatch db col now us).tokens
      = col.tokens.foldl (insertByKey (fun r => r.token_id)) db.tokens := by
  unfold executeBatch
  cases us <;> cases hb : col.block <;>
    simp [hb, foldl_addrUpsert_tokens, foldl_applyInputOp_tokens, updateNetworkStats]

/-! ## Synthetic-id ranges of the modelled row lists -/

theorem mem_idRangeI (start : Int) (n : Nat) (x : Int) :
    x ∈ idRangeI start n ↔ start < x ∧ x ≤ start + n := by
  simp only [idRangeI, List.mem_map, List.mem_range]
  constructor
  · rintro ⟨k, hk, rfl⟩
    omega
  · rintro ⟨h1, h2⟩
    refine ⟨(x - start - 1).toNat, by omega, by omega⟩

theorem idRangeI_nodup (start : Int) (n : Nat) : (idRangeI start n).Nodup := by
  refine List.Nodup.map ?_ (List.nodup_range n)
  intro a b h
  simp at h
  omega

theorem idRangeI_succ (start : Int) (n : Nat) :
    idRangeI start (n + 1) = (start + 1) :: idRangeI (start + 1) n := by
  simp only [idRangeI, List.range_succ_eq_map, List.map_cons, List.map_map]
  congr 1
  · omega
  · apply List.map_congr_left
    intro k _
    simp only [Function.comp]
    push_cast
    ring

theorem idRangeI_append (start : Int) (m n : Nat) :
    idRangeI start m ++ idRangeI (start + (m : Int)) n = idRangeI start (m + n) := by
  induction m generalizing start with
  | zero => simp [idRangeI]
  | succ k ih =>
    rw [idRangeI_succ, show k + 1 + n = (k + n) + 1 from by omega, idRangeI_succ]
    simp only [List.cons_append]
    congr 1
    rw [show start + (↑(k + 1) : Int) = (start + 1) + (k : Int) from by push_cast; ring]
    exact ih (start + 1)

theorem assetRowsModel_ids (box_id : String) :
    ∀ (l : List AssetDoc) (start : Int) (idx : Nat),
    (assetRowsModel box_id start l idx).map (fun r => r.id) = idRangeI start l.length := by
  intro l
  induction l with
  | nil => intro start idx; simp [assetRowsModel, idRangeI]
  | cons a rest ih =>
    intro start idx
    simp only [assetRowsModel, List.map_cons, List.length_cons, idRangeI_succ]
    rw [ih (start + 1) (idx + 1)]

theorem inputRowsModel_ids (tx_id : String) (height : Int) :
    ∀ (l : List InputDoc) (start : Int) (idx : Nat),
    (inputRowsModel tx_id height start l idx).map (fun r => r.id)
      = idRangeI start l.length := by
  intro l
  induction l with
  | nil => intro start idx; simp [inputRowsModel, idRangeI]
  | cons i rest ih =>
    intro start idx
    simp only [inputRowsModel, List.map_cons, List.length_cons, idRangeI_succ]
    rw [ih (start + 1) (idx + 1)]

theorem dataInputRowsModel_ids (tx_id : String) :
    ∀ (l : List DataInputDoc) (start : Int) (idx : Nat),
    (dataInputRowsModel tx_id start l idx).map (fun r => r.id)
      = idRangeI start l.length := by
  intro l
  induction l with
  | nil => intro start idx; simp [dataInputRowsModel, idRangeI]
  | cons i rest ih =>
    intro start idx
    simp only [dataInputRowsModel, List.map_cons, List.length_cons, idRangeI_succ]
    rw [ih (start + 1) (idx + 1)]

theorem outBoxAssetRowsModel_ids :
    ∀ (outs : List OutputDoc) (start : Int),
    (outBoxAssetRowsModel start outs).map (fun r => r.id)
      = idRangeI start ((outs.map outAssetsN).sum) := by
  intro outs
  induction outs with
  | nil => intro start; simp [outBoxAssetRowsModel, idRangeI]
  | cons o rest ih =>
    intro start
    simp only [outBoxAssetRowsModel, List.map_append, List.map_cons, List.sum_cons]
    rw [ih (start + outAssetsN o)]
    rcases ho : o.assets with _ | al
    · simp only [ho]
      rw [show outAssetsN o = 0 from by simp [outAssetsN, ho]]
      simp [idRangeI_append]
    · simp only [ho]
      rw [assetRowsModel_ids]
      rw [show al.length = outAssetsN o from by simp [outAssetsN, ho]]
      rw [idRangeI_append]

theorem blkInputRowsModel_ids (height : Int) :
    ∀ (txs : List TxDoc) (start : Int),
    (blkInputRowsModel height start txs).map (fun r => r.id)
      = idRangeI start (txsInputsN txs) := by
  intro txs
  induction txs with
  | nil => intro start; simp [blkInputRowsModel, txsInputsN, idRangeI]
  | cons tx rest ih =>
    intro start
    simp only [blkInputRowsModel, List.map_append]
    rw [inputRowsModel_ids, ih (start + txInputsN tx),
      show (tx.inputs.getD []).length = txInputsN tx from rfl, idRangeI_append]
    simp [txsInputsN, txInputsN]

theorem blkDataInputRowsModel_ids :
    ∀ (txs : List TxDoc) (start : Int),
    (blkDataInputRowsModel start txs).map (fun r => r.id)
      = idRangeI start (txsDataInputsN txs) := by
  intro txs
  induction txs with
  | nil => intro start; simp [blkDataInputRowsModel, txsDataInputsN, idRangeI]
  | cons tx rest ih =>
    intro start
    simp only [blkDataInputRowsModel, List.map_append]
    rw [dataInputRowsModel_ids, ih (start + txDataInputsN tx),
      show (tx.dataInputs.getD []).length = txDataInputsN tx from rfl, idRangeI_append]
    simp [txsDataInputsN, txDataInputsN]

theorem blkBoxAssetRowsModel_ids :
    ∀ (txs : List TxDoc) (start : Int),
    (blkBoxAssetRowsModel start txs).map (fun r => r.id)
      = idRangeI start (txsAssetsN txs) := by
  intro txs
  induction txs with
  | nil => intro start; simp [blkBoxAssetRowsModel, txsAssetsN, idRangeI]
  | cons tx rest ih =>
    intro start
    simp only [blkBoxAssetRowsModel, List.map_append]
    rw [outBoxAssetRowsModel_ids, ih (start + txAssetsN tx),
      show ((tx.outputs.getD []).map outAssetsN).sum = txAssetsN tx from rfl,
      idRangeI_append]
    simp [txsAssetsN, txAssetsN]

/-! ## Natural keys of the modelled row lists do not depend on the
counter start values -/

theorem blkTxRowsModel_keys (block_id : String) (height timestamp : Int) :
    ∀ (txs : List TxDoc) (gti : Int) (idx : Nat),
    (blkTxRowsModel block_id height timestamp gti txs idx).map (fun r => r.tx_id)
      = txs.map (fun tx => tx.id.getD "") := by
  intro txs
  induction txs with
  | nil => intro gti idx; simp [blkTxRowsModel]
  | cons tx rest ih =>
    intro gti idx
    simp only [blkTxRowsModel, List.map_cons]
    rw [ih (gti + 1) (idx + 1)]
    rfl

theorem boxRowsModel_keys (tx_id : String) (height : Int) :
    ∀ (outs : List OutputDoc) (start : Int) (idx : Nat),
    (boxRowsModel tx_id height start outs idx).map (fun b => b.box_id)
      = outs.map (fun o => o.boxId.getD "") := by
  intro outs
  induction outs with
  | nil => intro start idx; simp [boxRowsModel]
  | cons o rest ih =>
    intro start idx
    simp only [boxRowsModel, List.map_cons]
    rw [ih (start + 1) (idx + 1)]

theorem blkBoxRowsModel_keys (height : Int) :
    ∀ (txs : List TxDoc) (s1 s2 : Int),
    (blkBoxRowsModel height s1 txs).map (fun b => b.box_id)
      = (blkBoxRowsModel height s2 txs).map (fun b => b.box_id) := by
  intro txs
  induction txs with
  | nil => intro s1 s2; rfl
  | cons tx rest ih =>
    intro s1 s2
    simp only [blkBoxRowsModel, List.map_append]
    rw [boxRowsModel_keys, boxRowsModel_keys, ih (s1 + txOutputsN tx) (s2 + txOutputsN tx)]

/-! ## Block-row upsert facts -/

theorem upsertBlockRow_self_key (rows : List BlockRow) (b : BlockData) :
    (upsertBlockRow rows b).any (fun x => x.block_id == b.block_id) = true := by
  unfold upsertBlockRow
  split
  next h =>
    rw [List.any_eq_true] at h ⊢
    obtain ⟨x, hx, hxk⟩ := h
    refine ⟨if x.block_id == b.block_id then { x with main_chain := true } else x,
      List.mem_map_of_mem _ hx, ?_⟩
    rw [if_pos hxk]
    simpa using hxk
  next h => simp

theorem upsertBlockRow_present (rows : List BlockRow) (b : BlockData)
    (h : rows.any (fun x => x.block_id == b.block_id) = true) :
    upsertBlockRow rows b
      = rows.map (fun x => if x.block_id == b.block_id then { x with main_chain := true } else x) := by
  unfold upsertBlockRow
  rw [if_pos h]

/-! ## Token rows require a first-input box id -/

theorem tokenRowsModel_none (box_id : String) (height : Int) (registers : Option RegDoc) :
    ∀ (l : List AssetDoc) (idx : Nat),
    tokenRowsModel box_id height none registers l idx = [] := by
  intro l
  induction l with
  | nil => intro idx; rfl
  | cons a rest ih =>
    intro idx
    simp only [tokenRowsModel, ih (idx + 1)]
    simp

theorem outTokenRowsModel_none (height : Int) :
    ∀ (outs : List OutputDoc), outTokenRowsModel height none outs = [] := by
  intro outs
  induction outs with
  | nil => rfl
  | cons o rest ih =>
    simp only [outTokenRowsModel, ih]
    rcases ho : o.assets with _ | al
    · simp
    · simp [tokenRowsModel_none]

/-! ## Inversion of process_block -/

/-- The pre-collection parse error of a block document, in the order the
processor checks the header fields. -/
def blkPreErr (blk : BlockDoc) : Option String :=
  match blk.header with
  | none => some "Missing header"
  | some header =>
    match blk.blockTransactions with
    | none => some "Missing blockTransactions"
    | some bt =>
      match bt.transactions with
      | none => some "Missing transactions array"
      | some _ =>
        match header.id with
        | none => some "Missing block id"
        | some _ =>
          match header.height with
          | none => some "Missing height"
          | some _ => none

/-- The block row assembled by process_block, as a function of the parsed
header and the transaction list. -/
def bdataModel (hdr : HeaderDoc) (bid : String) (height : Int) (txs : List TxDoc)
    (gbi : Int) : BlockData :=
  ⟨bid, hdr.parentId.getD "", height, hdr.timestamp.getD 0,
   (hdr.difficulty.bind parseI64).getD 0,
   i32cast ((txs.map (fun tx => tx.size.getD 0)).sum),
   (txs.map (fun tx => ((tx.outputs.getD []).map (fun o => o.value.getD 0)).sum)).sum,
   i32cast (txs.length : Int),
   (if hdr.minerPk.getD "" ≠ "" then miner_pk_to_address (hdr.minerPk.getD "") else none),
   (((txs.head?.bind (fun t => t.outputs)).bind List.head?).bind (fun o => o.value)).getD 0,
   gbi⟩

/-- The full batch collected for a block, as a function of the document
and the starting counters. -/
def colFullModel (hdr : HeaderDoc) (bid : String) (height : Int) (txs : List TxDoc)
    (c : ProcCounters) : CollectedOps :=
  { block := some (bdataModel hdr bid height txs (c.global_block_index + 1)),
    transactions := blkTxRowsModel bid height (hdr.timestamp.getD 0) c.global_tx_index txs 0,
    inputs := blkInputRowsModel height c.input_id txs,
    data_inputs := blkDataInputRowsModel c.data_input_id txs,
    boxes := blkBoxRowsModel height c.global_box_index txs,
    box_assets := blkBoxAssetRowsModel c.box_asset_id txs,
    tokens := blkTokenRowsModel height txs,
    addresses := blkAddrRowsModel height txs }

/-- The counters after a successful apply. -/
def advCounters (c : ProcCounters) (txs : List TxDoc) : ProcCounters :=
  { c with
    global_block_index := c.global_block_index + 1,
    global_tx_index := c.global_tx_index + (txs.length : Int),
    global_box_index := c.global_box_index + (txsOutputsN txs : Int),
    box_asset_id := c.box_asset_id + (txsAssetsN txs : Int),
    input_id := c.input_id + (txsInputsN txs : Int),
    data_input_id := c.data_input_id + (txsDataInputsN txs : Int) }

theorem process_block_preErr (c : ProcCounters) (db : DBState) (blk : BlockDoc)
    (now : Int) (e : String) (h : blkPreErr blk = some e) :
    process_block c db blk now = (c, Except.error e) := by
  unfold blkPreErr at h
  unfold process_block
  rcases hh : blk.header with _ | hdr
  · rw [hh] at h
    dsimp only at h ⊢
    simp at h
    simp [h]
  rw [hh] at h
  dsimp only at h ⊢
  rcases hbt : blk.blockTransactions with _ | bt
  · rw [hbt] at h
    dsimp only at h ⊢
    simp at h
    simp [h]
  rw [hbt] at h
  dsimp only at h ⊢
  rcases htr : bt.transactions with _ | txs
  · rw [htr] at h
    dsimp only at h ⊢
    simp at h
    simp [h]
  rw [htr] at h
  dsimp only at h ⊢
  rcases hid : hdr.id with _ | bid
  · rw [hid] at h
    dsimp only at h ⊢
    simp at h
    simp [h]
  rw [hid] at h
  dsimp only at h ⊢
  rcases hht : hdr.height with _ | height
  · rw [hht] at h
    dsimp only at h ⊢
    simp at h
    simp [h]
  rw [hht] at h
  dsimp only at h
  simp at h

theorem process_block_ok_shape (c : ProcCounters) (db : DBState) (blk : BlockDoc)
    (now : Int) (c1 : ProcCounters) (db1 : DBState)
    (h : process_block c db blk now = (c1, Except.ok db1)) :
    ∃ hdr bt txs bid height,
      blk.header = some hdr ∧ blk.blockTransactions = some bt ∧
      bt.transactions = some txs ∧ hdr.id = some bid ∧ hdr.height = some height ∧
      txsErr txs = none := by
  unfold process_block at h
  rcases hh : blk.header with _ | hdr
  · rw [hh] at h
    simp at h
  rw [hh] at h
  dsimp only at h
  rcases hbt : blk.blockTransactions with _ | bt
  · rw [hbt] at h
    simp at h
  rw [hbt] at h
  dsimp only at h
  rcases htr : bt.transactions with _ | txs
  · rw [htr] at h
    simp at h
  rw [htr] at h
  dsimp only at h
  rcases hid : hdr.id with _ | bid
  · rw [hid] at h
    simp at h
  rw [hid] at h
  dsimp only at h
  rcases hht : hdr.height with _ | height
  · rw [hht] at h
    simp at h
  rw [hht] at h
  dsimp only at h
  refine ⟨hdr, bt, txs, bid, height, rfl, rfl, htr, hid, hht, ?_⟩
  split at h
  next cL colL e heq =>
    simp at h
  next cL colL heq =>
    obtain ⟨tErr, _⟩ := collectTxLoop_char bid height (hdr.timestamp.getD 0) txs 0
      _ cL _ colL none heq
    exact tErr.symm

theorem process_block_ok_eq (c : ProcCounters) (db : DBState) (blk : BlockDoc)
    (now : Int) (hdr : HeaderDoc) (bt : BlockTxsDoc) (txs : List TxDoc)
    (bid : String) (height : Int)
    (hh : blk.header = some hdr) (hbt : blk.blockTransactions = some bt)
    (htr : bt.transactions = some txs) (hid : hdr.id = some bid)
    (hht : hdr.height = some height) (htxe : txsErr txs = none) :
    process_block c db blk now
      = (advCounters c txs,
         Except.ok (executeBatch db (colFullModel hdr bid height txs c) now
           (decide (height % 100 = 0)))) := by
  unfold process_block
  rw [hh]
  dsimp only
  rw [hbt]
  dsimp only
  rw [htr]
  dsimp only
  rw [hid]
  dsimp only
  rw [hht]
  dsimp only
  split
  next cL colL e heq =>
    obtain ⟨tErr, _⟩ := collectTxLoop_char bid height (hdr.timestamp.getD 0) txs 0
      _ cL _ colL (some e) heq
    rw [htxe] at tErr
    simp at tErr
  next cL colL heq =>
    obtain ⟨tErr, tRec⟩ := collectTxLoop_char bid height (hdr.timestamp.getD 0) txs 0
      _ cL _ colL none heq
    obtain ⟨hcL, hcolL⟩ := tRec rfl
    rw [hcL, hcolL]
    simp [advCounters, colFullModel, bdataModel]

theorem idRangeI_length (start : Int) (n : Nat) : (idRangeI start n).length = n := by
  simp [idRangeI]

theorem any_key_eq_mem {α K : Type} [BEq K] [LawfulBEq K] (key : α → K)
    (rows : List α) (k : K) :
    rows.any (fun x => key x == k) = true ↔ k ∈ rows.map key := by
  rw [List.any_eq_true]
  constructor
  · rintro ⟨x, hx, hk⟩
    have hxk : key x = k := by simpa using hk
    rw [← hxk]
    exact List.mem_map_of_mem key hx
  · intro hk
    obtain ⟨x, hx, hxk⟩ := List.mem_map.mp hk
    exact ⟨x, hx, by simp [hxk]⟩

theorem mainchain_of_mem_update (rows : List BlockRow) (bid : String) (r : BlockRow)
    (hr : r ∈ rows.map (fun x =>
      if x.block_id == bid then { x with main_chain := true } else x))
    (hbid : r.block_id = bid) : r.main_chain = true := by
  obtain ⟨x, hx, hxr⟩ := List.mem_map.mp hr
  by_cases hc : (x.block_id == bid) = true
  · rw [if_pos hc] at hxr
    rw [← hxr]
  · rw [if_neg hc] at hxr
    rw [← hxr] at hbid
    exact absurd (by simp [hbid]) hc

theorem blkInputRowsModel_length (height start : Int) (txs : List TxDoc) :
    (blkInputRowsModel height start txs).length = txsInputsN txs := by
  have h := congrArg List.length (blkInputRowsModel_ids height txs start)
  simpa [idRangeI_length] using h

theorem blkDataInputRowsModel_length (start : Int) (txs : List TxDoc) :
    (blkDataInputRowsModel start txs).length = txsDataInputsN txs := by
  have h := congrArg List.length (blkDataInputRowsModel_ids txs start)
  simpa [idRangeI_length] using h

theorem blkBoxAssetRowsModel_length (start : Int) (txs : List TxDoc) :
    (blkBoxAssetRowsModel start txs).length = txsAssetsN txs := by
  have h := congrArg List.length (blkBoxAssetRowsModel_ids txs start)
  simpa [idRangeI_length] using h

/-! ## Claim C2: counters on a failed apply -/

/-- C2: the spec says the six counters are unchanged whenever `apply`
returns an error.  That holds exactly for the failures that precede row
collection (missing header, blockTransactions, transactions array, block
id or height): the call returns the error and the counters passed in.
(When collection itself fails the processor has already advanced its
counters; see the counterexample.) -/
theorem C2_error_counters (c : ProcCounters) (db : DBState) (blk : BlockDoc)
    (now : Int) (e : String) (h : blkPreErr blk = some e) :
    (process_block c db blk now).1 = c ∧
    (process_block c db blk now).2 = Except.error e := by
  rw [process_block_preErr c db blk now e h]
  exact ⟨rfl, rfl⟩

/-- C2 witness: a block document with no header fails with "Missing
header" and leaves the counters untouched. -/
theorem C2_error_counters_witness :
    blkPreErr ⟨none, none⟩ = some "Missing header" ∧
    (process_block ⟨0, 0, 0, 0, 0, 0⟩ ⟨[], [], [], [], [], [], [], [], []⟩
      ⟨none, none⟩ 0).1 = ⟨0, 0, 0, 0, 0, 0⟩ ∧
    (process_block ⟨0, 0, 0, 0, 0, 0⟩ ⟨[], [], [], [], [], [], [], [], []⟩
      ⟨none, none⟩ 0).2 = Except.error "Missing header" := by
  refine ⟨rfl, ?_, ?_⟩
  · exact (C2_error_counters ⟨0, 0, 0, 0, 0, 0⟩ ⟨[], [], [], [], [], [], [], [], []⟩
      ⟨none, none⟩ 0 "Missing header" rfl).1
  · exact (C2_error_counters ⟨0, 0, 0, 0, 0, 0⟩ ⟨[], [], [], [], [], [], [], [], []⟩
      ⟨none, none⟩ 0 "Missing header" rfl).2

/-- C2 counterexample: a block whose header parses but whose transaction
lacks an id makes `process_block` return an error while the counters have
advanced (global_block_index is already incremented), refuting the
claim that the counters are unchanged on every error. -/
theorem C2_counterexample :
    process_block ⟨0, 0, 0, 0, 0, 0⟩ ⟨[], [], [], [], [], [], [], [], []⟩
      ⟨some ⟨some "b", none, some 1, none, none, none⟩,
       some ⟨some [⟨none, none, none, none, none⟩]⟩⟩ 0
      = (⟨0, 0, 1, 0, 0, 0⟩, Except.error "Missing tx id") ∧
    (⟨0, 0, 1, 0, 0, 0⟩ : ProcCounters) ≠ ⟨0, 0, 0, 0, 0, 0⟩ := by
  refine ⟨rfl, by decide⟩

/-! ## Claim C10: transactions with no inputs field -/

/-- C10: a transaction document with an id and an outputs array but no
inputs field is accepted by the collector (assuming the rest of the
document parses): its transaction row has input_count 0 and coinbase
true, and no token row is produced because the first-input box id is
absent. -/
theorem C10_inputless_tx (block_id : String) (height timestamp tx_idx : Int)
    (tx : TxDoc) (tid : String) (outs : List OutputDoc)
    (c c2 : ProcCounters) (col col2 : CollectedOps) (err2 : Option String)
    (htid : tx.id = some tid) (houts : tx.outputs = some outs)
    (hins : tx.inputs = none)
    (hdis : dataInputsErr (tx.dataInputs.getD []) = none)
    (houte : outputsErr outs = none)
    (hres : collect_transaction_ops tx block_id height timestamp tx_idx c col
      = (c2, col2, err2)) :
    err2 = none ∧
    col2.transactions = col.transactions
      ++ [txRowModel tx block_id height timestamp tx_idx (c.global_tx_index + 1)] ∧
    (txRowModel tx block_id height timestamp tx_idx (c.global_tx_index + 1)).input_count
      = 0 ∧
    (txRowModel tx block_id height timestamp tx_idx (c.global_tx_index + 1)).coinbase
      = true ∧
    col2.tokens = col.tokens := by
  obtain ⟨tErr, tRec⟩ := collect_transaction_ops_char block_id height timestamp tx tx_idx
    c c2 col col2 err2 hres
  have htxe : txErr tx = none := by
    simp only [txErr, htid, houts, hins]
    have hD : (match tx.dataInputs with
        | some l => dataInputsErr l
        | none => none) = (none : Option String) := by
      rcases hd : tx.dataInputs with _ | l
      · rfl
      · rw [hd] at hdis
        simpa using hdis
    rw [hD, houte]
  rw [htxe] at tErr
  obtain ⟨hc2, hcol2⟩ := tRec tErr
  refine ⟨tErr, ?_, ?_, ?_, ?_⟩
  · rw [hcol2]
  · simp only [txRowModel, hins]
    norm_num [i32cast]
  · simp only [txRowModel, hins]
    norm_num [i32cast]
  · rw [hcol2]
    dsimp only
    have hfib : txFib tx = none := by simp [txFib, hins]
    rw [hfib, outTokenRowsModel_none]
    simp

/-- C10 witness: the concrete inputless transaction
`{id: "t", outputs: []}` at index 0 is collected without error, records
input_count 0 and coinbase true, and adds no token row. -/
theorem C10_inputless_tx_witness :
    (none : Option String) = none ∧
    ((⟨none, [(⟨"t", "b", 1, 0, 0, 1, true, 0, 0, 0⟩ : TransactionData)],
        [], [], [], [], [], []⟩ : CollectedOps)).transactions
      = (⟨none, [], [], [], [], [], [], []⟩ : CollectedOps).transactions
        ++ [txRowModel ⟨some "t", none, none, none, some []⟩ "b" 1 0 0
              ((⟨0, 0, 0, 0, 0, 0⟩ : ProcCounters).global_tx_index + 1)] ∧
    (txRowModel ⟨some "t", none, none, none, some []⟩ "b" 1 0 0
      ((⟨0, 0, 0, 0, 0, 0⟩ : ProcCounters).global_tx_index + 1)).input_count = 0 ∧
    (txRowModel ⟨some "t", none, none, none, some []⟩ "b" 1 0 0
      ((⟨0, 0, 0, 0, 0, 0⟩ : ProcCounters).global_tx_index + 1)).coinbase = true ∧
    ((⟨none, [(⟨"t", "b", 1, 0, 0, 1, true, 0, 0, 0⟩ : TransactionData)],
        [], [], [], [], [], []⟩ : CollectedOps)).tokens
      = (⟨none, [], [], [], [], [], [], []⟩ : CollectedOps).tokens :=
  C10_inputless_tx "b" 1 0 0 ⟨some "t", none, none, none, some []⟩ "t" []
    ⟨0, 0, 0, 0, 0, 0⟩ ⟨1, 0, 0, 0, 0, 0⟩
    ⟨none, [], [], [], [], [], [], []⟩
    ⟨none, [(⟨"t", "b", 1, 0, 0, 1, true, 0, 0, 0⟩ : TransactionData)],
      [], [], [], [], [], []⟩
    none rfl rfl rfl rfl rfl (by decide)

/-! ## Claim C4: the minting rule -/

theorem i32cast_zero : i32cast 0 = 0 := by decide

theorem i32cast_pos_ne_zero (k : Nat) (h1 : 1 ≤ k) (h2 : k ≤ 2 ^ 31) :
    i32cast (k : Int) ≠ 0 := by
  unfold i32cast
  dsimp only
  split <;> omega

theorem tokenRowsModel_tail_nil (box_id : String) (height : Int) (fib : Option String)
    (registers : Option RegDoc) :
    ∀ (l : List AssetDoc) (idx : Nat), 1 ≤ idx → idx + l.length ≤ 2 ^ 31 →
    tokenRowsModel box_id height fib registers l idx = [] := by
  intro l
  induction l with
  | nil => intro idx h1 h2; rfl
  | cons a rest ih =>
    intro idx h1 h2
    simp only [tokenRowsModel]
    rw [if_neg, ih (idx + 1) (by omega) (by simp at h2 ⊢; omega)]
    · simp
    · rintro ⟨hz, _⟩
      exact i32cast_pos_ne_zero idx h1 (by simp at h2; omega) hz

theorem tokenRowsModel_zero_char (box_id : String) (height : Int) (fib : Option String)
    (registers : Option RegDoc) (l : List AssetDoc) (hlen : l.length ≤ 2 ^ 31) :
    tokenRowsModel box_id height fib registers l 0
      = (match l.head? with
         | none => []
         | some a =>
           if fib = some (a.tokenId.getD "") then
             [⟨a.tokenId.getD "", box_id, a.amount.getD 0,
               (extract_token_metadata registers).1,
               (extract_token_metadata registers).2.1,
               (extract_token_metadata registers).2.2, height⟩]
           else []) := by
  cases l with
  | nil => rfl
  | cons a rest =>
    simp only [tokenRowsModel, List.head?]
    rw [tokenRowsModel_tail_nil box_id height fib registers rest 1 (by omega)
      (by simp at hlen; omega)]
    simp [i32cast_zero]

theorem mem_outTokenRowsModel (height : Int) (fib : Option String) :
    ∀ (outs : List OutputDoc) (r : TokenData),
    r ∈ outTokenRowsModel height fib outs ↔
      ∃ o ∈ outs, r ∈ (match o.assets with
        | none => ([] : List TokenData)
        | some al => tokenRowsModel (o.boxId.getD "") height fib
            o.additionalRegisters al 0) := by
  intro outs
  induction outs with
  | nil => intro r; simp [outTokenRowsModel]
  | cons o rest ih =>
    intro r
    simp only [outTokenRowsModel, List.mem_append, ih r]
    constructor
    · rintro (h | ⟨q, hq, hr⟩)
      · exact ⟨o, by simp, h⟩
      · exact ⟨q, by simp [hq], hr⟩
    · rintro ⟨q, hq, hr⟩
      rcases List.mem_cons.mp hq with h | h
      · subst h
        exact Or.inl hr
      · exact Or.inr ⟨q, h, hr⟩

set_option maxRecDepth 20000 in
/-- C4: for a successfully collected transaction (with realistically
sized asset lists), a token row is appended exactly for an asset sitting
at index 0 of some output's asset list whose tokenId equals the boxId of
the transaction's first input; the row carries that asset's amount as
emission_amount and that output's boxId. -/
theorem C4_minting_rule (block_id : String) (height timestamp tx_idx : Int)
    (tx : TxDoc) (c c2 : ProcCounters) (col col2 : CollectedOps)
    (hres : collect_transaction_ops tx block_id height timestamp tx_idx c col
      = (c2, col2, none))
    (hbound : ∀ o ∈ tx.outputs.getD [], (o.assets.getD []).length ≤ 2 ^ 31)
    (r : TokenData) :
    r ∈ col2.tokens ↔ r ∈ col.tokens ∨
      (∃ o ∈ tx.outputs.getD [], ∃ a, (o.assets.getD []).head? = some a ∧
        txFib tx = some (a.tokenId.getD "") ∧
        r = ⟨a.tokenId.getD "", o.boxId.getD "", a.amount.getD 0,
          (extract_token_metadata o.additionalRegisters).1,
          (extract_token_metadata o.additionalRegisters).2.1,
          (extract_token_metadata o.additionalRegisters).2.2, height⟩) := by
  obtain ⟨tErr, tRec⟩ := collect_transaction_ops_char block_id height timestamp tx tx_idx
    c c2 col col2 none hres
  obtain ⟨hc2, hcol2⟩ := tRec rfl
  rw [hcol2]
  dsimp only
  rw [List.mem_append]
  apply or_congr Iff.rfl
  rw [mem_outTokenRowsModel]
  constructor
  · rintro ⟨o, ho, hr⟩
    rcases ha : o.assets with _ | al
    · rw [ha] at hr
      simp at hr
    · rw [ha] at hr
      dsimp only at hr
      have hb : al.length ≤ 2 ^ 31 := by
        have := hbound o ho
        rw [ha] at this
        simpa using this
      rw [tokenRowsModel_zero_char _ _ _ _ al hb] at hr
      rcases al with _ | ⟨a, arest⟩
      · simp at hr
      · simp only [List.head?] at hr
        by_cases hfib : txFib tx = some (a.tokenId.getD "")
        · rw [if_pos hfib] at hr
          simp at hr
          exact ⟨o, ho, a, by rw [ha]; rfl, hfib, hr⟩
        · rw [if_neg hfib] at hr
          simp at hr
  · rintro ⟨o, ho, a, hhead, hfib, hr⟩
    refine ⟨o, ho, ?_⟩
    rcases ha : o.assets with _ | al
    · rw [ha] at hhead
      simp at hhead
    · rw [ha] at hhead
      simp only [Option.getD_some] at hhead
      have hb : al.length ≤ 2 ^ 31 := by
        have := hbound o ho
        rw [ha] at this
        simpa using this
      show r ∈ tokenRowsModel (o.boxId.getD "") height (txFib tx)
        o.additionalRegisters al 0
      rw [tokenRowsModel_zero_char _ _ _ _ al hb, hhead]
      simp [hfib, hr]

set_option maxRecDepth 400000 in
/-- C4 witness: a transaction whose first input spends box "b0" and whose
output "b1" carries asset ("b0", 5) at index 0 mints the token row
("b0", "b1", 5, _, _, _, height). -/
theorem C4_minting_rule_witness :
    (⟨"b0", "b1", 5, none, none, none, 7⟩ : TokenData) ∈
      (collect_transaction_ops
        ⟨some "t", none, some [⟨some "b0", none⟩], none,
          some [⟨some "b1", none, none, none, none, some [⟨some "b0", some 5⟩]⟩]⟩
        "b" 7 0 0 ⟨0, 0, 0, 0, 0, 0⟩
        ⟨none, [], [], [], [], [], [], []⟩).2.1.tokens :=
  (C4_minting_rule "b" 7 0 0
    ⟨some "t", none, some [⟨some "b0", none⟩], none,
      some [⟨some "b1", none, none, none, none, some [⟨some "b0", some 5⟩]⟩]⟩
    ⟨0, 0, 0, 0, 0, 0⟩
    (collect_transaction_ops
      ⟨some "t", none, some [⟨some "b0", none⟩], none,
        some [⟨some "b1", none, none, none, none, some [⟨some "b0", some 5⟩]⟩]⟩
      "b" 7 0 0 ⟨0, 0, 0, 0, 0, 0⟩ ⟨none, [], [], [], [], [], [], []⟩).1
    ⟨none, [], [], [], [], [], [], []⟩
    (collect_transaction_ops
      ⟨some "t", none, some [⟨some "b0", none⟩], none,
        some [⟨some "b1", none, none, none, none, some [⟨some "b0", some 5⟩]⟩]⟩
      "b" 7 0 0 ⟨0, 0, 0, 0, 0, 0⟩ ⟨none, [], [], [], [], [], [], []⟩).2.1
    (by rfl) (by decide)
    ⟨"b0", "b1", 5, none, none, none, 7⟩).mpr
    (Or.inr ⟨⟨some "b1", none, none, none, none, some [⟨some "b0", some 5⟩]⟩,
      by simp, ⟨some "b0", some 5⟩, rfl, rfl, rfl⟩)

/-! ## Claim C1: re-applying a block -/

theorem insert_fold_fresh_grow {α : Type} (key : α → Int) (rows new : List α)
    (B : Int) (n : Nat)
    (hdom : ∀ x ∈ rows, key x ≤ B)
    (hids : new.map key = idRangeI B n) :
    (new.foldl (insertByKey key) rows).length = rows.length + n ∧
    (∀ x ∈ new.foldl (insertByKey key) rows, key x ≤ B + n) := by
  have hlen : new.length = n := by
    have h := congrArg List.length hids
    simpa [idRangeI_length] using h
  have hfresh : ∀ r ∈ new, ∀ x ∈ rows, key x ≠ key r := by
    intro r hr x hx
    have hkr : key r ∈ idRangeI B n := by
      rw [← hids]
      exact List.mem_map_of_mem key hr
    have h1 := (mem_idRangeI B n (key r)).mp hkr
    have h2 := hdom x hx
    omega
  have hnd : (new.map key).Nodup := by
    rw [hids]
    exact idRangeI_nodup B n
  constructor
  · rw [foldl_insertByKey_fresh key new rows hfresh hnd, hlen]
  · intro x hx
    rcases mem_foldl_insertByKey key new rows x hx with h | h
    · have := hdom x h
      omega
    · have hkx : key x ∈ idRangeI B n := by
        rw [← hids]
        exact List.mem_map_of_mem key h
      have := (mem_idRangeI B n (key x)).mp hkx
      omega

theorem insert_fold_skip_subset {α K : Type} [BEq K] [LawfulBEq K] (key : α → K)
    (rows0 batch1 batch2 : List α)
    (hsub : ∀ k ∈ batch2.map key, k ∈ batch1.map key) :
    batch2.foldl (insertByKey key) (batch1.foldl (insertByKey key) rows0)
      = batch1.foldl (insertByKey key) rows0 := by
  apply foldl_insertByKey_skip
  intro r hr
  have hk : key r ∈ batch1.map key := hsub _ (List.mem_map_of_mem key hr)
  obtain ⟨r1, hr1, hk1⟩ := List.mem_map.mp hk
  have h := foldl_insertByKey_mem_key key batch1 rows0 r1 hr1
  rw [any_key_eq_mem] at h ⊢
  rw [← hk1]
  exact h

set_option maxRecDepth 20000 in
/-- C1: the spec claims re-applying a block is a no-op apart from the
main_chain reassertion.  What holds: block, transaction, box and token
row counts are unchanged by the second apply and main_chain is
re-asserted, but the inputs, data_inputs and box_assets tables each grow
again by the same per-block row count, because the processor keys them by
freshly allocated synthetic ids.  The domination hypotheses say the
store's synthetic ids do not exceed the processor's counters (true of
any store built by this processor). -/
theorem C1_reapply_row_counts (blk : BlockDoc) (c : ProcCounters) (db : DBState)
    (now1 now2 : Int) (hdr : HeaderDoc) (bid : String)
    (hh : blk.header = some hdr) (hid : hdr.id = some bid)
    (hdomIn : ∀ r ∈ db.inputs, r.id ≤ c.input_id)
    (hdomDi : ∀ r ∈ db.data_inputs, r.id ≤ c.data_input_id)
    (hdomBa : ∀ r ∈ db.box_assets, r.id ≤ c.box_asset_id)
    (c1 c2 : ProcCounters) (db1 db2 : DBState)
    (h1 : process_block c db blk now1 = (c1, Except.ok db1))
    (h2 : process_block c1 db1 blk now2 = (c2, Except.ok db2)) :
    db2.blocks.length = db1.blocks.length ∧
    db2.transactions.length = db1.transactions.length ∧
    db2.boxes.length = db1.boxes.length ∧
    db2.tokens.length = db1.tokens.length ∧
    (∃ nIn, db1.inputs.length = db.inputs.length + nIn ∧
      db2.inputs.length = db1.inputs.length + nIn) ∧
    (∃ nDi, db1.data_inputs.length = db.data_inputs.length + nDi ∧
      db2.data_inputs.length = db1.data_inputs.length + nDi) ∧
    (∃ nBa, db1.box_assets.length = db.box_assets.length + nBa ∧
      db2.box_assets.length = db1.box_assets.length + nBa) ∧
    (∀ r ∈ db2.blocks, r.block_id = bid → r.main_chain = true) := by
  obtain ⟨hdr1, bt, txs, bid1, height, hh1, hbt, htr, hid1, hht, htxe⟩ :=
    process_block_ok_shape c db blk now1 c1 db1 h1
  rw [hh] at hh1
  injection hh1 with hh1e
  subst hh1e
  rw [hid] at hid1
  injection hid1 with hid1e
  subst hid1e
  rw [process_block_ok_eq c db blk now1 hdr bt txs bid height hh hbt htr hid hht htxe]
    at h1
  simp only [Prod.mk.injEq, Except.ok.injEq] at h1
  obtain ⟨hc1, hdb1⟩ := h1
  rw [process_block_ok_eq c1 db1 blk now2 hdr bt txs bid height hh hbt htr hid hht htxe]
    at h2
  simp only [Prod.mk.injEq, Except.ok.injEq] at h2
  obtain ⟨hc2, hdb2⟩ := h2
  have hc1in : c1.input_id = c.input_id + (txsInputsN txs : Int) := by
    rw [← hc1]
    simp [advCounters]
  have hc1di : c1.data_input_id = c.data_input_id + (txsDataInputsN txs : Int) := by
    rw [← hc1]
    simp [advCounters]
  have hc1ba : c1.box_asset_id = c.box_asset_id + (txsAssetsN txs : Int) := by
    rw [← hc1]
    simp [advCounters]
  -- blocks
  have hb1 : db1.blocks
      = upsertBlockRow db.blocks (bdataModel hdr bid height txs (c.global_block_index + 1)) := by
    rw [← hdb1, executeBatch_blocks]
    simp [colFullModel]
  have hany : db1.blocks.any (fun x => x.block_id == bid) = true := by
    rw [hb1]
    have h := upsertBlockRow_self_key db.blocks
      (bdataModel hdr bid height txs (c.global_block_index + 1))
    simpa [bdataModel] using h
  have hb2 : db2.blocks = db1.blocks.map
      (fun x => if x.block_id == bid then { x with main_chain := true } else x) := by
    rw [← hdb2, executeBatch_blocks]
    simp only [colFullModel]
    rw [upsertBlockRow_present _ _ (by simpa [bdataModel] using hany)]
    simp [bdataModel]
  -- transactions
  have htxs2 : db2.transactions = db1.transactions := by
    rw [← hdb2, ← hdb1, executeBatch_transactions, executeBatch_transactions]
    simp only [colFullModel]
    apply insert_fold_skip_subset
    intro k hk
    rw [blkTxRowsModel_keys] at hk
    rw [blkTxRowsModel_keys]
    exact hk
  -- boxes
  have hkeys1 : db1.boxes.map (fun b => b.box_id)
      = (((blkBoxRowsModel height c.global_box_index txs).map boxRowOf).foldl
          (insertByKey (fun r => r.box_id)) db.boxes).map (fun b => b.box_id) := by
    rw [← hdb1]
    have h := executeBatch_box_ids db (colFullModel hdr bid height txs c) now1
      (decide (height % 100 = 0))
    simpa [colFullModel] using h
  have hcondbx : ∀ r ∈ (blkBoxRowsModel height c1.global_box_index txs).map boxRowOf,
      db1.boxes.any (fun x => x.box_id == r.box_id) = true := by
    intro r hr
    rw [any_key_eq_mem (fun b => b.box_id) db1.boxes r.box_id, hkeys1]
    obtain ⟨bdat, hbdat, hre⟩ := List.mem_map.mp hr
    have hk : bdat.box_id ∈ (blkBoxRowsModel height c.global_box_index txs).map
        (fun b => b.box_id) := by
      rw [blkBoxRowsModel_keys height txs c.global_box_index c1.global_box_index]
      exact List.mem_map_of_mem _ hbdat
    obtain ⟨b1, hb1m, hb1k⟩ := List.mem_map.mp hk
    have hmem := foldl_insertByKey_mem_key (fun r => r.box_id)
      ((blkBoxRowsModel height c.global_box_index txs).map boxRowOf) db.boxes
      (boxRowOf b1) (List.mem_map_of_mem _ hb1m)
    rw [any_key_eq_mem] at hmem
    rw [← hre]
    show bdat.box_id ∈ _
    rw [← hb1k]
    exact hmem
  have hbx2 : db2.boxes.length = db1.boxes.length := by
    rw [← hdb2, executeBatch_boxes_length]
    simp only [colFullModel]
    rw [foldl_insertByKey_skip (fun r => r.box_id)
      ((blkBoxRowsModel height c1.global_box_index txs).map boxRowOf) db1.boxes hcondbx]
  -- tokens
  have htk2 : db2.tokens = db1.tokens := by
    rw [← hdb2, executeBatch_tokens]
    simp only [colFullModel]
    apply foldl_insertByKey_skip
    intro r hr
    rw [← hdb1, executeBatch_tokens]
    simp only [colFullModel]
    exact foldl_insertByKey_mem_key (fun r => r.token_id) _ db.tokens r hr
  -- inputs
  obtain ⟨hgIn1, hdIn1⟩ := insert_fold_fresh_grow (fun r => r.id) db.inputs
    (blkInputRowsModel height c.input_id txs) c.input_id (txsInputsN txs)
    hdomIn (blkInputRowsModel_ids height txs c.input_id)
  have hin1 : db1.inputs = (blkInputRowsModel height c.input_id txs).foldl
      (insertByKey (fun r => r.id)) db.inputs := by
    rw [← hdb1, executeBatch_inputs]
    simp [colFullModel]
  have hdom1In : ∀ x ∈ db1.inputs, x.id ≤ c1.input_id := by
    intro x hx
    rw [hin1] at hx
    have h := hdIn1 x hx
    rw [hc1in]
    exact h
  obtain ⟨hgIn2, _⟩ := insert_fold_fresh_grow (fun r => r.id) db1.inputs
    (blkInputRowsModel height c1.input_id txs) c1.input_id (txsInputsN txs)
    hdom1In (blkInputRowsModel_ids height txs c1.input_id)
  have hin2 : db2.inputs = (blkInputRowsModel height c1.input_id txs).foldl
      (insertByKey (fun r => r.id)) db1.inputs := by
    rw [← hdb2, executeBatch_inputs]
    simp [colFullModel]
  -- data inputs
  obtain ⟨hgDi1, hdDi1⟩ := insert_fold_fresh_grow (fun r => r.id) db.data_inputs
    (blkDataInputRowsModel c.data_input_id txs) c.data_input_id (txsDataInputsN txs)
    hdomDi (blkDataInputRowsModel_ids txs c.data_input_id)
  have hdi1 : db1.data_inputs = (blkDataInputRowsModel c.data_input_id txs).foldl
      (insertByKey (fun r => r.id)) db.data_inputs := by
    rw [← hdb1, executeBatch_data_inputs]
    simp [colFullModel]
  have hdom1Di : ∀ x ∈ db1.data_inputs, x.id ≤ c1.data_input_id := by
    intro x hx
    rw [hdi1] at hx
    have h := hdDi1 x hx
    rw [hc1di]
    exact h
  obtain ⟨hgDi2, _⟩ := insert_fold_fresh_grow (fun r => r.id) db1.data_inputs
    (blkDataInputRowsModel c1.data_input_id txs) c1.data_input_id (txsDataInputsN txs)
    hdom1Di (blkDataInputRowsModel_ids txs c1.data_input_id)
  have hdi2 : db2.data_inputs = (blkDataInputRowsModel c1.data_input_id txs).foldl
      (insertByKey (fun r => r.id)) db1.data_inputs := by
    rw [← hdb2, executeBatch_data_inputs]
    simp [colFullModel]
  -- box assets
  obtain ⟨hgBa1, hdBa1⟩ := insert_fold_fresh_grow (fun r => r.id) db.box_assets
    (blkBoxAssetRowsModel c.box_asset_id txs) c.box_asset_id (txsAssetsN txs)
    hdomBa (blkBoxAssetRowsModel_ids txs c.box_asset_id)
  have hba1 : db1.box_assets = (blkBoxAssetRowsModel c.box_asset_id txs).foldl
      (insertByKey (fun r => r.id)) db.box_assets := by
    rw [← hdb1, executeBatch_box_assets]
    simp [colFullModel]
  have hdom1Ba : ∀ x ∈ db1.box_assets, x.id ≤ c1.box_asset_id := by
    intro x hx
    rw [hba1] at hx
    have h := hdBa1 x hx
    rw [hc1ba]
    exact h
  obtain ⟨hgBa2, _⟩ := insert_fold_fresh_grow (fun r => r.id) db1.box_assets
    (blkBoxAssetRowsModel c1.box_asset_id txs) c1.box_asset_id (txsAssetsN txs)
    hdom1Ba (blkBoxAssetRowsModel_ids txs c1.box_asset_id)
  have hba2 : db2.box_assets = (blkBoxAssetRowsModel c1.box_asset_id txs).foldl
      (insertByKey (fun r => r.id)) db1.box_assets := by
    rw [← hdb2, executeBatch_box_assets]
    simp [colFullModel]
  refine ⟨by rw [hb2]; simp, by rw [htxs2], hbx2, by rw [htk2],
    ⟨txsInputsN txs, ?_, ?_⟩, ⟨txsDataInputsN txs, ?_, ?_⟩,
    ⟨txsAssetsN txs, ?_, ?_⟩, ?_⟩
  · rw [hin1]
    exact hgIn1
  · rw [hin2]
    exact hgIn2
  · rw [hdi1]
    exact hgDi1
  · rw [hdi2]
    exact hgDi2
  · rw [hba1]
    exact hgBa1
  · rw [hba2]
    exact hgBa2
  · intro r hr hrb
    rw [hb2] at hr
    exact mainchain_of_mem_update db1.blocks bid r hr hrb

/-- C1 counterexample: re-applying the one-transaction block
(tx "t" spending box "i0") duplicates its input row: the inputs table has
one row after the first apply and two rows after the second, refuting the
claim that the input row count is unchanged by a re-apply. -/
theorem C1_counterexample :
    process_block ⟨0, 0, 0, 0, 0, 0⟩ ⟨[], [], [], [], [], [], [], [], []⟩
      ⟨some ⟨some "b", none, some 1, none, none, none⟩,
       some ⟨some [⟨some "t", none, some [⟨some "i0", none⟩], none, some []⟩]⟩⟩ 0
      = (⟨1, 0, 1, 0, 1, 0⟩,
         Except.ok ⟨[⟨"b", "", 1, 0, 0, 0, 0, 1, none, 0, true, 1⟩],
           [⟨"t", "b", 1, 0, 0, 1, true, 0, 1, 0⟩], [],
           [⟨1, "t", "i0", 1, 0, ""⟩], [], [], [], [], []⟩) ∧
    process_block ⟨1, 0, 1, 0, 1, 0⟩
      ⟨[⟨"b", "", 1, 0, 0, 0, 0, 1, none, 0, true, 1⟩],
       [⟨"t", "b", 1, 0, 0, 1, true, 0, 1, 0⟩], [],
       [⟨1, "t", "i0", 1, 0, ""⟩], [], [], [], [], []⟩
      ⟨some ⟨some "b", none, some 1, none, none, none⟩,
       some ⟨some [⟨some "t", none, some [⟨some "i0", none⟩], none, some []⟩]⟩⟩ 0
      = (⟨2, 0, 2, 0, 2, 0⟩,
         Except.ok ⟨[⟨"b", "", 1, 0, 0, 0, 0, 1, none, 0, true, 1⟩],
           [⟨"t", "b", 1, 0, 0, 1, true, 0, 1, 0⟩], [],
           [⟨1, "t", "i0", 1, 0, ""⟩, ⟨2, "t", "i0", 1, 0, ""⟩],
           [], [], [], [], []⟩) ∧
    ([⟨1, "t", "i0", 1, 0, ""⟩] : List InputData).length = 1 ∧
    ([⟨1, "t", "i0", 1, 0, ""⟩, ⟨2, "t", "i0", 1, 0, ""⟩] : List InputData).length = 2 :=
  ⟨rfl, rfl, rfl, rfl⟩

/-- C1 witness: the corrected statement applied to the same concrete
block: block, transaction, box and token counts are preserved by the
second apply, the inputs table grows by 1 both times, and the block row
keeps main_chain = TRUE. -/
theorem C1_reapply_row_counts_witness :
    (⟨[⟨"b", "", 1, 0, 0, 0, 0, 1, none, 0, true, 1⟩],
      [⟨"t", "b", 1, 0, 0, 1, true, 0, 1, 0⟩], [],
      [⟨1, "t", "i0", 1, 0, ""⟩, ⟨2, "t", "i0", 1, 0, ""⟩],
      [], [], [], [], []⟩ : DBState).blocks.length
      = (⟨[⟨"b", "", 1, 0, 0, 0, 0, 1, none, 0, true, 1⟩],
          [⟨"t", "b", 1, 0, 0, 1, true, 0, 1, 0⟩], [],
          [⟨1, "t", "i0", 1, 0, ""⟩], [], [], [], [], []⟩ : DBState).blocks.length ∧
    (⟨[⟨"b", "", 1, 0, 0, 0, 0, 1, none, 0, true, 1⟩],
      [⟨"t", "b", 1, 0, 0, 1, true, 0, 1, 0⟩], [],
      [⟨1, "t", "i0", 1, 0, ""⟩, ⟨2, "t", "i0", 1, 0, ""⟩],
      [], [], [], [], []⟩ : DBState).transactions.length
      = (⟨[⟨"b", "", 1, 0, 0, 0, 0, 1, none, 0, true, 1⟩],
          [⟨"t", "b", 1, 0, 0, 1, true, 0, 1, 0⟩], [],
          [⟨1, "t", "i0", 1, 0, ""⟩], [], [], [], [], []⟩ : DBState).transactions.length ∧
    (⟨[⟨"b", "", 1, 0, 0, 0, 0, 1, none, 0, true, 1⟩],
      [⟨"t", "b", 1, 0, 0, 1, true, 0, 1, 0⟩], [],
      [⟨1, "t", "i0", 1, 0, ""⟩, ⟨2, "t", "i0", 1, 0, ""⟩],
      [], [], [], [], []⟩ : DBState).boxes.length
      = (⟨[⟨"b", "", 1, 0, 0, 0, 0, 1, none, 0, true, 1⟩],
          [⟨"t", "b", 1, 0, 0, 1, true, 0, 1, 0⟩], [],
          [⟨1, "t", "i0", 1, 0, ""⟩], [], [], [], [], []⟩ : DBState).boxes.length ∧
    (⟨[⟨"b", "", 1, 0, 0, 0, 0, 1, none, 0, true, 1⟩],
      [⟨"t", "b", 1, 0, 0, 1, true, 0, 1, 0⟩], [],
      [⟨1, "t", "i0", 1, 0, ""⟩, ⟨2, "t", "i0", 1, 0, ""⟩],
      [], [], [], [], []⟩ : DBState).tokens.length
      = (⟨[⟨"b", "", 1, 0, 0, 0, 0, 1, none, 0, true, 1⟩],
          [⟨"t", "b", 1, 0, 0, 1, true, 0, 1, 0⟩], [],
          [⟨1, "t", "i0", 1, 0, ""⟩], [], [], [], [], []⟩ : DBState).tokens.length ∧
    (∃ nIn,
      (⟨[⟨"b", "", 1, 0, 0, 0, 0, 1, none, 0, true, 1⟩],
        [⟨"t", "b", 1, 0, 0, 1, true, 0, 1, 0⟩], [],
        [⟨1, "t", "i0", 1, 0, ""⟩], [], [], [], [], []⟩ : DBState).inputs.length
        = (⟨[], [], [], [], [], [], [], [], []⟩ : DBState).inputs.length + nIn ∧
      (⟨[⟨"b", "", 1, 0, 0, 0, 0, 1, none, 0, true, 1⟩],
        [⟨"t", "b", 1, 0, 0, 1, true, 0, 1, 0⟩], [],
        [⟨1, "t", "i0", 1, 0, ""⟩, ⟨2, "t", "i0", 1, 0, ""⟩],
        [], [], [], [], []⟩ : DBState).inputs.length
        = (⟨[⟨"b", "", 1, 0, 0, 0, 0, 1, none, 0, true, 1⟩],
            [⟨"t", "b", 1, 0, 0, 1, true, 0, 1, 0⟩], [],
            [⟨1, "t", "i0", 1, 0, ""⟩], [], [], [], [], []⟩ : DBState).inputs.length + nIn) ∧
    (∃ nDi,
      (⟨[⟨"b", "", 1, 0, 0, 0, 0, 1, none, 0, true, 1⟩],
        [⟨"t", "b", 1, 0, 0, 1, true, 0, 1, 0⟩], [],
        [⟨1, "t", "i0", 1, 0, ""⟩], [], [], [], [], []⟩ : DBState).data_inputs.length
        = (⟨[], [], [], [], [], [], [], [], []⟩ : DBState).data_inputs.length + nDi ∧
      (⟨[⟨"b", "", 1, 0, 0, 0, 0, 1, none, 0, true, 1⟩],
        [⟨"t", "b", 1, 0, 0, 1, true, 0, 1, 0⟩], [],
        [⟨1, "t", "i0", 1, 0, ""⟩, ⟨2, "t", "i0", 1, 0, ""⟩],
        [], [], [], [], []⟩ : DBState).data_inputs.length
        = (⟨[⟨"b", "", 1, 0, 0, 0, 0, 1, none, 0, true, 1⟩],
            [⟨"t", "b", 1, 0, 0, 1, true, 0, 1, 0⟩], [],
            [⟨1, "t", "i0", 1, 0, ""⟩], [], [], [], [], []⟩ : DBState).data_inputs.length + nDi) ∧
    (∃ nBa,
      (⟨[⟨"b", "", 1, 0, 0, 0, 0, 1, none, 0, true, 1⟩],
        [⟨"t", "b", 1, 0, 0, 1, true, 0, 1, 0⟩], [],
        [⟨1, "t", "i0", 1, 0, ""⟩], [], [], [], [], []⟩ : DBState).box_assets.length
        = (⟨[], [], [], [], [], [], [], [], []⟩ : DBState).box_assets.length + nBa ∧
      (⟨[⟨"b", "", 1, 0, 0, 0, 0, 1, none, 0, true, 1⟩],
        [⟨"t", "b", 1, 0, 0, 1, true, 0, 1, 0⟩], [],
        [⟨1, "t", "i0", 1, 0, ""⟩, ⟨2, "t", "i0", 1, 0, ""⟩],
        [], [], [], [], []⟩ : DBState).box_assets.length
        = (⟨[⟨"b", "", 1, 0, 0, 0, 0, 1, none, 0, true, 1⟩],
            [⟨"t", "b", 1, 0, 0, 1, true, 0, 1, 0⟩], [],
            [⟨1, "t", "i0", 1, 0, ""⟩], [], [], [], [], []⟩ : DBState).box_assets.length + nBa) ∧
    (∀ r ∈ (⟨[⟨"b", "", 1, 0, 0, 0, 0, 1, none, 0, true, 1⟩],
        [⟨"t", "b", 1, 0, 0, 1, true, 0, 1, 0⟩], [],
        [⟨1, "t", "i0", 1, 0, ""⟩, ⟨2, "t", "i0", 1, 0, ""⟩],
        [], [], [], [], []⟩ : DBState).blocks,
      r.block_id = "b" → r.main_chain = true) :=
  C1_reapply_row_counts
    ⟨some ⟨some "b", none, some 1, none, none, none⟩,
     some ⟨some [⟨some "t", none, some [⟨some "i0", none⟩], none, some []⟩]⟩⟩
    ⟨0, 0, 0, 0, 0, 0⟩ ⟨[], [], [], [], [], [], [], [], []⟩ 0 0
    ⟨some "b", none, some 1, none, none, none⟩ "b" rfl rfl
    (by simp) (by simp) (by simp)
    ⟨1, 0, 1, 0, 1, 0⟩ ⟨2, 0, 2, 0, 2, 0⟩
    ⟨[⟨"b", "", 1, 0, 0, 0, 0, 1, none, 0, true, 1⟩],
     [⟨"t", "b", 1, 0, 0, 1, true, 0, 1, 0⟩], [],
     [⟨1, "t", "i0", 1, 0, ""⟩], [], [], [], [], []⟩
    ⟨[⟨"b", "", 1, 0, 0, 0, 0, 1, none, 0, true, 1⟩],
     [⟨"t", "b", 1, 0, 0, 1, true, 0, 1, 0⟩], [],
     [⟨1, "t", "i0", 1, 0, ""⟩, ⟨2, "t", "i0", 1, 0, ""⟩],
     [], [], [], [], []⟩
    rfl rfl

/-! ## Claim C5: the VLQ decoder's group ceiling -/

/-- Any successful VLQ decode consumes at most 6 bytes: the shift check
fires only after the shift has advanced past the sixth group. -/
theorem decodeVlqGo_le :
    ∀ (bytes : List Nat) (value shift i v n : Nat),
    decodeVlqGo bytes value shift i = some (v, n) → n ≤ i + (35 - shift) / 7 + 1 := by
  intro bytes
  induction bytes with
  | nil =>
    intro value shift i v n h
    simp [decodeVlqGo] at h
  | cons b rest ih =>
    intro value shift i v n h
    simp only [decodeVlqGo] at h
    split at h
    · simp only [Option.some.injEq, Prod.mk.injEq] at h
      omega
    · split at h
      · simp at h
      · have hrec := ih _ _ _ _ _ h
        omega

/-- C5: the VLQ decoder reads 7-bit little-endian groups with the high
bit as continuation and the three example decodes hold, but the ceiling
is six groups, not five: the `shift > 35` check runs only after the
shift has been advanced, so any successful decode consumes at most 6
bytes (and a sixth group is genuinely accepted; see the
counterexample). -/
theorem C5_vlq_decoder :
    decode_vlq [0x00] = some (0, 1) ∧
    decode_vlq [0x7f] = some (127, 1) ∧
    decode_vlq [0x80, 0x01] = some (128, 2) ∧
    ∀ (bytes : List Nat) (v n : Nat), decode_vlq bytes = some (v, n) → n ≤ 6 := by
  refine ⟨rfl, rfl, rfl, ?_⟩
  intro bytes v n h
  have := decodeVlqGo_le bytes 0 0 0 v n h
  omega

/-- C5 counterexample: the six-group input [0x80,0x80,0x80,0x80,0x80,0x01]
needs six groups yet decodes successfully (to 2^35), refuting the claimed
five-group ceiling. -/
theorem C5_counterexample :
    decode_vlq [0x80, 0x80, 0x80, 0x80, 0x80, 0x01] = some (34359738368, 6) ∧
    (some ((34359738368 : Nat), (6 : Nat)) ≠ (none : Option (Nat × Nat))) := by
  exact ⟨rfl, by simp⟩

/-- C5 witness: the six-byte decode meets the proven six-group bound. -/
theorem C5_witness :
    decode_vlq [0x80, 0x80, 0x80, 0x80, 0x80, 0x01] = some (34359738368, 6) ∧
    (6 : Nat) ≤ 6 :=
  ⟨rfl, C5_vlq_decoder.2.2.2 [0x80, 0x80, 0x80, 0x80, 0x80, 0x01] 34359738368 6 rfl⟩

/-! ## Sync service: node probing and batch fan-out (`src/sync/mod.rs`) -/

/-- The one field of a node's /info response that drives best-node
selection; the remaining fields only feed the status vector. -/
structure NodeInfoDoc where
  full_height : Option Int
deriving DecidableEq, Repr

/-- The for-loop of `find_best_node` over probe outcomes (none = the node
did not respond): track the highest reported full_height. -/
def findBestGo : List (Option NodeInfoDoc) → Nat → Nat × Int → Nat × Int
  | [], _, best => best
  | p :: rest, idx, best =>
    let best := match p with
      | some info =>
        let height := info.full_height.getD 0
        if height > best.2 then (idx, height) else best
      | none => best
    findBestGo rest (idx + 1) best

/-- `find_best_node`: probe every node, pick the highest full_height,
error when the best height is still 0. -/
def find_best_node (probes : List (Option NodeInfoDoc)) : Except String (Nat × Int) :=
  let result := findBestGo probes 0 (0, 0)
  if result.2 = 0 then Except.error "No nodes available" else Except.ok result

/-- The inclusive height range start..=end_ collected into a list. -/
def intRangeIncl (start_height end_height : Int) : List Int :=
  (List.range (end_height + 1 - start_height).toNat).map
    (fun (i : Nat) => start_height + (i : Int))

/-- The fan-out of `fetch_blocks_parallel`: each height of the batch
window, paired with the node index the fetch is issued to
(`i % num_nodes` over the enumeration of the window). -/
def fetch_assignments (start_height end_height : Int) (num_nodes : Nat) :
    List (Int × Nat) :=
  (intRangeIncl start_height end_height).enum.map (fun p => (p.2, p.1 % num_nodes))

/-! ## Support lemmas for the sync-service claims -/

theorem fetch_assignments_getElem (s e : Int) (n : Nat) (i : Nat)
    (hi : i < (e + 1 - s).toNat) :
    (fetch_assignments s e n)[i]? = some (s + i, i % n) := by
  unfold fetch_assignments intRangeIncl
  rw [List.getElem?_map, List.getElem?_enum, List.getElem?_map, List.getElem?_range hi]
  rfl

theorem fetch_assignments_length (s e : Int) (n : Nat) :
    (fetch_assignments s e n).length = (e + 1 - s).toNat := by
  unfold fetch_assignments intRangeIncl
  rw [List.length_map, List.enum_length, List.length_map, List.length_range]

theorem findBestGo_ge : ∀ (probes : List (Option NodeInfoDoc)) (idx : Nat)
    (best : Nat × Int), best.2 ≤ (findBestGo probes idx best).2 := by
  intro probes
  induction probes with
  | nil => intro idx best; simp [findBestGo]
  | cons p rest ih =>
    intro idx best
    cases p with
    | none => simp only [findBestGo]; exact ih _ _
    | some info =>
      simp only [findBestGo]
      by_cases hgt : info.full_height.getD 0 > best.2
      · rw [if_pos hgt]
        calc best.2 ≤ info.full_height.getD 0 := le_of_lt hgt
          _ = ((idx, info.full_height.getD 0) : Nat × Int).2 := rfl
          _ ≤ _ := ih _ _
      · rw [if_neg hgt]
        exact ih _ _

theorem findBestGo_ge_heights : ∀ (probes : List (Option NodeInfoDoc)) (idx : Nat)
    (best : Nat × Int) (j : Nat) (info : NodeInfoDoc),
    probes[j]? = some (some info) →
    info.full_height.getD 0 ≤ (findBestGo probes idx best).2 := by
  intro probes
  induction probes with
  | nil => intro idx best j info h; simp at h
  | cons p rest ih =>
    intro idx best j info h
    cases j with
    | zero =>
      have hp : p = some info := by simpa using h
      subst hp
      simp only [findBestGo]
      by_cases hgt : info.full_height.getD 0 > best.2
      · rw [if_pos hgt]
        calc info.full_height.getD 0
            = ((idx, info.full_height.getD 0) : Nat × Int).2 := rfl
          _ ≤ _ := findBestGo_ge _ _ _
      · rw [if_neg hgt]
        push_neg at hgt
        calc info.full_height.getD 0 ≤ best.2 := hgt
          _ ≤ _ := findBestGo_ge _ _ _
    | succ j =>
      simp only [List.getElem?_cons_succ] at h
      cases p with
      | none => simp only [findBestGo]; exact ih _ _ j info h
      | some q => simp only [findBestGo]; exact ih _ _ j info h

theorem findBestGo_cases : ∀ (probes : List (Option NodeInfoDoc)) (idx : Nat)
    (best : Nat × Int),
    findBestGo probes idx best = best ∨
    ∃ (j : Nat) (info : NodeInfoDoc), probes[j]? = some (some info) ∧
      findBestGo probes idx best = (idx + j, info.full_height.getD 0) := by
  intro probes
  induction probes with
  | nil => intro idx best; left; rfl
  | cons p rest ih =>
    intro idx best
    cases p with
    | none =>
      simp only [findBestGo]
      rcases ih (idx + 1) best with h | ⟨j, info, hj, hr⟩
      · left; exact h
      · right
        exact ⟨j + 1, info, by simpa using hj, by rw [hr]; congr 1 <;> omega⟩
    | some info =>
      simp only [findBestGo]
      by_cases hgt : info.full_height.getD 0 > best.2
      · rw [if_pos hgt]
        rcases ih (idx + 1) (idx, info.full_height.getD 0) with h | ⟨j, info2, hj, hr⟩
        · right
          exact ⟨0, info, by simp, by rw [h]; congr 1 <;> omega⟩
        · right
          exact ⟨j + 1, info2, by simpa using hj, by rw [hr]; congr 1 <;> omega⟩
      · rw [if_neg hgt]
        rcases ih (idx + 1) best with h | ⟨j, info2, hj, hr⟩
        · left; exact h
        · right
          exact ⟨j + 1, info2, by simpa using hj, by rw [hr]; congr 1 <;> omega⟩

/-! ## Claim theorems: sync service -/

/-- C6 (amended): `find_best_node` fails with the no-nodes-available error
exactly when every responding node's reported full_height (missing treated
as 0) is at most 0 — in particular it also fails when nodes responded but
all reported height 0; when it succeeds the chosen index denotes a
responding node whose reported height is positive and maximal among the
responding nodes. -/
theorem C6_find_best_node (probes : List (Option NodeInfoDoc)) :
    (find_best_node probes = Except.error "No nodes available" ↔
      ∀ (j : Nat) (info : NodeInfoDoc), probes[j]? = some (some info) →
        info.full_height.getD 0 ≤ 0) ∧
    (∀ (i : Nat) (h : Int), find_best_node probes = Except.ok (i, h) →
      0 < h ∧
      (∃ info : NodeInfoDoc, probes[i]? = some (some info) ∧
        info.full_height.getD 0 = h) ∧
      ∀ (j : Nat) (info : NodeInfoDoc), probes[j]? = some (some info) →
        info.full_height.getD 0 ≤ h) := by
  have hge := findBestGo_ge probes 0 (0, 0)
  have hcases := findBestGo_cases probes 0 (0, 0)
  constructor
  · constructor
    · intro herr j info hj
      have hz : (findBestGo probes 0 (0, 0)).2 = 0 := by
        by_contra hnz
        simp only [find_best_node, if_neg hnz] at herr
        exact Except.noConfusion herr
      have := findBestGo_ge_heights probes 0 (0, 0) j info hj
      omega
    · intro hall
      have hz : (findBestGo probes 0 (0, 0)).2 = 0 := by
        rcases hcases with h | ⟨j, info, hj, hr⟩
        · rw [h]
        · have h1 := hall j info hj
          have h2 : (0 : Int) ≤ (findBestGo probes 0 (0, 0)).2 := hge
          rw [hr] at h2 ⊢
          simp only at h2 ⊢
          omega
      simp only [find_best_node, if_pos hz]
  · intro i h hok
    have hnz : (findBestGo probes 0 (0, 0)).2 ≠ 0 := by
      intro hz
      simp only [find_best_node, if_pos hz] at hok
      exact Except.noConfusion hok
    have hr : findBestGo probes 0 (0, 0) = (i, h) := by
      simp only [find_best_node, if_neg hnz] at hok
      exact Except.ok.inj hok
    have hpos : 0 < h := by
      rw [hr] at hge hnz
      simp only at hge hnz
      omega
    refine ⟨hpos, ?_, ?_⟩
    · rcases hcases with hc | ⟨j, info, hj, hrr⟩
      · rw [hr] at hc
        have : h = 0 := by
          have h2 := congrArg Prod.snd hc
          simpa using h2
        omega
      · rw [hr] at hrr
        have hi : i = j := by
          have := congrArg Prod.fst hrr
          simpa using this
        have hh : info.full_height.getD 0 = h := by
          have := congrArg Prod.snd hrr
          simpa using this.symm
        exact ⟨info, by rw [hi]; exact hj, hh⟩
    · intro j info hj
      have := findBestGo_ge_heights probes 0 (0, 0) j info hj
      rw [hr] at this
      exact this

/-- C6 counterexample: a single node responds with full_height 0, yet the
probe fails with no-nodes-available — the claim that the error occurs
exactly when no node responded is false. -/
theorem C6_counterexample :
    find_best_node [some (⟨some 0⟩ : NodeInfoDoc)]
        = Except.error "No nodes available" ∧
    [some (⟨some 0⟩ : NodeInfoDoc)].any Option.isSome = true := by
  constructor <;> rfl

/-- C6 witness: the success branch of the amended theorem at a concrete
probe list. -/
theorem C6_witness :
    (0 : Int) < 5 ∧
    (∃ info, [some (⟨some 5⟩ : NodeInfoDoc), none][0]? = some (some info) ∧
      info.full_height.getD 0 = 5) ∧
    ∀ (j : Nat) (info : NodeInfoDoc),
      [some (⟨some 5⟩ : NodeInfoDoc), none][j]? = some (some info) →
      info.full_height.getD 0 ≤ 5 :=
  (C6_find_best_node [some ⟨some 5⟩, none]).2 0 5 (by rfl)

/-- C7 (amended): during the batch fan-out over the window
[start, end], the fetch for height h is issued to the node at index
(h - start) mod num_nodes — the position of h within the window modulo
the node count — not h mod num_nodes. -/
theorem C7_fetch_assignment (s e : Int) (n : Nat) (h : Int)
    (h1 : s ≤ h) (h2 : h ≤ e) :
    (h, (h - s).toNat % n) ∈ fetch_assignments s e n ∧
    ∀ idx, (h, idx) ∈ fetch_assignments s e n → idx = (h - s).toNat % n := by
  constructor
  · rw [List.mem_iff_getElem?]
    refine ⟨(h - s).toNat, ?_⟩
    have hlt : (h - s).toNat < (e + 1 - s).toNat := by omega
    rw [fetch_assignments_getElem s e n _ hlt]
    congr 2
    omega
  · intro idx hmem
    rw [List.mem_iff_getElem?] at hmem
    obtain ⟨i, hi⟩ := hmem
    have hlen : i < (fetch_assignments s e n).length := by
      by_contra hge
      rw [List.getElem?_eq_none (by omega)] at hi
      exact Option.noConfusion hi
    rw [fetch_assignments_length] at hlen
    rw [fetch_assignments_getElem s e n i hlen] at hi
    have h3 : s + i = h ∧ i % n = idx := by
      have := Option.some.inj hi
      exact ⟨congrArg Prod.fst this, congrArg Prod.snd this⟩
    have : i = (h - s).toNat := by omega
    rw [← h3.2, this]

/-- C7 counterexample: window [1, 2] over 2 nodes — height 1 is fetched
from node 0, but 1 mod 2 = 1, so the claimed node choice h mod num_nodes
is wrong. -/
theorem C7_counterexample :
    ((1 : Int), (0 : Nat)) ∈ fetch_assignments 1 2 2 ∧ ¬((1 : Int) % 2 = 0) := by
  constructor
  · rw [show fetch_assignments 1 2 2 = [(1, 0), (2, 1)] from rfl]
    simp
  · decide

/-- C7 witness: the amended assignment at a concrete window. -/
theorem C7_witness :
    ((5 : Int), ((5 : Int) - 3).toNat % 2) ∈ fetch_assignments 3 7 2 ∧
    ∀ idx, ((5 : Int), idx) ∈ fetch_assignments 3 7 2 →
      idx = ((5 : Int) - 3).toNat % 2 :=
  C7_fetch_assignment 3 7 2 5 (by decide) (by decide)

/-- C8 (amended): for every byte string containing at least one nonzero
byte, base58_encode produces exactly as many leading '1' characters as the
string has leading zero bytes.  (An all-zero string of length at least 2
gains one extra '1' from the division loop, so the claim as stated fails
there.) -/
theorem C8_leading_ones (data : List Nat) (hnz : 0 < byteVal data) :
    ((base58_encode data).data.takeWhile (· = '1')).length
      = (data.takeWhile (· = 0)).length :=
  base58_leading_ones data hnz

/-- C8 counterexample: the all-zero 2-byte string has 2 leading zero bytes
but encodes to "111" with 3 leading '1' characters. -/
theorem C8_counterexample :
    ¬(((base58_encode [0, 0]).data.takeWhile (· = '1')).length
      = ([0, 0].takeWhile (· = (0 : Nat))).length) := by
  decide

/-- C8 witness: the amended statement at a concrete input with one leading
zero byte. -/
theorem C8_witness :
    ((base58_encode [0, 7]).data.takeWhile (· = '1')).length
      = ([0, 7].takeWhile (· = (0 : Nat))).length :=
  C8_leading_ones [0, 7] (by decide)

/-- C9 (amended): for every script hex that decodes to a nonempty byte
string, script_template_hash returns the 64-character hex encoding of the
full 32-byte Blake2b-256 hash of the first min(8, len) bytes of the
script; on invalid hex or an empty script it returns "" instead of a
hash, so the claim as stated fails there. -/
theorem C9_template_hash (s : String) (bytes : List Nat)
    (hdec : hexDecode s = some bytes) (hne : bytes ≠ []) :
    ergo_tree_template_hash s = hexEncode (blake2b256 (bytes.take 8)) ∧
    (ergo_tree_template_hash s).length = 64 := by
  have htake : (blake2b256 (bytes.take 8)).take 32 = blake2b256 (bytes.take 8) :=
    List.take_of_length_le (le_of_eq (blake2b256_length _))
  have hmain : ergo_tree_template_hash s = hexEncode (blake2b256 (bytes.take 8)) := by
    unfold ergo_tree_template_hash
    rw [hdec]
    simp only [hne, if_neg, if_false]
    by_cases hlen : bytes.length > 8
    · simp [hlen, htake]
    · have : bytes.take 8 = bytes := List.take_of_length_le (by omega)
      simp [hlen, this, List.take_of_length_le (le_of_eq (blake2b256_length _))]
  refine ⟨hmain, ?_⟩
  rw [hmain, hexEncode_length, blake2b256_length]

/-- C9 counterexample: the empty script hex decodes to zero bytes; the
code returns "" rather than the 64-character hash of the empty prefix. -/
theorem C9_counterexample : ¬((ergo_tree_template_hash "").length = 64) := by
  decide

/-- C9 witness: the amended statement at the one-byte script "00". -/
theorem C9_witness :
    ergo_tree_template_hash "00" = hexEncode (blake2b256 ([0].take 8)) ∧
    (ergo_tree_template_hash "00").length = 64 :=
  C9_template_hash "00" [0] (by rfl) (by decide)

/-! ## Claim C3: P2PK address derivation -/

/-- The content whose Base58 encoding the claim describes: 0x01, the
33 public-key bytes at offset 3, then the 4-byte Blake2b-256 checksum of
the preceding 34 bytes. -/
def p2pkContent (bytes : List Nat) : List Nat :=
  (0x01 :: (bytes.drop 3).take 33)
    ++ blake2b256_checksum (0x01 :: (bytes.drop 3).take 33)

/-- C3 (amended): for every script hex whose decoded bytes start with
0x00 0x08 0xcd and have length at least 36, script_to_address returns
Some of the Base58 encoding of (0x01, the 33 pubkey bytes at offset 3,
the first 4 bytes of the Blake2b-256 hash of those 34 bytes), and the
result always has length 51 (hence within [51, 52]); it begins with '9'
whenever the first pubkey byte is that of a compressed public key
(0x02 or 0x03) — for garbage pubkey bytes the leading character can
differ, so the unconditional '9' of the claim fails. -/
theorem C3_p2pk_address (s : String) (bytes : List Nat)
    (hdec : hexDecode s = some bytes) (hlen : 36 ≤ bytes.length)
    (h0 : bytes.getD 0 0 = 0x00) (h1 : bytes.getD 1 0 = 0x08)
    (h2 : bytes.getD 2 0 = 0xcd) :
    ergo_tree_to_address s = some (base58_encode (p2pkContent bytes)) ∧
    (base58_encode (p2pkContent bytes)).length = 51 ∧
    ∀ b0 : Nat, ((bytes.drop 3).take 33).head? = some b0 → (b0 = 2 ∨ b0 = 3) →
      (base58_encode (p2pkContent bytes)).data.head? = some '9' := by
  have hne : bytes ≠ [] := by
    intro h; rw [h] at hlen; simp at hlen
  -- the decoded pk slice and the checksum
  have hpk_len : ((bytes.drop 3).take 33).length = 33 := by
    rw [List.length_take, List.length_drop]; omega
  have hpk_lt : ∀ b ∈ (bytes.drop 3).take 33, b < 256 := fun b hb =>
    hexDecode_bytes s bytes hdec b (List.mem_of_mem_drop (List.mem_of_mem_take hb))
  have hcs_len : (blake2b256_checksum (0x01 :: (bytes.drop 3).take 33)).length = 4 := by
    unfold blake2b256_checksum
    rw [List.length_take, blake2b256_length]
    norm_num
  have hcs_lt : ∀ b ∈ blake2b256_checksum (0x01 :: (bytes.drop 3).take 33), b < 256 :=
    fun b hb => blake2b256_bytes _ b (List.mem_of_mem_take hb)
  -- content = 1 :: rest, rest 37 bytes below 256
  have hcontent : p2pkContent bytes
      = 1 :: ((bytes.drop 3).take 33
          ++ blake2b256_checksum (0x01 :: (bytes.drop 3).take 33)) := by
    unfold p2pkContent
    rw [List.cons_append]
  have hrest_len : ((bytes.drop 3).take 33
      ++ blake2b256_checksum (0x01 :: (bytes.drop 3).take 33)).length = 37 := by
    rw [List.length_append, hpk_len, hcs_len]
  have hrest_lt : ∀ b ∈ (bytes.drop 3).take 33
      ++ blake2b256_checksum (0x01 :: (bytes.drop 3).take 33), b < 256 := by
    intro b hb
    rcases List.mem_append.mp hb with h | h
    · exact hpk_lt b h
    · exact hcs_lt b h
  have hrest_bound : byteVal ((bytes.drop 3).take 33
      ++ blake2b256_checksum (0x01 :: (bytes.drop 3).take 33)) < 256 ^ 37 := by
    have := byteVal_lt _ hrest_lt
    rwa [hrest_len] at this
  have hv : byteVal (p2pkContent bytes)
      = 256 ^ 37 + byteVal ((bytes.drop 3).take 33
          ++ blake2b256_checksum (0x01 :: (bytes.drop 3).take 33)) := by
    rw [hcontent]
    show 1 * 256 ^ _ + _ = _
    rw [hrest_len]
    omega
  have hpow1 : (58 : Nat) ^ 50 ≤ 256 ^ 37 := by decide
  have hpow2 : 2 * (256 : Nat) ^ 37 ≤ 58 ^ 51 := by decide
  have hvlo : 58 ^ 50 ≤ byteVal (p2pkContent bytes) := by omega
  have hvhi : byteVal (p2pkContent bytes) < 58 ^ 51 := by omega
  have hvpos : 0 < byteVal (p2pkContent bytes) := by
    have : (0 : Nat) < 58 ^ 50 := Nat.pos_pow_of_pos _ (by norm_num)
    omega
  have hcond : bytes.length ≥ 36 ∧ bytes.getD 0 0 = 0 ∧ bytes.getD 1 0 = 8 ∧
      bytes.getD 2 0 = 0xcd := ⟨hlen, h0, h1, h2⟩
  refine ⟨?_, ?_, ?_⟩
  · simp only [ergo_tree_to_address, hdec]
    rw [if_neg hne, if_pos ⟨hlen, h0, h1, h2⟩]
    unfold encode_p2pk_address p2pkContent blake2b256_checksum MAINNET_P2PK_BYTE
    simp
  · rw [base58_encode_length, b58Loop_eq_digits _ _ rfl hvpos,
      digits58_length 50 _ hvlo (by exact hvhi)]
    rw [hcontent]
    simp [List.takeWhile_cons]
  · intro b0 hb0 hb0case
    obtain ⟨pk2, hpk2⟩ : ∃ pk2, (bytes.drop 3).take 33 = b0 :: pk2 := by
      rcases hl : (bytes.drop 3).take 33 with _ | ⟨x, t⟩
      · rw [hl] at hb0; simp at hb0
      · rw [hl] at hb0
        simp at hb0
        exact ⟨t, by rw [hb0]⟩
    have hpk2_len : pk2.length = 32 := by
      have := hpk_len
      rw [hpk2] at this
      simpa using this
    -- value decomposition with the first pubkey byte explicit
    have hrest2 : (bytes.drop 3).take 33
        ++ blake2b256_checksum (0x01 :: (bytes.drop 3).take 33)
        = b0 :: (pk2 ++ blake2b256_checksum (0x01 :: (bytes.drop 3).take 33)) := by
      rw [hpk2, List.cons_append]
    have hrest2_len : (pk2 ++ blake2b256_checksum
        (0x01 :: (bytes.drop 3).take 33)).length = 36 := by
      rw [List.length_append, hpk2_len, hcs_len]
    have hrest2_lt : ∀ b ∈ pk2 ++ blake2b256_checksum
        (0x01 :: (bytes.drop 3).take 33), b < 256 := by
      intro b hb
      rcases List.mem_append.mp hb with h | h
      · exact hpk_lt b (by rw [hpk2]; exact List.mem_cons_of_mem _ h)
      · exact hcs_lt b h
    have hr2 : byteVal (pk2 ++ blake2b256_checksum
        (0x01 :: (bytes.drop 3).take 33)) < 256 ^ 36 := by
      have := byteVal_lt _ hrest2_lt
      rwa [hrest2_len] at this
    have hv2 : byteVal (p2pkContent bytes)
        = 256 ^ 37 + (b0 * 256 ^ 36 + byteVal (pk2 ++ blake2b256_checksum
            (0x01 :: (bytes.drop 3).take 33))) := by
      rw [hv, hrest2]
      simp only [byteVal, hrest2_len]
    have hpow3 : 8 * (58 : Nat) ^ 50 ≤ 258 * 256 ^ 36 := by decide
    have hpow4 : 260 * (256 : Nat) ^ 36 ≤ 9 * 58 ^ 50 := by decide
    have h37 : (256 : Nat) ^ 37 = 256 * 256 ^ 36 := by ring
    have hdiv : byteVal (p2pkContent bytes) / 58 ^ 50 = 8 := by
      apply Nat.div_eq_of_lt_le
      · rcases hb0case with rfl | rfl <;> omega
      · show byteVal (p2pkContent bytes) < (8 + 1) * 58 ^ 50
        rcases hb0case with rfl | rfl <;> omega
    have hlast : (digits58 (byteVal (p2pkContent bytes))).getLast? = some 8 := by
      rw [digits58_getLast 50 _ hvlo (by exact hvhi), hdiv]
    rw [base58_encode_data, b58Loop_eq_digits _ _ rfl hvpos]
    rw [hcontent]
    simp only [List.takeWhile_cons]
    norm_num
    rw [← hcontent]
    exact ⟨8, hlast, by decide⟩

set_option maxRecDepth 100000 in
/-- C3 counterexample: a syntactically valid P2PK script whose 33
"pubkey" bytes are all 0xff derives an address beginning with 'J', not
'9' — the claim's unconditional leading-'9' fails. -/
theorem C3_counterexample :
    ergo_tree_to_address
        "0008cdffffffffffffffffffffffffffffffffffffffffffffffffffffffffffffffffff"
      = some "JAG9KioMJqGx32Y79nnbMByVsQJfqYTKtFG7uhByxWRZfKVvQ4j" ∧
    ("JAG9KioMJqGx32Y79nnbMByVsQJfqYTKtFG7uhByxWRZfKVvQ4j" : String).data.head?
      ≠ some '9' := by
  constructor
  · rfl
  · decide

set_option maxRecDepth 100000 in
/-- C3 witness: the amended statement at a concrete script with a
compressed-pubkey first byte 0x02. -/
theorem C3_witness :
    ergo_tree_to_address
        "0008cd020000000000000000000000000000000000000000000000000000000000000000"
      = some (base58_encode (p2pkContent ([0x00, 0x08, 0xcd, 0x02]
          ++ List.replicate 32 0))) ∧
    (base58_encode (p2pkContent ([0x00, 0x08, 0xcd, 0x02]
        ++ List.replicate 32 0))).length = 51 ∧
    ∀ b0 : Nat, ((([0x00, 0x08, 0xcd, 0x02] ++ List.replicate 32 0).drop 3).take 33).head?
        = some b0 → (b0 = 2 ∨ b0 = 3) →
      (base58_encode (p2pkContent ([0x00, 0x08, 0xcd, 0x02]
          ++ List.replicate 32 0))).data.head? = some '9' :=
  C3_p2pk_address _ _ (by decide) (by decide) (by decide) (by decide) (by decide)

end Indexer
